/-
  Verification of the monkeypuzzle piece-lifecycle engine.

  This development gives a shallow embedding of the Go sources
  (internal/core/piece, internal/adapters) into Lean 4:

  * pure string helpers mirror the fragments of Go's strings and
    path/filepath packages the code uses;
  * external effects (subprocess execution, filesystem writes, tmux,
    output messages) are modelled by a writer/except monad `M` recording a
    trace of `Call`s, with subprocess / filesystem / JSON-decoding results
    supplied by a `GoEnv` oracle, exactly as the repository's own tests
    drive the handlers through `MockExec` / `MemoryFS`;
  * each handler function is translated statement-by-statement from the
    Go source it embeds.

  Theorems at the end settle the specification claims.
-/
import Mathlib

set_option linter.unusedVariables false

namespace MP

/-! ## Go string primitives

Kernel-computable models of the `strings` package functions used by the
sources.  They operate on `String.data : List Char` so that all proofs can
proceed by structural induction and concrete instances evaluate by
`decide` / `rfl`. -/

/-- Whitespace as recognised by `strings.TrimSpace` / regexp `\s`
(ASCII fragment: space, tab, newline, vertical tab, form feed,
carriage return). -/
def goIsSpace (c : Char) : Bool :=
  c == ' ' || c == '\t' || c == '\n' || c == '\r' || c.val == 11 || c.val == 12

/-- Drop characters satisfying `p` from the end of a list. -/
def dropTrailing (p : Char → Bool) (cs : List Char) : List Char :=
  (cs.reverse.dropWhile p).reverse

/-- Trim characters satisfying `p` from both ends (core of `strings.Trim`). -/
def trimByL (p : Char → Bool) (cs : List Char) : List Char :=
  dropTrailing p (cs.dropWhile p)

/-- Model of `strings.TrimSpace`. -/
def goTrim (s : String) : String :=
  String.mk (trimByL goIsSpace s.data)

/-- Model of `strings.Trim s cutset` for an explicit cutset list. -/
def goTrimCut (s : String) (cut : List Char) : String :=
  String.mk (trimByL (fun c => cut.contains c) s.data)

/-- Split a character list at every occurrence of `sep`. -/
def splitChar (sep : Char) : List Char → List Char → List (List Char)
  | [], acc => [acc.reverse]
  | c :: rest, acc =>
    if c == sep then acc.reverse :: splitChar sep rest []
    else splitChar sep rest (c :: acc)

/-- Model of `strings.Split s "\n"`. -/
def goSplitNL (s : String) : List String :=
  (splitChar '\n' s.data []).map String.mk

/-- Model of `strings.Split s "/"`. -/
def goSplitSlash (s : String) : List String :=
  (splitChar '/' s.data []).map String.mk

/-- Model of `strings.Join l "\n"`. -/
def goJoinNL : List String → String
  | [] => ""
  | [x] => x
  | x :: xs => x ++ "\n" ++ goJoinNL xs

/-- Model of `strings.Join l "/"`. -/
def goJoinSlash : List String → String
  | [] => ""
  | [x] => x
  | x :: xs => x ++ "/" ++ goJoinSlash xs

/-- Is `pre` a prefix of `cs`?  (core of `strings.HasPrefix`). -/
def isPfxOf : List Char → List Char → Bool
  | [], _ => true
  | _ :: _, [] => false
  | p :: ps, c :: cs => p == c && isPfxOf ps cs

/-- Model of `strings.HasPrefix s pre`. -/
def goStartsWith (s pre : String) : Bool :=
  isPfxOf pre.data s.data

/-- Model of `strings.TrimPrefix s pre`. -/
def goTrimPfx (s pre : String) : String :=
  if goStartsWith s pre then String.mk (s.data.drop pre.data.length) else s

/-- Does `sub` occur inside `cs`?  (core of `strings.Contains`). -/
def containsSub (sub : List Char) : List Char → Bool
  | [] => isPfxOf sub []
  | c :: cs => isPfxOf sub (c :: cs) || containsSub sub cs

/-- Model of `strings.Contains s sub`. -/
def goContains (s sub : String) : Bool :=
  containsSub sub.data s.data

/-- Decimal digit character. -/
def digitChar (n : Nat) : Char :=
  Char.ofNat (48 + n)

/-- Decimal digits of `n` (with fuel for structural recursion). -/
def natDigits : Nat → Nat → List Char
  | 0, _ => []
  | fuel + 1, n =>
    if n < 10 then [digitChar n]
    else natDigits fuel (n / 10) ++ [digitChar (n % 10)]

/-- Decimal rendering of a natural number (`fmt.Sprintf "%d"`). -/
def goNatToStr (n : Nat) : String :=
  String.mk (natDigits (n + 1) n)

/-- Model of `fmt.Sprintf "%q"` (double quotes; escaping not modelled, the
arguments quoted by the sources never contain quote characters). -/
def goQuote (s : String) : String :=
  "\"" ++ s ++ "\""

/-! ## Go path/filepath primitives (unix rules) -/

/-- Model of `filepath.IsAbs`. -/
def fpIsAbs (p : String) : Bool :=
  isPfxOf ['/'] p.data

/-- Lexical path-component processing used by `filepath.Clean`:
empty and `.` components vanish; `..` pops the previous component when
possible, is dropped at the root, and is kept when a relative path has
nothing left to pop. -/
def cleanComps (rooted : Bool) : List String → List String → List String
  | [], acc => acc.reverse
  | "" :: rest, acc => cleanComps rooted rest acc
  | "." :: rest, acc => cleanComps rooted rest acc
  | ".." :: rest, acc =>
    match acc with
    | [] => if rooted then cleanComps rooted rest [] else cleanComps rooted rest [".."]
    | top :: below =>
      if top == ".." then cleanComps rooted rest (".." :: top :: below)
      else cleanComps rooted rest below
  | comp :: rest, acc => cleanComps rooted rest (comp :: acc)

/-- Model of `filepath.Clean`. -/
def fpClean (p : String) : String :=
  if p = "" then "."
  else
    let rooted := fpIsAbs p
    let comps := cleanComps rooted (goSplitSlash p) []
    let joined := goJoinSlash comps
    if rooted then "/" ++ joined
    else if joined = "" then "." else joined

/-- Model of `filepath.Join`: skip leading empty elements, join the rest
with `/`, then `Clean`. -/
def fpJoin (elems : List String) : String :=
  match elems.dropWhile (fun e => e == "") with
  | [] => ""
  | rest => fpClean (goJoinSlash rest)

/-- Characters of `cs` after the last slash. -/
def afterLastSlash (cs : List Char) : List Char :=
  (cs.reverse.takeWhile (fun c => c ≠ '/')).reverse

/-- Characters of `cs` up to and including the last slash. -/
def upToLastSlash (cs : List Char) : List Char :=
  (cs.reverse.dropWhile (fun c => c ≠ '/')).reverse

/-- Model of `filepath.Base`. -/
def fpBase (p : String) : String :=
  if p = "" then "."
  else
    let stripped := dropTrailing (fun c => c == '/') p.data
    if stripped.isEmpty then "/"
    else String.mk (afterLastSlash stripped)

/-- Model of `filepath.Dir`: everything up to the final separator,
cleaned (`Clean ""` is `"."`). -/
def fpDir (p : String) : String :=
  fpClean (String.mk (upToLastSlash p.data))

/-- Model of `filepath.Abs` given the working directory `cwd`. -/
def fpAbs (cwd p : String) : String :=
  if fpIsAbs p then fpClean p else fpJoin [cwd, p]

/-- Path components of a cleaned path, after removing a leading slash when
`slashed` (helper for `fpRel`). -/
def relComps (slashed : Bool) (s : String) : List String :=
  let s' := if slashed then String.mk (s.data.drop 1) else s
  if s' = "" then [] else goSplitSlash s'

/-- Drop the longest common prefix of two component lists, returning the
two remainders (helper for `fpRel`). -/
def dropCommon : List String → List String → List String × List String
  | b :: bs, t :: ts =>
    if b == t then dropCommon bs ts else (b :: bs, t :: ts)
  | bs, ts => (bs, ts)

/-- Model of `filepath.Rel` (unix, no volume names): clean both paths,
require equal rootedness, strip the common component prefix, and climb
with `..` for each remaining base component. -/
def fpRel (basepath targpath : String) : Except String String :=
  let base := fpClean basepath
  let targ := fpClean targpath
  if targ = base then Except.ok "."
  else
    let base := if base = "." then "" else base
    let baseSlashed := goStartsWith base "/"
    let targSlashed := goStartsWith targ "/"
    if baseSlashed ≠ targSlashed then
      Except.error ("Rel: can't make " ++ targpath ++ " relative to " ++ basepath)
    else
      let (bs, ts) := dropCommon (relComps baseSlashed base) (relComps targSlashed targ)
      if bs.head? = some ".." then
        Except.error ("Rel: can't make " ++ targpath ++ " relative to " ++ basepath)
      else if bs ≠ [] then
        Except.ok (goJoinSlash (List.replicate bs.length ".." ++ ts))
      else
        Except.ok (goJoinSlash ts)

/-! ## SanitizePieceName  (internal/core/piece/issue.go)

The Go function classifies runes with the `unicode` package and lowercases
with `strings.ToLower`.  The embedding is parameterised by a `CharClass`
carrying those classification functions, so the theorems hold for every
classifier with the documented properties of Go's unicode tables. -/

/-- Character classification / case-mapping functions of Go's `unicode`
and `strings` packages, abstracted. -/
structure CharClass where
  toLower : Char → Char
  isLetter : Char → Bool
  isDigit : Char → Bool
  isPunct : Char → Bool
  isSpace : Char → Bool
  isControl : Char → Bool

/-- Characters that are invalid in filenames on most filesystems
(the `invalidChars` list of `SanitizePieceName`). -/
def invalidChars : List Char :=
  ['/', '\\', ':', '*', '?', Char.ofNat 34, '<', '>', '|', Char.ofNat 0]

/-- The condition under which `SanitizePieceName`'s loop appends a rune
verbatim (it fell through every replace/skip branch and is a letter,
digit or hyphen). -/
def keptChar (cc : CharClass) (r : Char) : Bool :=
  !(invalidChars.contains r) && !(cc.isControl r) &&
  !(cc.isSpace r || r == '_' || r == '.') &&
  !(cc.isPunct r && r != '-') &&
  (cc.isLetter r || cc.isDigit r || r == '-')

/-- The per-rune loop of `SanitizePieceName`: each branch mirrors the Go
loop body; `prev` is the `prevWasSeparator` flag. -/
def sanLoop (cc : CharClass) : Bool → List Char → List Char
  | _, [] => []
  | prev, r :: rest =>
    if invalidChars.contains r || cc.isControl r then
      if prev then sanLoop cc true rest else '-' :: sanLoop cc true rest
    else if cc.isSpace r || r == '_' || r == '.' then
      if prev then sanLoop cc true rest else '-' :: sanLoop cc true rest
    else if cc.isPunct r && r != '-' then
      if prev then sanLoop cc true rest else '-' :: sanLoop cc true rest
    else if cc.isLetter r || cc.isDigit r || r == '-' then
      r :: sanLoop cc false rest
    else
      sanLoop cc prev rest

/-- Collapse every run of hyphens to a single hyphen (the
`hyphenRegex.ReplaceAllString(s, "-")` step); `prevHyphen` tracks whether
the previous emitted character was part of a hyphen run. -/
def collapseH : Bool → List Char → List Char
  | _, [] => []
  | prevHyphen, c :: rest =>
    if c == '-' then
      if prevHyphen then collapseH true rest
      else '-' :: collapseH true rest
    else c :: collapseH false rest

/-- Model of `SanitizePieceName` (issue.go): lowercase, run the
replace/skip loop, trim hyphens at both ends, collapse hyphen runs, and
fall back to the literal `"piece"` when empty. -/
def SanitizePieceName (cc : CharClass) (name : String) : String :=
  let lowered := name.data.map cc.toLower
  let result := sanLoop cc false lowered
  let resultStr := trimByL (fun c => c == '-') result
  let collapsed := collapseH false resultStr
  if collapsed.isEmpty then "piece" else String.mk collapsed

/-- The properties of Go's unicode tables the idempotence proof relies on:
`ToLower` is idempotent, a hyphen is lowercase and survives the loop
verbatim, and the letters of the fallback word `piece` are lowercase and
survive the loop verbatim. -/
structure WellFormedClass (cc : CharClass) : Prop where
  lower_idem : ∀ c, cc.toLower (cc.toLower c) = cc.toLower c
  hyphen_kept : keptChar cc '-' = true
  hyphen_lower : cc.toLower '-' = '-'
  piece_stable : ∀ c ∈ ("piece" : String).data, cc.toLower c = c ∧ keptChar cc c = true

/-! ### Structural lemmas about the sanitiser -/

theorem mem_sanLoop (cc : CharClass) :
    ∀ (cs : List Char) (prev : Bool) (c : Char), c ∈ sanLoop cc prev cs →
      c = '-' ∨ (keptChar cc c = true ∧ c ∈ cs) := by
  intro cs
  induction cs with
  | nil => intro prev c h; simp [sanLoop] at h
  | cons r rest ih =>
    intro prev c h
    simp only [sanLoop] at h
    split at h
    · split at h
      · rcases ih _ _ h with h' | ⟨hk, hm⟩
        · exact Or.inl h'
        · exact Or.inr ⟨hk, List.mem_cons_of_mem _ hm⟩
      · rcases List.mem_cons.mp h with h' | h'
        · exact Or.inl h'
        · rcases ih _ _ h' with h'' | ⟨hk, hm⟩
          · exact Or.inl h''
          · exact Or.inr ⟨hk, List.mem_cons_of_mem _ hm⟩
    · split at h
      · split at h
        · rcases ih _ _ h with h' | ⟨hk, hm⟩
          · exact Or.inl h'
          · exact Or.inr ⟨hk, List.mem_cons_of_mem _ hm⟩
        · rcases List.mem_cons.mp h with h' | h'
          · exact Or.inl h'
          · rcases ih _ _ h' with h'' | ⟨hk, hm⟩
            · exact Or.inl h''
            · exact Or.inr ⟨hk, List.mem_cons_of_mem _ hm⟩
      · split at h
        · split at h
          · rcases ih _ _ h with h' | ⟨hk, hm⟩
            · exact Or.inl h'
            · exact Or.inr ⟨hk, List.mem_cons_of_mem _ hm⟩
          · rcases List.mem_cons.mp h with h' | h'
            · exact Or.inl h'
            · rcases ih _ _ h' with h'' | ⟨hk, hm⟩
              · exact Or.inl h''
              · exact Or.inr ⟨hk, List.mem_cons_of_mem _ hm⟩
        · split at h
          · rcases List.mem_cons.mp h with h' | h'
            · subst h'
              refine Or.inr ⟨?_, List.mem_cons_self _ _⟩
              rename_i h1 h2 h3 h4
              simp only [Bool.not_eq_true, Bool.or_eq_false_iff] at h1 h2 h3
              have h1' : c ∉ invalidChars := by simpa using h1.1
              simp [keptChar, h1', h1.2, h2.1.1, h2.1.2, h2.2, h3, h4]
            · rcases ih _ _ h' with h'' | ⟨hk, hm⟩
              · exact Or.inl h''
              · exact Or.inr ⟨hk, List.mem_cons_of_mem _ hm⟩
          · rcases ih _ _ h with h' | ⟨hk, hm⟩
            · exact Or.inl h'
            · exact Or.inr ⟨hk, List.mem_cons_of_mem _ hm⟩

theorem sanLoop_kept_id (cc : CharClass) :
    ∀ (cs : List Char), (∀ c ∈ cs, keptChar cc c = true) →
      ∀ prev, sanLoop cc prev cs = cs := by
  intro cs
  induction cs with
  | nil => intro _ prev; simp [sanLoop]
  | cons r rest ih =>
    intro h prev
    have hr : keptChar cc r = true := h r (List.mem_cons_self _ _)
    have hrest : ∀ c ∈ rest, keptChar cc c = true :=
      fun c hc => h c (List.mem_cons_of_mem _ hc)
    unfold keptChar at hr
    simp only [Bool.and_eq_true, Bool.not_eq_true'] at hr
    obtain ⟨⟨⟨⟨h1, h2⟩, h3⟩, h4⟩, h5⟩ := hr
    simp only [sanLoop, h1, h2, h3, h4, h5]
    simp [ih hrest]

theorem mem_trimByL (p : Char → Bool) (l : List Char) (c : Char)
    (h : c ∈ trimByL p l) : c ∈ l := by
  unfold trimByL dropTrailing at h
  rw [List.mem_reverse] at h
  have h1 := (List.dropWhile_sublist p).subset h
  rw [List.mem_reverse] at h1
  exact (List.dropWhile_sublist p).subset h1

theorem mem_collapseH :
    ∀ (l : List Char) (b : Bool) (c : Char), c ∈ collapseH b l → c ∈ l := by
  intro l
  induction l with
  | nil => intro b c h; simp [collapseH] at h
  | cons a rest ih =>
    intro b c h
    simp only [collapseH] at h
    split at h
    · split at h
      · exact List.mem_cons_of_mem _ (ih _ _ h)
      · rcases List.mem_cons.mp h with h' | h'
        · rename_i ha _; subst h'; rw [beq_iff_eq] at ha; subst ha
          exact List.mem_cons_self _ _
        · exact List.mem_cons_of_mem _ (ih _ _ h')
    · rcases List.mem_cons.mp h with h' | h'
      · subst h'; exact List.mem_cons_self _ _
      · exact List.mem_cons_of_mem _ (ih _ _ h')

theorem dropWhile_head_false (p : Char → Bool) :
    ∀ (l : List Char) (c : Char), (l.dropWhile p).head? = some c → p c = false := by
  intro l
  induction l with
  | nil => intro c h; simp [List.dropWhile] at h
  | cons a rest ih =>
    intro c h
    rw [List.dropWhile_cons] at h
    split at h
    · exact ih c h
    · rename_i hp
      simp only [List.head?_cons, Option.some.injEq] at h
      subst h
      exact Bool.of_not_eq_true hp

theorem dropWhile_id_of_head (p : Char → Bool) (l : List Char)
    (h : ∀ c, l.head? = some c → p c = false) : l.dropWhile p = l := by
  cases l with
  | nil => simp
  | cons a rest =>
    have := h a (by simp)
    simp [List.dropWhile_cons, this]

theorem dropTrailing_isPrefix (p : Char → Bool) (l : List Char) :
    (dropTrailing p l).IsPrefix l := by
  unfold dropTrailing
  have h : (l.reverse.dropWhile p).IsSuffix l.reverse := List.dropWhile_suffix p
  have h2 : ((l.reverse.dropWhile p).reverse).IsPrefix l.reverse.reverse :=
    List.reverse_prefix.mpr h
  rwa [List.reverse_reverse] at h2

theorem head_of_isPrefix {l m : List Char} {c : Char}
    (hp : l.IsPrefix m) (h : l.head? = some c) : m.head? = some c := by
  rcases hp with ⟨t, rfl⟩
  cases l with
  | nil => simp at h
  | cons a rest => simpa using h

theorem trimByL_head (p : Char → Bool) (l : List Char) (c : Char)
    (h : (trimByL p l).head? = some c) : p c = false := by
  unfold trimByL at h
  have h2 : (l.dropWhile p).head? = some c :=
    head_of_isPrefix (dropTrailing_isPrefix p (l.dropWhile p)) h
  exact dropWhile_head_false p l c h2

theorem trimByL_last (p : Char → Bool) (l : List Char) (c : Char)
    (h : (trimByL p l).getLast? = some c) : p c = false := by
  unfold trimByL dropTrailing at h
  rw [List.getLast?_reverse] at h
  exact dropWhile_head_false p _ c h

theorem trimByL_id (p : Char → Bool) (l : List Char)
    (hh : ∀ c, l.head? = some c → p c = false)
    (hl : ∀ c, l.getLast? = some c → p c = false) : trimByL p l = l := by
  unfold trimByL dropTrailing
  rw [dropWhile_id_of_head p l hh]
  rw [dropWhile_id_of_head p l.reverse (by intro c hc; rw [List.head?_reverse] at hc; exact hl c hc)]
  exact List.reverse_reverse l

/-- No two adjacent hyphens. -/
def noHypRun : List Char → Bool
  | c :: d :: rest => !(c == '-' && d == '-') && noHypRun (d :: rest)
  | _ => true

theorem collapseH_true_head :
    ∀ (l : List Char) (c : Char), (collapseH true l).head? = some c → c ≠ '-' := by
  intro l
  induction l with
  | nil => intro c h; simp [collapseH] at h
  | cons a rest ih =>
    intro c h
    simp only [collapseH] at h
    split at h
    · exact ih c h
    · rename_i ha
      simp only [List.head?_cons, Option.some.injEq] at h
      subst h
      intro hc; subst hc; simp at ha

theorem noHypRun_collapseH : ∀ (l : List Char) (b : Bool), noHypRun (collapseH b l) = true := by
  intro l
  induction l with
  | nil => intro b; simp [collapseH, noHypRun]
  | cons a rest ih =>
    intro b
    simp only [collapseH]
    split
    · split
      · exact ih true
      · rename_i ha _
        rw [beq_iff_eq] at ha; subst ha
        rcases hrec : collapseH true rest with _ | ⟨d, out⟩
        · simp [noHypRun]
        · have hd : d ≠ '-' := collapseH_true_head rest d (by rw [hrec]; simp)
          have := ih true
          rw [hrec] at this
          simp only [noHypRun, Bool.and_eq_true]
          refine ⟨?_, this⟩
          simp [hd]
    · rename_i ha
      rcases hrec : collapseH false rest with _ | ⟨d, out⟩
      · simp [noHypRun]
      · have := ih false
        rw [hrec] at this
        simp only [noHypRun, Bool.and_eq_true]
        refine ⟨?_, this⟩
        simp only [Bool.not_eq_true', Bool.and_eq_false_iff]
        left
        simpa using ha

theorem collapseH_noRun_id :
    ∀ (l : List Char), noHypRun l = true →
      collapseH false l = l ∧ (l.head? ≠ some '-' → collapseH true l = l) := by
  intro l
  induction l with
  | nil => intro _; simp [collapseH]
  | cons a rest ih =>
    intro h
    have hrest : noHypRun rest = true := by
      cases rest with
      | nil => simp [noHypRun]
      | cons d out =>
        simp only [noHypRun, Bool.and_eq_true] at h
        exact h.2
    obtain ⟨ih1, ih2⟩ := ih hrest
    constructor
    · simp only [collapseH]
      split
      · rename_i ha
        rw [beq_iff_eq] at ha; subst ha
        have hne : rest.head? ≠ some '-' := by
          cases rest with
          | nil => simp
          | cons d out =>
            simp only [noHypRun, Bool.and_eq_true] at h
            have := h.1
            simp only [Bool.not_eq_true', Bool.and_eq_false_iff] at this
            rcases this with h' | h'
            · simp at h'
            · simp only [List.head?_cons, ne_eq, Option.some.injEq]
              intro hd; subst hd; simp at h'
        rw [ih2 hne]
        simp
      · rw [ih1]
    · intro hh
      simp only [List.head?_cons, ne_eq, Option.some.injEq] at hh
      simp only [collapseH]
      rw [if_neg (by simp [hh]), ih1]

theorem collapseH_head (l : List Char) (c : Char) (hc : c ≠ '-')
    (h : l.head? = some c) : (collapseH false l).head? = some c := by
  cases l with
  | nil => simp at h
  | cons a rest =>
    simp only [List.head?_cons, Option.some.injEq] at h
    subst h
    simp only [collapseH]
    rw [if_neg (by simp [hc])]
    simp

theorem collapseH_last :
    ∀ (l : List Char) (b : Bool) (c : Char), c ≠ '-' → l.getLast? = some c →
      (collapseH b l).getLast? = some c := by
  intro l
  induction l with
  | nil => intro b c _ h; simp at h
  | cons a rest ih =>
    intro b c hc h
    cases rest with
    | nil =>
      simp only [List.getLast?_singleton, Option.some.injEq] at h
      subst h
      have ha : (a == '-') = false := by simp [hc]
      simp [collapseH, ha]
    | cons d out =>
      rw [List.getLast?_cons_cons] at h
      have htail : ∀ b', (collapseH b' (d :: out)).getLast? = some c :=
        fun b' => ih b' c hc h
      clear h ih
      revert htail
      generalize d :: out = rest'
      intro htail
      simp only [collapseH]
      split
      · split
        · exact htail true
        · rcases hrec : collapseH true rest' with _ | ⟨e, res⟩
          · have := htail true; rw [hrec] at this; simp at this
          · rw [List.getLast?_cons_cons]
            have := htail true; rwa [hrec] at this
      · rcases hrec : collapseH false rest' with _ | ⟨e, res⟩
        · have := htail false; rw [hrec] at this; simp at this
        · rw [List.getLast?_cons_cons]
          have := htail false; rwa [hrec] at this

theorem collapseH_false_head (m : List Char) : (collapseH false m).head? = m.head? := by
  cases m with
  | nil => rfl
  | cons a r =>
    simp only [collapseH]
    split
    · rename_i ha; rw [beq_iff_eq] at ha; subst ha; simp
    · simp

/-- C9: `SanitizePieceName` is idempotent — for every input string `x` and
every character classifier with the documented properties of Go's
`unicode` package, sanitising twice equals sanitising once. -/
theorem SanitizePieceName_idempotent (cc : CharClass) (h : WellFormedClass cc)
    (x : String) :
    SanitizePieceName cc (SanitizePieceName cc x) = SanitizePieceName cc x := by
  generalize hz :
    collapseH false (trimByL (fun c => c == '-') (sanLoop cc false (x.data.map cc.toLower))) = z
  have hx : SanitizePieceName cc x = if z.isEmpty then "piece" else String.mk z := by
    simp only [SanitizePieceName]
    rw [hz]
  by_cases hez : z.isEmpty = true
  · rw [hx, if_pos hez]
    show SanitizePieceName cc "piece" = "piece"
    have hmap : (("piece" : String).data).map cc.toLower = ("piece" : String).data := by
      rw [List.map_congr_left (g := id) (fun c hc => (h.piece_stable c hc).1), List.map_id]
    simp only [SanitizePieceName]
    rw [hmap, sanLoop_kept_id cc _ (fun c hc => (h.piece_stable c hc).2)]
    decide
  · rw [hx, if_neg hez]
    have hchars : ∀ c ∈ z, keptChar cc c = true ∧ cc.toLower c = c := by
      intro c hcz
      have hcm : c ∈ trimByL (fun c => c == '-') (sanLoop cc false (x.data.map cc.toLower)) := by
        rw [← hz] at hcz
        exact mem_collapseH _ _ _ hcz
      have hcw : c ∈ sanLoop cc false (x.data.map cc.toLower) := mem_trimByL _ _ _ hcm
      rcases mem_sanLoop cc _ _ _ hcw with hc' | ⟨hk, hm⟩
      · subst hc'
        exact ⟨h.hyphen_kept, h.hyphen_lower⟩
      · refine ⟨hk, ?_⟩
        rcases List.mem_map.mp hm with ⟨a, _, rfl⟩
        exact h.lower_idem a
    have hmap2 : z.map cc.toLower = z := by
      rw [List.map_congr_left (g := id) (fun c hc => (hchars c hc).2), List.map_id]
    have hsan : sanLoop cc false z = z :=
      sanLoop_kept_id cc z (fun c hc => (hchars c hc).1) false
    have hhead : ∀ c, z.head? = some c → (c == '-') = false := by
      intro c hc
      rw [← hz, collapseH_false_head] at hc
      exact trimByL_head (fun c => c == '-') (sanLoop cc false (x.data.map cc.toLower)) c hc
    have hlast : ∀ c, z.getLast? = some c → (c == '-') = false := by
      intro c hc
      rcases hmlist : trimByL (fun c => c == '-') (sanLoop cc false (x.data.map cc.toLower))
          with _ | ⟨a, r⟩
      · rw [hmlist] at hz
        simp only [collapseH] at hz
        rw [← hz] at hez
        simp at hez
      · have hcl : (a :: r).getLast? = some (r.getLast?.getD a) := List.getLast?_cons
        have hpcl : ((r.getLast?.getD a) == '-') = false := by
          refine trimByL_last (fun c => c == '-') (sanLoop cc false (x.data.map cc.toLower)) _ ?_
          rw [hmlist]
          exact hcl
        have hzl : z.getLast? = some (r.getLast?.getD a) := by
          rw [← hz, hmlist]
          exact collapseH_last _ false _ (by simpa using hpcl) hcl
        rw [hc] at hzl
        simp only [Option.some.injEq] at hzl
        rw [hzl]
        exact hpcl
    have htrim : trimByL (fun c => c == '-') z = z := trimByL_id _ z hhead hlast
    have hnorun : noHypRun z = true := by
      rw [← hz]
      exact noHypRun_collapseH _ false
    have hcol : collapseH false z = z := (collapseH_noRun_id z hnorun).1
    show SanitizePieceName cc (String.mk z) = String.mk z
    simp only [SanitizePieceName]
    rw [hmap2, hsan, htrim, hcol, if_neg hez]

/-- A concrete classifier instance for the idempotence witness: identity
case-mapping, ASCII lowercase letters.  (It satisfies `WellFormedClass`,
as Go's real unicode tables do.) -/
def ccId : CharClass where
  toLower := id
  isLetter := fun c => decide ('a' ≤ c ∧ c ≤ 'z')
  isDigit := fun _ => false
  isPunct := fun _ => false
  isSpace := fun _ => false
  isControl := fun _ => false

theorem ccId_wellFormed : WellFormedClass ccId := by
  refine ⟨fun c => rfl, by decide, rfl, by decide⟩

/-- Witness for C9 at the concrete classifier `ccId` and input
`"Add Login!"`. -/
theorem SanitizePieceName_idempotent_witness :
    WellFormedClass ccId ∧
      SanitizePieceName ccId (SanitizePieceName ccId "Add Login!") =
        SanitizePieceName ccId "Add Login!" :=
  ⟨ccId_wellFormed, SanitizePieceName_idempotent ccId ccId_wellFormed "Add Login!"⟩

/-! ## Issue status frontmatter  (internal/core/piece/issue.go)

`ParseStatus` / `UpdateStatus` read a file and apply the pure content
transformations below; the filesystem read/write is factored out, so the
round-trip claims are settled on the content level. -/

/-- Status values for issue tracking. -/
def StatusTodo : String := "todo"

def StatusInProgress : String := "in-progress"

def StatusDone : String := "done"

def DefaultStatus : String := StatusTodo

def validStatuses : List String := [StatusTodo, StatusInProgress, StatusDone]

/-- Model of `ValidateStatus` (linear scan of `validStatuses`). -/
def ValidateStatus (status : String) : Bool :=
  validStatuses.contains status

/-- Whitespace of Go's regexp class `\s` (no vertical tab, unlike
`unicode.IsSpace`). -/
def goIsRegexSpace (c : Char) : Bool :=
  c == ' ' || c == '\t' || c == '\n' || c == '\r' || c.val == 12

/-- ASCII lowering used to model the `(?i)` flag of `statusRegex`. -/
def asciiLowerChar (c : Char) : Char :=
  if 'A' ≤ c ∧ c ≤ 'Z' then Char.ofNat (c.toNat + 32) else c

/-- Model of `statusRegex.FindStringSubmatch (strings.TrimSpace line)`:
the regex is `(?i)^status:\s*(.+)$`; on the trimmed line this is a
case-insensitive `status:` head, optional regex-whitespace, and a
non-empty remainder (the capture). -/
def statusLineCapture (line : String) : Option String :=
  let t := goTrim line
  if ((t.data.take 7).map asciiLowerChar == ("status:" : String).data) then
    let rest := (t.data.drop 7).dropWhile goIsRegexSpace
    if rest.isEmpty then none else some (String.mk rest)
  else none

/-- Model of `statusRegex.MatchString (strings.TrimSpace line)`. -/
def statusLineMatches (line : String) : Bool :=
  (statusLineCapture line).isSome

/-- The cutset of `strings.Trim(status, "\"'")`. -/
def quoteCutset : List Char := [Char.ofNat 34, Char.ofNat 39]

/-- Scan of the frontmatter lines in `extractStatusFromFrontmatter`:
first matching line wins; its capture is whitespace-trimmed and stripped
of surrounding quotes. -/
def statusFromLines : List String → Option String
  | [] => none
  | l :: ls =>
    match statusLineCapture l with
    | some v => some (goTrimCut (goTrim v) quoteCutset)
    | none => statusFromLines ls

/-- Index of the first line (from index `i`) whose trimmed form is
`---` — the frontmatter-closing scan of `splitFrontmatter`. -/
def findFMEnd : List String → Nat → Option Nat
  | [], _ => none
  | l :: ls, i => if goTrim l == "---" then some i else findFMEnd ls (i + 1)

/-- Model of `splitFrontmatter` (issue.go): returns
`(frontmatter, rest)`, or `("", text)` when no frontmatter block is
found. -/
def splitFrontmatter (text : String) : String × String :=
  if !(goStartsWith text "---\n" || goStartsWith text "---\r\n") then ("", text)
  else
    let lines := goSplitNL text
    if lines.length < 2 then ("", text)
    else
      match findFMEnd (lines.drop 1) 1 with
      | none => ("", text)
      | some endIdx =>
        (goJoinNL ((lines.drop 1).take (endIdx - 1)),
         "\n" ++ goJoinNL (lines.drop (endIdx + 1)))

/-- Model of `extractStatusFromFrontmatter`. -/
def extractStatusFromFrontmatter (text : String) : String :=
  let fm := (splitFrontmatter text).1
  if fm = "" then ""
  else
    match statusFromLines (goSplitNL fm) with
    | some v => v
    | none => ""

/-- Content-level model of `ParseStatus`: default `todo` when absent,
error outside the three-member enum. -/
def parseStatusText (text : String) : Except String String :=
  let status := extractStatusFromFrontmatter text
  if status = "" then Except.ok DefaultStatus
  else if !(ValidateStatus status) then
    Except.error ("invalid status: " ++ goQuote status ++ " (valid: [todo in-progress done])")
  else Except.ok status

/-- The replace-in-place scan of `updateStatusInFrontmatter`: replace the
first status-matching line, reporting whether one was found. -/
def replaceStatus (status : String) : List String → Bool × List String
  | [] => (false, [])
  | l :: ls =>
    if statusLineMatches l then (true, ("status: " ++ status) :: ls)
    else
      let (found, rest) := replaceStatus status ls
      (found, l :: rest)

/-- Model of `updateStatusInFrontmatter` (its Go error result is always
nil, so the embedding returns the updated text directly). -/
def updateStatusInFrontmatter (text status : String) : String :=
  let fm := (splitFrontmatter text).1
  let rest := (splitFrontmatter text).2
  if fm = "" then
    "---\nstatus: " ++ status ++ "\n---\n" ++ text
  else
    let lines := goSplitNL fm
    let (found, lines') := replaceStatus status lines
    let lines'' :=
      if !found then
        match lines' with
        | l0 :: restLines => l0 :: ("status: " ++ status) :: restLines
        | [] => ["status: " ++ status]
      else lines'
    "---\n" ++ goJoinNL lines'' ++ "\n---" ++ rest

/-- Content-level model of `UpdateStatus` (validation, then the
frontmatter edit). -/
def updateStatusText (text status : String) : Except String String :=
  if !(ValidateStatus status) then
    Except.error ("invalid status: " ++ goQuote status ++ " (valid: [todo in-progress done])")
  else Except.ok (updateStatusInFrontmatter text status)

/-! ### Split/join infrastructure for the frontmatter proofs -/

theorem strData_append (a b : String) : (a ++ b).data = a.data ++ b.data := by
  cases a
  cases b
  rfl

theorem strExt {a b : String} (h : a.data = b.data) : a = b := by
  cases a
  cases b
  exact congrArg String.mk h

/-- Join character-list pieces with a separator. -/
def joinPieces (sep : Char) : List (List Char) → List Char
  | [] => []
  | [p] => p
  | p :: ps => p ++ sep :: joinPieces sep ps

theorem splitChar_ne_nil (sep : Char) : ∀ (l acc : List Char), splitChar sep l acc ≠ [] := by
  intro l
  induction l with
  | nil => intro acc; simp [splitChar]
  | cons c rest ih =>
    intro acc
    simp only [splitChar]
    split
    · simp
    · exact ih (c :: acc)

theorem splitChar_no_sep (sep : Char) :
    ∀ (cs : List Char), (∀ c ∈ cs, (c == sep) = false) →
      ∀ acc, splitChar sep cs acc = [acc.reverse ++ cs] := by
  intro cs
  induction cs with
  | nil => intro _ acc; simp [splitChar]
  | cons c rest ih =>
    intro h acc
    have hc : (c == sep) = false := h c (List.mem_cons_self _ _)
    simp only [splitChar, hc]
    rw [ih (fun d hd => h d (List.mem_cons_of_mem _ hd)) (c :: acc)]
    simp

theorem splitChar_split (sep : Char) :
    ∀ (cs : List Char), (∀ c ∈ cs, (c == sep) = false) →
      ∀ (ds acc : List Char),
        splitChar sep (cs ++ sep :: ds) acc = (acc.reverse ++ cs) :: splitChar sep ds [] := by
  intro cs
  induction cs with
  | nil => intro _ ds acc; simp [splitChar]
  | cons c rest ih =>
    intro h ds acc
    have hc : (c == sep) = false := h c (List.mem_cons_self _ _)
    show splitChar sep (c :: (rest ++ sep :: ds)) acc
        = (acc.reverse ++ c :: rest) :: splitChar sep ds []
    simp only [splitChar, hc]
    rw [if_neg (fun hcontra => Bool.false_ne_true hcontra)]
    rw [ih (fun d hd => h d (List.mem_cons_of_mem _ hd)) ds (c :: acc)]
    simp

theorem joinPieces_splitChar (sep : Char) :
    ∀ (cs acc : List Char), joinPieces sep (splitChar sep cs acc) = acc.reverse ++ cs := by
  intro cs
  induction cs with
  | nil => intro acc; simp [splitChar, joinPieces]
  | cons c rest ih =>
    intro acc
    simp only [splitChar]
    split
    · rename_i hc
      rw [beq_iff_eq] at hc
      subst hc
      rcases hsr : splitChar c rest [] with _ | ⟨p, ps⟩
      · exact absurd hsr (splitChar_ne_nil c rest [])
      · have := ih []
        rw [hsr] at this
        simp only [joinPieces]
        rw [← hsr, ih []]
        simp
    · rw [ih (c :: acc)]
      simp

theorem joinPieces_append (sep : Char) :
    ∀ (A B : List (List Char)), A ≠ [] → B ≠ [] →
      joinPieces sep (A ++ B) = joinPieces sep A ++ sep :: joinPieces sep B := by
  intro A
  induction A with
  | nil => intro B hA _; exact absurd rfl hA
  | cons p ps ih =>
    intro B _ hB
    cases ps with
    | nil =>
      cases B with
      | nil => exact absurd rfl hB
      | cons q qs => simp [joinPieces]
    | cons p2 ps2 =>
      have h2 := ih B (by simp) hB
      show p ++ sep :: joinPieces sep ((p2 :: ps2) ++ B)
          = (p ++ sep :: joinPieces sep (p2 :: ps2)) ++ sep :: joinPieces sep B
      rw [h2]
      simp [List.append_assoc]

theorem splitChar_joinPieces_append (sep : Char) :
    ∀ (L : List (List Char)), L ≠ [] → (∀ p ∈ L, ∀ c ∈ p, (c == sep) = false) →
      ∀ qs, splitChar sep (joinPieces sep L ++ sep :: qs) [] = L ++ splitChar sep qs [] := by
  intro L
  induction L with
  | nil => intro h; exact absurd rfl h
  | cons p ps ih =>
    intro _ h qs
    have hp : ∀ c ∈ p, (c == sep) = false := h p (List.mem_cons_self _ _)
    cases ps with
    | nil =>
      simp only [joinPieces]
      rw [splitChar_split sep p hp qs []]
      simp
    | cons p2 ps2 =>
      show splitChar sep ((p ++ sep :: joinPieces sep (p2 :: ps2)) ++ sep :: qs) []
          = (p :: p2 :: ps2) ++ splitChar sep qs []
      rw [List.append_assoc, List.cons_append]
      rw [splitChar_split sep p hp _ []]
      rw [ih (by simp) (fun q hq => h q (List.mem_cons_of_mem _ hq)) qs]
      simp

theorem splitChar_joinPieces (sep : Char) (L : List (List Char)) (hL : L ≠ [])
    (h : ∀ p ∈ L, ∀ c ∈ p, (c == sep) = false) :
    splitChar sep (joinPieces sep L) [] = L := by
  induction L with
  | nil => exact absurd rfl hL
  | cons p ps ih =>
    have hp : ∀ c ∈ p, (c == sep) = false := h p (List.mem_cons_self _ _)
    cases ps with
    | nil => simpa [joinPieces] using splitChar_no_sep sep p hp []
    | cons p2 ps2 =>
      simp only [joinPieces]
      rw [splitChar_split sep p hp _ []]
      simp only [List.nil_append, List.cons.injEq, true_and]
      exact ⟨by simp, ih (by simp) (fun q hq => h q (List.mem_cons_of_mem _ hq))⟩

theorem mem_splitChar_no_sep (sep : Char) :
    ∀ (cs acc piece : List Char), piece ∈ splitChar sep cs acc →
      (∀ c ∈ acc, (c == sep) = false) → ∀ c ∈ piece, (c == sep) = false := by
  intro cs
  induction cs with
  | nil =>
    intro acc piece hp hacc c hc
    simp only [splitChar, List.mem_singleton] at hp
    subst hp
    rw [List.mem_reverse] at hc
    exact hacc c hc
  | cons a rest ih =>
    intro acc piece hp hacc c hc
    simp only [splitChar] at hp
    split at hp
    · rcases List.mem_cons.mp hp with hp' | hp'
      · subst hp'
        rw [List.mem_reverse] at hc
        exact hacc c hc
      · exact ih [] piece hp' (by simp) c hc
    · rename_i ha
      refine ih (a :: acc) piece hp ?_ c hc
      intro d hd
      rcases List.mem_cons.mp hd with hd' | hd'
      · subst hd'
        exact Bool.of_not_eq_true ha
      · exact hacc d hd'

/-! String-level corollaries -/

theorem goJoinNL_data : ∀ (L : List String),
    (goJoinNL L).data = joinPieces '\n' (L.map String.data) := by
  intro L
  induction L with
  | nil => rfl
  | cons x xs ih =>
    cases xs with
    | nil => simp [goJoinNL, joinPieces]
    | cons y ys =>
      simp only [goJoinNL, List.map_cons, joinPieces]
      rw [strData_append, strData_append, ih]
      simp [joinPieces]

theorem goSplitNL_goJoinNL (L : List String) (hL : L ≠ [])
    (hnl : ∀ l ∈ L, ∀ c ∈ l.data, (c == '\n') = false) :
    goSplitNL (goJoinNL L) = L := by
  unfold goSplitNL
  rw [goJoinNL_data]
  rw [splitChar_joinPieces '\n' (L.map String.data) (by simpa using hL)
    (by intro p hp c hc
        rcases List.mem_map.mp hp with ⟨l, hl, rfl⟩
        exact hnl l hl c hc)]
  rw [List.map_map]
  have hcomp : (String.mk ∘ String.data) = id := rfl
  rw [hcomp, List.map_id]

theorem goJoinNL_goSplitNL (s : String) : goJoinNL (goSplitNL s) = s := by
  apply strExt
  rw [goJoinNL_data]
  unfold goSplitNL
  rw [List.map_map]
  have : (String.data ∘ String.mk) = id := rfl
  rw [this, List.map_id]
  rw [joinPieces_splitChar]
  simp

theorem mem_goSplitNL_no_nl (s : String) (l : String) (hl : l ∈ goSplitNL s) :
    ∀ c ∈ l.data, (c == '\n') = false := by
  unfold goSplitNL at hl
  rcases List.mem_map.mp hl with ⟨piece, hp, rfl⟩
  exact mem_splitChar_no_sep '\n' s.data [] piece hp (by simp)

theorem isPfxOf_append_self : ∀ (p t : List Char), isPfxOf p (p ++ t) = true := by
  intro p
  induction p with
  | nil => intro t; rfl
  | cons c cs ih => intro t; simp [isPfxOf, ih]

theorem findFMEnd_decomp :
    ∀ (ls : List String) (i j : Nat), findFMEnd ls i = some j →
      i ≤ j ∧ ∃ pre d post, ls = pre ++ d :: post ∧ pre.length = j - i ∧
        (∀ l ∈ pre, (goTrim l == "---") = false) ∧ (goTrim d == "---") = true := by
  intro ls
  induction ls with
  | nil => intro i j h; simp [findFMEnd] at h
  | cons l ls ih =>
    intro i j h
    simp only [findFMEnd] at h
    split at h
    · rename_i hm
      simp only [Option.some.injEq] at h
      subst h
      exact ⟨le_refl i, [], l, ls, rfl, by simp, by simp, hm⟩
    · rename_i hm
      obtain ⟨hij, pre, d, post, hls, hlen, hpre, hd⟩ := ih (i + 1) j h
      refine ⟨by omega, l :: pre, d, post, by rw [hls]; rfl, by simp [hlen]; omega, ?_, hd⟩
      intro x hx
      rcases List.mem_cons.mp hx with hx' | hx'
      · subst hx'
        exact Bool.of_not_eq_true hm
      · exact hpre x hx'

theorem findFMEnd_skip :
    ∀ (pre : List String), (∀ l ∈ pre, (goTrim l == "---") = false) →
      ∀ (rest : List String) (i : Nat),
        findFMEnd (pre ++ "---" :: rest) i = some (i + pre.length) := by
  intro pre
  induction pre with
  | nil =>
    intro _ rest i
    have hd : (goTrim "---" == "---") = true := by decide
    simp [findFMEnd, hd]
  | cons l ls ih =>
    intro h rest i
    have hl : (goTrim l == "---") = false := h l (List.mem_cons_self _ _)
    show findFMEnd (l :: (ls ++ "---" :: rest)) i = some (i + (ls.length + 1))
    simp only [findFMEnd, hl]
    rw [if_neg (fun hcontra => Bool.false_ne_true hcontra)]
    rw [ih (fun x hx => h x (List.mem_cons_of_mem _ hx)) rest (i + 1)]
    congr 1
    omega

theorem splitFrontmatter_fm_spec (text fm rest : String)
    (h : splitFrontmatter text = (fm, rest)) (hfm : fm ≠ "") :
    ∃ pre post : List String,
      fm = goJoinNL pre ∧
      rest = "\n" ++ goJoinNL post ∧
      pre ≠ [] ∧
      (∀ l ∈ pre, (∀ c ∈ l.data, (c == '\n') = false) ∧ (goTrim l == "---") = false) ∧
      goSplitNL fm = pre := by
  simp only [splitFrontmatter] at h
  split at h
  · rw [Prod.mk.injEq] at h
    exact absurd h.1.symm hfm
  · split at h
    · rw [Prod.mk.injEq] at h
      exact absurd h.1.symm hfm
    · split at h
      · rw [Prod.mk.injEq] at h
        exact absurd h.1.symm hfm
      · rename_i endIdx hE
        rw [Prod.mk.injEq] at h
        obtain ⟨hfmEq, hrestEq⟩ := h
        obtain ⟨h1le, pre, d, post, hdec, hlen, hpre, hd⟩ := findFMEnd_decomp _ 1 endIdx hE
        have hEidx : endIdx = pre.length + 1 := by omega
        have htake : ((goSplitNL text).drop 1).take (endIdx - 1) = pre := by
          rw [hdec]
          have : endIdx - 1 = pre.length := by omega
          rw [this, List.take_left]
        have hdrop : (goSplitNL text).drop (endIdx + 1) = post := by
          have h1 : (goSplitNL text).drop (endIdx + 1) = ((goSplitNL text).drop 1).drop endIdx := by
            rw [List.drop_drop]
            congr 1
            omega
          rw [h1, hdec, hEidx]
          rw [List.append_cons pre d post, List.drop_left']
          rw [List.length_append]
          simp
        have hmem : ∀ l ∈ pre, (∀ c ∈ l.data, (c == '\n') = false) := by
          intro l hl
          have : l ∈ goSplitNL text := by
            have h2 : l ∈ (goSplitNL text).drop 1 := by
              rw [hdec]
              exact List.mem_append_left _ hl
            exact List.mem_of_mem_drop h2
          exact mem_goSplitNL_no_nl text l this
        have hpreNe : pre ≠ [] := by
          intro hnil
          rw [hnil] at htake
          apply hfm
          rw [← hfmEq, htake]
          rfl
        refine ⟨pre, post, ?_, ?_, hpreNe, fun l hl => ⟨hmem l hl, hpre l hl⟩, ?_⟩
        · rw [← hfmEq, htake]
        · rw [← hrestEq, hdrop]
        · rw [← hfmEq, htake]
          exact goSplitNL_goJoinNL pre hpreNe hmem

theorem joinPieces_cons (sep : Char) (p : List Char) (ps : List (List Char)) (h : ps ≠ []) :
    joinPieces sep (p :: ps) = p ++ sep :: joinPieces sep ps := by
  cases ps with
  | nil => exact absurd rfl h
  | cons q qs => rfl

theorem splitFrontmatter_block (L : List String) (Q : String) (hL : L ≠ [])
    (hnl : ∀ l ∈ L, ∀ c ∈ l.data, (c == '\n') = false)
    (hnd : ∀ l ∈ L, (goTrim l == "---") = false) :
    splitFrontmatter ("---\n" ++ goJoinNL L ++ "\n---" ++ ("\n" ++ Q)) =
      (goJoinNL L, "\n" ++ Q) := by
  have e1 : ("---\n" : String).data = ("---" : String).data ++ ['\n'] := rfl
  have e2 : ("\n---" : String).data = '\n' :: ("---" : String).data := rfl
  have e3 : ("\n" : String).data = ['\n'] := rfl
  have hLm : L.map String.data ≠ [] := by simpa using hL
  have hSdata :
      ("---\n" ++ goJoinNL L ++ "\n---" ++ ("\n" ++ Q)).data =
        joinPieces '\n' (("---" :: (L ++ ["---"])).map String.data) ++ '\n' :: Q.data := by
    have hjp :
        joinPieces '\n' (("---" :: (L ++ ["---"])).map String.data) =
          ("---" : String).data ++ '\n' ::
            (joinPieces '\n' (L.map String.data) ++ '\n' :: ("---" : String).data) := by
      have hmap : (("---" :: (L ++ ["---"])).map String.data) =
          ("---" : String).data :: (L.map String.data ++ [("---" : String).data]) := by
        simp
      rw [hmap, joinPieces_cons '\n' _ _ (by simp),
        joinPieces_append '\n' (L.map String.data) [("---" : String).data] hLm (by simp)]
      simp [joinPieces]
    rw [hjp, ← goJoinNL_data]
    simp [strData_append, e1, e2, e3, List.append_assoc]
  have hfree : ∀ p ∈ ("---" :: (L ++ ["---"])).map String.data, ∀ c ∈ p, (c == '\n') = false := by
    intro p hp c hc
    rcases List.mem_map.mp hp with ⟨l, hl, rfl⟩
    have hall : ∀ c ∈ ("---" : String).data, (c == '\n') = false := by decide
    rcases List.mem_cons.mp hl with hl' | hl'
    · subst hl'
      exact hall c hc
    · rcases List.mem_append.mp hl' with hl'' | hl''
      · exact hnl l hl'' c hc
      · have hl3 := List.mem_singleton.mp hl''
        subst hl3
        exact hall c hc
  have hsplit :
      goSplitNL ("---\n" ++ goJoinNL L ++ "\n---" ++ ("\n" ++ Q)) =
        ("---" :: (L ++ ["---"])) ++ goSplitNL Q := by
    unfold goSplitNL
    rw [hSdata]
    rw [splitChar_joinPieces_append '\n' _ (by simp) hfree Q.data]
    rw [List.map_append, List.map_map]
    have hcomp : (String.mk ∘ String.data) = id := rfl
    rw [hcomp, List.map_id]
  have hstarts :
      goStartsWith ("---\n" ++ goJoinNL L ++ "\n---" ++ ("\n" ++ Q)) "---\n" = true := by
    unfold goStartsWith
    have hsd : ("---\n" ++ goJoinNL L ++ "\n---" ++ ("\n" ++ Q)).data =
        ("---\n" : String).data ++
          ((goJoinNL L).data ++ (("\n---" : String).data ++ ("\n" ++ Q).data)) := by
      simp [strData_append, List.append_assoc]
    rw [hsd]
    exact isPfxOf_append_self ("---\n" : String).data _
  simp only [splitFrontmatter, hstarts, Bool.true_or, Bool.not_true]
  rw [if_neg (fun hcontra => Bool.false_ne_true hcontra)]
  rw [hsplit]
  have hlen2 : ¬((("---" :: (L ++ ["---"])) ++ goSplitNL Q).length < 2) := by
    rcases L with _ | ⟨x, xs⟩
    · exact absurd rfl hL
    · simp [List.length_append]
  rw [if_neg hlen2]
  have hdrop1 : (("---" :: (L ++ ["---"])) ++ goSplitNL Q).drop 1 = L ++ "---" :: goSplitNL Q := by
    rw [List.cons_append, List.drop_one, List.tail_cons, List.append_assoc]
    rfl
  have hdrop2 : (("---" :: (L ++ ["---"])) ++ goSplitNL Q).drop (1 + L.length + 1) = goSplitNL Q := by
    have h1 : (("---" :: (L ++ ["---"])) ++ goSplitNL Q).drop (1 + L.length + 1) =
        ((("---" :: (L ++ ["---"])) ++ goSplitNL Q).drop 1).drop (L.length + 1) := by
      rw [List.drop_drop]
      congr 1
    rw [h1, hdrop1]
    rw [List.append_cons L "---" (goSplitNL Q)]
    have h2 : L.length + 1 = (L ++ ["---"]).length := by simp
    rw [h2, List.drop_left]
  have htake2 : (L ++ "---" :: goSplitNL Q).take (1 + L.length - 1) = L := by
    have h3 : 1 + L.length - 1 = L.length := by omega
    rw [h3, List.take_left]
  rw [hdrop1]
  simp only [findFMEnd_skip L hnd (goSplitNL Q) 1]
  rw [htake2, hdrop2, goJoinNL_goSplitNL]

theorem statusFromLines_cons_some (l v : String) (ls : List String)
    (h : statusLineCapture l = some v) :
    statusFromLines (l :: ls) = some (goTrimCut (goTrim v) quoteCutset) := by
  simp [statusFromLines, h]

theorem statusFromLines_cons_none (l : String) (ls : List String)
    (h : statusLineCapture l = none) :
    statusFromLines (l :: ls) = statusFromLines ls := by
  simp [statusFromLines, h]

theorem capture_none_of_not_matches (l : String) (h : statusLineMatches l = false) :
    statusLineCapture l = none := by
  cases hc : statusLineCapture l with
  | none => rfl
  | some v =>
    unfold statusLineMatches at h
    rw [hc] at h
    simp at h

theorem statusFromLines_append_of_none (A rest : List String)
    (h : ∀ l ∈ A, statusLineMatches l = false) :
    statusFromLines (A ++ rest) = statusFromLines rest := by
  induction A with
  | nil => rfl
  | cons a as ih =>
    rw [List.cons_append,
      statusFromLines_cons_none a _ (capture_none_of_not_matches a (h a (List.mem_cons_self _ _)))]
    exact ih (fun l hl => h l (List.mem_cons_of_mem _ hl))

theorem replaceStatus_not_found (status : String) :
    ∀ ls : List String, (replaceStatus status ls).1 = false →
      (replaceStatus status ls).2 = ls ∧ ∀ l ∈ ls, statusLineMatches l = false := by
  intro ls
  induction ls with
  | nil => intro _; exact ⟨rfl, by simp⟩
  | cons l ls ih =>
    intro h
    by_cases hm : statusLineMatches l
    · exfalso
      simp [replaceStatus, hm] at h
    · rcases hrs : replaceStatus status ls with ⟨f, r⟩
      have hred : replaceStatus status (l :: ls) = (f, l :: r) := by
        simp [replaceStatus, hm, hrs]
      rw [hred] at h
      have hf : (replaceStatus status ls).1 = false := by rw [hrs]; exact h
      obtain ⟨h1, h2⟩ := ih hf
      rw [hrs] at h1
      constructor
      · rw [hred]
        exact congrArg (fun t => l :: t) h1
      · intro x hx
        rcases List.mem_cons.mp hx with hx' | hx'
        · subst hx'
          simpa using hm
        · exact h2 x hx'

theorem replaceStatus_found (status : String) :
    ∀ ls : List String, (replaceStatus status ls).1 = true →
      ∃ A l₀ B, ls = A ++ l₀ :: B ∧ (∀ l ∈ A, statusLineMatches l = false) ∧
        statusLineMatches l₀ = true ∧
        (replaceStatus status ls).2 = A ++ ("status: " ++ status) :: B := by
  intro ls
  induction ls with
  | nil => intro h; simp [replaceStatus] at h
  | cons l ls ih =>
    intro h
    by_cases hm : statusLineMatches l
    · have hred : replaceStatus status (l :: ls) = (true, ("status: " ++ status) :: ls) := by
        simp [replaceStatus, hm]
      exact ⟨[], l, ls, rfl, by simp, by simpa using hm, by rw [hred]; rfl⟩
    · rcases hrs : replaceStatus status ls with ⟨f, r⟩
      have hred : replaceStatus status (l :: ls) = (f, l :: r) := by
        simp [replaceStatus, hm, hrs]
      rw [hred] at h
      have hf : (replaceStatus status ls).1 = true := by rw [hrs]; exact h
      obtain ⟨A, l₀, B, hdec, hAno, hl₀, hr⟩ := ih hf
      rw [hrs] at hr
      refine ⟨l :: A, l₀, B, by rw [hdec]; rfl, ?_, hl₀, ?_⟩
      · intro x hx
        rcases List.mem_cons.mp hx with hx' | hx'
        · subst hx'
          simpa using hm
        · exact hAno x hx'
      · rw [hred]
        show l :: r = (l :: A) ++ ("status: " ++ status) :: B
        rw [List.cons_append]
        exact congrArg (fun t => l :: t) hr

theorem le_goJoinNL_length :
    ∀ (L : List String) (l : String), l ∈ L → l.data.length ≤ (goJoinNL L).data.length := by
  intro L
  induction L with
  | nil => intro l hl; simp at hl
  | cons x xs ih =>
    intro l hl
    cases xs with
    | nil =>
      simp only [List.mem_singleton] at hl
      subst hl
      exact le_refl _
    | cons y ys =>
      rcases List.mem_cons.mp hl with h' | h'
      · subst h'
        show l.data.length ≤ (l ++ "\n" ++ goJoinNL (y :: ys)).data.length
        rw [strData_append, strData_append, List.length_append, List.length_append]
        omega
      · have hle := ih l h'
        show l.data.length ≤ (x ++ "\n" ++ goJoinNL (y :: ys)).data.length
        rw [strData_append, strData_append, List.length_append, List.length_append]
        omega

theorem goJoinNL_ne_empty (L : List String) (l : String) (hl : l ∈ L) (hld : l.data ≠ []) :
    goJoinNL L ≠ "" := by
  intro hc
  have hle := le_goJoinNL_length L l hl
  rw [hc] at hle
  exact hld (List.eq_nil_of_length_eq_zero (Nat.le_zero.mp hle))

theorem validStatus_facts (status : String) (hst : status ∈ validStatuses) :
    statusLineCapture ("status: " ++ status) = some status ∧
    goTrimCut (goTrim status) quoteCutset = status ∧
    (∀ c ∈ ("status: " ++ status).data, (c == '\n') = false) ∧
    (goTrim ("status: " ++ status) == "---") = false ∧
    status ≠ "" ∧
    ValidateStatus status = true ∧
    ("status: " ++ status) ≠ "" ∧
    ("status: " ++ status).data ≠ [] ∧
    statusLineMatches ("status: " ++ status) = true := by
  simp only [validStatuses, StatusTodo, StatusInProgress, StatusDone, List.mem_cons,
    List.mem_singleton, List.not_mem_nil, or_false] at hst
  rcases hst with h | h | h <;> subst h <;> exact ⟨by decide, by decide, by decide, by decide,
    by decide, by decide, by decide, by decide, by decide⟩

theorem parseStatus_of_block (L : List String) (Q : String) (status : String)
    (hst : status ∈ validStatuses)
    (hL : L ≠ [])
    (hnl : ∀ l ∈ L, ∀ c ∈ l.data, (c == '\n') = false)
    (hnd : ∀ l ∈ L, (goTrim l == "---") = false)
    (hsf : statusFromLines L = some status)
    (hmem : ("status: " ++ status) ∈ L) :
    parseStatusText ("---\n" ++ goJoinNL L ++ "\n---" ++ ("\n" ++ Q)) = Except.ok status := by
  obtain ⟨hcap, htrimv, hnlS, hndS, hne, hval, hsne, hsdne, hsm⟩ := validStatus_facts status hst
  have hblock := splitFrontmatter_block L Q hL hnl hnd
  have hfm' : (splitFrontmatter ("---\n" ++ goJoinNL L ++ "\n---" ++ ("\n" ++ Q))).1 =
      goJoinNL L := by rw [hblock]
  have hJne : goJoinNL L ≠ "" := goJoinNL_ne_empty L _ hmem hsdne
  have hsplitJ : goSplitNL (goJoinNL L) = L := goSplitNL_goJoinNL L hL hnl
  have hex : extractStatusFromFrontmatter ("---\n" ++ goJoinNL L ++ "\n---" ++ ("\n" ++ Q)) =
      status := by
    simp only [extractStatusFromFrontmatter, hfm']
    rw [if_neg hJne, hsplitJ, hsf]
  simp only [parseStatusText, hex]
  rw [if_neg hne, hval]
  rfl

/-- C8: for each valid status and every issue text on which `ParseStatus`
succeeds, `UpdateStatus` followed by `ParseStatus` returns exactly that
status; when a frontmatter block exists, the body after the block and the
non-status frontmatter lines are byte-identical before and after, and
when none exists the whole original document is kept verbatim after a
synthesized block. -/
theorem ParseStatus_UpdateStatus_roundtrip (text status : String)
    (hst : status ∈ validStatuses)
    (hparse : ∃ s₀, parseStatusText text = Except.ok s₀) :
    parseStatusText (updateStatusInFrontmatter text status) = Except.ok status ∧
    ((splitFrontmatter text).1 ≠ "" →
      (splitFrontmatter (updateStatusInFrontmatter text status)).2 = (splitFrontmatter text).2 ∧
      (goSplitNL (splitFrontmatter (updateStatusInFrontmatter text status)).1).filter
          (fun l => !statusLineMatches l) =
        (goSplitNL (splitFrontmatter text).1).filter (fun l => !statusLineMatches l)) ∧
    ((splitFrontmatter text).1 = "" →
      updateStatusInFrontmatter text status = "---\nstatus: " ++ status ++ "\n---\n" ++ text) := by
  obtain ⟨hcap, htrimv, hnlS, hndS, hne, hval, hsne, hsdne, hsm⟩ := validStatus_facts status hst
  by_cases hfm : (splitFrontmatter text).1 = ""
  · have hupd : updateStatusInFrontmatter text status =
        "---\nstatus: " ++ status ++ "\n---\n" ++ text := by
      simp only [updateStatusInFrontmatter]
      rw [if_pos hfm]
    have hstr : "---\nstatus: " ++ status ++ "\n---\n" ++ text =
        "---\n" ++ goJoinNL ["status: " ++ status] ++ "\n---" ++ ("\n" ++ text) := by
      apply strExt
      have d1 : ("---\nstatus: " : String).data =
          ("---\n" : String).data ++ ("status: " : String).data := by decide
      have d2 : ("\n---\n" : String).data =
          ("\n---" : String).data ++ ("\n" : String).data := by decide
      simp only [goJoinNL, strData_append, d1, d2, List.append_assoc]
      simp
    have h1 : parseStatusText (updateStatusInFrontmatter text status) = Except.ok status := by
      rw [hupd, hstr]
      refine parseStatus_of_block ["status: " ++ status] text status hst (by simp) ?_ ?_ ?_
        (by simp)
      · intro l hl
        have hl2 := List.mem_singleton.mp hl
        subst hl2
        exact hnlS
      · intro l hl
        have hl2 := List.mem_singleton.mp hl
        subst hl2
        exact hndS
      · rw [statusFromLines_cons_some _ _ _ hcap, htrimv]
    exact ⟨h1, fun hcontra => absurd hfm hcontra, fun _ => hupd⟩
  · obtain ⟨pre, post, hfmJ, hrestJ, hpreNe, hpreFacts, hsplitFm⟩ :=
      splitFrontmatter_fm_spec text (splitFrontmatter text).1 (splitFrontmatter text).2 rfl hfm
    cases hfound : (replaceStatus status pre).1 with
    | true =>
      obtain ⟨A, l₀, B, hpreDec, hAno, hl₀, hrepl⟩ := replaceStatus_found status pre hfound
      have hrs : replaceStatus status pre = (true, A ++ ("status: " ++ status) :: B) :=
        Prod.ext_iff.mpr ⟨hfound, hrepl⟩
      have hupd : updateStatusInFrontmatter text status =
          "---\n" ++ goJoinNL (A ++ ("status: " ++ status) :: B) ++ "\n---" ++
            (splitFrontmatter text).2 := by
        simp only [updateStatusInFrontmatter]
        rw [if_neg hfm, hsplitFm, hrs]
        rfl
      have hLne : (A ++ ("status: " ++ status) :: B) ≠ [] := by simp
      have hLnl : ∀ l ∈ A ++ ("status: " ++ status) :: B, ∀ c ∈ l.data, (c == '\n') = false := by
        intro l hl
        rcases List.mem_append.mp hl with h' | h'
        · exact (hpreFacts l (by rw [hpreDec]; exact List.mem_append_left _ h')).1
        · rcases List.mem_cons.mp h' with h'' | h''
          · subst h''
            exact hnlS
          · exact (hpreFacts l
              (by rw [hpreDec]
                  exact List.mem_append_right _ (List.mem_cons_of_mem _ h''))).1
      have hLnd : ∀ l ∈ A ++ ("status: " ++ status) :: B, (goTrim l == "---") = false := by
        intro l hl
        rcases List.mem_append.mp hl with h' | h'
        · exact (hpreFacts l (by rw [hpreDec]; exact List.mem_append_left _ h')).2
        · rcases List.mem_cons.mp h' with h'' | h''
          · subst h''
            exact hndS
          · exact (hpreFacts l
              (by rw [hpreDec]
                  exact List.mem_append_right _ (List.mem_cons_of_mem _ h''))).2
      have hsf : statusFromLines (A ++ ("status: " ++ status) :: B) = some status := by
        rw [statusFromLines_append_of_none A _ hAno, statusFromLines_cons_some _ _ _ hcap,
          htrimv]
      have hmemL : ("status: " ++ status) ∈ A ++ ("status: " ++ status) :: B :=
        List.mem_append_right _ (List.mem_cons_self _ _)
      have hblock := splitFrontmatter_block (A ++ ("status: " ++ status) :: B) (goJoinNL post)
        hLne hLnl hLnd
      have h1 : parseStatusText (updateStatusInFrontmatter text status) = Except.ok status := by
        rw [hupd, hrestJ]
        exact parseStatus_of_block _ (goJoinNL post) status hst hLne hLnl hLnd hsf hmemL
      have h2 : (splitFrontmatter (updateStatusInFrontmatter text status)).2 =
          (splitFrontmatter text).2 := by
        rw [hupd, hrestJ, hblock]
      have h3 : (goSplitNL (splitFrontmatter (updateStatusInFrontmatter text status)).1).filter
            (fun l => !statusLineMatches l) =
          (goSplitNL (splitFrontmatter text).1).filter (fun l => !statusLineMatches l) := by
        have hfm2 : (splitFrontmatter (updateStatusInFrontmatter text status)).1 =
            goJoinNL (A ++ ("status: " ++ status) :: B) := by
          rw [hupd, hrestJ, hblock]
        rw [hfm2, goSplitNL_goJoinNL _ hLne hLnl, hsplitFm, hpreDec]
        rw [List.filter_append, List.filter_append]
        congr 1
        rw [List.filter_cons, List.filter_cons]
        simp [hsm, hl₀]
      exact ⟨h1, fun _ => ⟨h2, h3⟩, fun hcontra => absurd hcontra hfm⟩
    | false =>
      obtain ⟨hid, hAllNo⟩ := replaceStatus_not_found status pre hfound
      have hrs : replaceStatus status pre = (false, pre) := Prod.ext_iff.mpr ⟨hfound, hid⟩
      rcases hpreShape : pre with _ | ⟨p0, restP⟩
      · exact absurd hpreShape hpreNe
      · subst hpreShape
        have hupd : updateStatusInFrontmatter text status =
            "---\n" ++ goJoinNL (p0 :: ("status: " ++ status) :: restP) ++ "\n---" ++
              (splitFrontmatter text).2 := by
          simp only [updateStatusInFrontmatter]
          rw [if_neg hfm, hsplitFm, hrs]
          rfl
        have hLne : (p0 :: ("status: " ++ status) :: restP) ≠ [] := by simp
        have hLnl : ∀ l ∈ p0 :: ("status: " ++ status) :: restP,
            ∀ c ∈ l.data, (c == '\n') = false := by
          intro l hl
          rcases List.mem_cons.mp hl with h' | h'
          · subst h'
            exact (hpreFacts l (List.mem_cons_self _ _)).1
          · rcases List.mem_cons.mp h' with h'' | h''
            · subst h''
              exact hnlS
            · exact (hpreFacts l (List.mem_cons_of_mem _ h'')).1
        have hLnd : ∀ l ∈ p0 :: ("status: " ++ status) :: restP,
            (goTrim l == "---") = false := by
          intro l hl
          rcases List.mem_cons.mp hl with h' | h'
          · subst h'
            exact (hpreFacts l (List.mem_cons_self _ _)).2
          · rcases List.mem_cons.mp h' with h'' | h''
            · subst h''
              exact hndS
            · exact (hpreFacts l (List.mem_cons_of_mem _ h'')).2
        have hsf : statusFromLines (p0 :: ("status: " ++ status) :: restP) = some status := by
          rw [statusFromLines_cons_none p0 _
              (capture_none_of_not_matches p0 (hAllNo p0 (List.mem_cons_self _ _))),
            statusFromLines_cons_some _ _ _ hcap, htrimv]
        have hmemL : ("status: " ++ status) ∈ p0 :: ("status: " ++ status) :: restP :=
          List.mem_cons_of_mem _ (List.mem_cons_self _ _)
        have hblock := splitFrontmatter_block (p0 :: ("status: " ++ status) :: restP)
          (goJoinNL post) hLne hLnl hLnd
        have h1 : parseStatusText (updateStatusInFrontmatter text status) = Except.ok status := by
          rw [hupd, hrestJ]
          exact parseStatus_of_block _ (goJoinNL post) status hst hLne hLnl hLnd hsf hmemL
        have h2 : (splitFrontmatter (updateStatusInFrontmatter text status)).2 =
            (splitFrontmatter text).2 := by
          rw [hupd, hrestJ, hblock]
        have h3 : (goSplitNL (splitFrontmatter (updateStatusInFrontmatter text status)).1).filter
              (fun l => !statusLineMatches l) =
            (goSplitNL (splitFrontmatter text).1).filter (fun l => !statusLineMatches l) := by
          have hfm2 : (splitFrontmatter (updateStatusInFrontmatter text status)).1 =
              goJoinNL (p0 :: ("status: " ++ status) :: restP) := by
            rw [hupd, hrestJ, hblock]
          rw [hfm2, goSplitNL_goJoinNL _ hLne hLnl, hsplitFm]
          rw [List.filter_cons, List.filter_cons, List.filter_cons]
          simp [hsm, hAllNo p0 (List.mem_cons_self _ _)]
        exact ⟨h1, fun _ => ⟨h2, h3⟩, fun hcontra => absurd hcontra hfm⟩

/-- Witness for C8 at a concrete issue document and the status `done`. -/
theorem ParseStatus_UpdateStatus_roundtrip_witness :
    ("done" : String) ∈ validStatuses ∧
    (∃ s₀, parseStatusText "---\ntitle: Add login\nstatus: todo\n---\n\n# Body\n" =
      Except.ok s₀) ∧
    parseStatusText
        (updateStatusInFrontmatter "---\ntitle: Add login\nstatus: todo\n---\n\n# Body\n"
          "done") = Except.ok "done" := by
  refine ⟨by decide, ⟨"todo", by rfl⟩, ?_⟩
  exact (ParseStatus_UpdateStatus_roundtrip "---\ntitle: Add login\nstatus: todo\n---\n\n# Body\n"
    "done" (by decide) ⟨"todo", by rfl⟩).1

/-! ## Hook environment construction  (internal/core/piece/hooks source)

`buildEnv` starts from the ambient process environment with every `MP_`
variable stripped, then appends the context fields under their `MP_`
names when non-empty.  The ambient environment `os.Environ()` is a
parameter of the embedding. -/

/-- HookContext: environment variables to pass to hooks. -/
structure HookContext where
  pieceName : String := ""
  worktreePath : String := ""
  repoRoot : String := ""
  mainBranch : String := ""
  sessionName : String := ""
deriving Repr, DecidableEq

/-- Index of the first `=` in a character list (the scan inside
`hasEnvPrefix`). -/
def firstEqIdx : List Char → Option Nat
  | [] => none
  | c :: cs => if c == '=' then some 0 else (firstEqIdx cs).map (· + 1)

/-- Model of the hooks source's env-var prefix test: find the first `=`
and compare the key's leading bytes with the prefix. -/
def hasEnvPfx (envVar pfx : String) : Bool :=
  match firstEqIdx envVar.data with
  | none => false
  | some i => decide (pfx.data.length ≤ i) && (envVar.data.take pfx.data.length == pfx.data)

/-- Model of `filterEnv`: drop every variable carrying the prefix. -/
def filterEnv (env : List String) (pfx : String) : List String :=
  env.filter (fun e => !hasEnvPfx e pfx)

/-- Model of `buildEnv`: filter ambient `MP_` variables, then append each
non-empty context field under its `MP_` name. -/
def buildEnv (environ : List String) (ctx : HookContext) : List String :=
  let env := filterEnv environ "MP_"
  let env := if ctx.pieceName ≠ "" then env ++ ["MP_PIECE_NAME=" ++ ctx.pieceName] else env
  let env := if ctx.worktreePath ≠ "" then env ++ ["MP_WORKTREE_PATH=" ++ ctx.worktreePath] else env
  let env := if ctx.repoRoot ≠ "" then env ++ ["MP_REPO_ROOT=" ++ ctx.repoRoot] else env
  let env := if ctx.mainBranch ≠ "" then env ++ ["MP_MAIN_BRANCH=" ++ ctx.mainBranch] else env
  let env := if ctx.sessionName ≠ "" then env ++ ["MP_SESSION_NAME=" ++ ctx.sessionName] else env
  env

/-- Specification vocabulary: the key of a `key=value` environment entry. -/
def envKey (e : String) : String :=
  String.mk (e.data.takeWhile (fun c => c != '='))

/-- Specification vocabulary: the context-derived entries, in append
order, one per non-empty field. -/
def mpEntries (ctx : HookContext) : List String :=
  (if ctx.pieceName ≠ "" then ["MP_PIECE_NAME=" ++ ctx.pieceName] else []) ++
  (if ctx.worktreePath ≠ "" then ["MP_WORKTREE_PATH=" ++ ctx.worktreePath] else []) ++
  (if ctx.repoRoot ≠ "" then ["MP_REPO_ROOT=" ++ ctx.repoRoot] else []) ++
  (if ctx.mainBranch ≠ "" then ["MP_MAIN_BRANCH=" ++ ctx.mainBranch] else []) ++
  (if ctx.sessionName ≠ "" then ["MP_SESSION_NAME=" ++ ctx.sessionName] else [])

theorem buildEnv_eq_append (environ : List String) (ctx : HookContext) :
    buildEnv environ ctx = filterEnv environ "MP_" ++ mpEntries ctx := by
  unfold buildEnv mpEntries
  split_ifs <;> simp [List.append_assoc]

theorem firstEqIdx_append_of_some :
    ∀ (p : List Char) (i : Nat), firstEqIdx p = some i →
      ∀ q, firstEqIdx (p ++ q) = some i := by
  intro p
  induction p with
  | nil => intro i h; simp [firstEqIdx] at h
  | cons c cs ih =>
    intro i h q
    simp only [firstEqIdx] at h
    show firstEqIdx (c :: (cs ++ q)) = some i
    simp only [firstEqIdx]
    split at h
    · rename_i hc
      rw [if_pos hc]
      exact h
    · rename_i hc
      rw [if_neg hc]
      rcases hfe : firstEqIdx cs with _ | j
      · rw [hfe] at h; simp at h
      · rw [hfe] at h
        rw [ih j hfe q]
        simpa using h

theorem firstEqIdx_some_of_mem :
    ∀ (cs : List Char), '=' ∈ cs → ∃ i, firstEqIdx cs = some i ∧ i ≤ cs.length := by
  intro cs
  induction cs with
  | nil => intro h; simp at h
  | cons c rest ih =>
    intro h
    by_cases hc : c = '='
    · subst hc
      exact ⟨0, by simp [firstEqIdx], by simp⟩
    · have hmem : '=' ∈ rest := by
        rcases List.mem_cons.mp h with h' | h'
        · exact absurd h'.symm hc
        · exact h'
      obtain ⟨j, hj, hjl⟩ := ih hmem
      refine ⟨j + 1, ?_, by simp; omega⟩
      simp only [firstEqIdx]
      rw [if_neg (by simpa using hc), hj]
      rfl

theorem firstEqIdx_takeWhile :
    ∀ (cs : List Char) (i : Nat), firstEqIdx cs = some i →
      cs.takeWhile (fun c => c != '=') = cs.take i ∧ i ≤ cs.length := by
  intro cs
  induction cs with
  | nil => intro i h; simp [firstEqIdx] at h
  | cons c rest ih =>
    intro i h
    simp only [firstEqIdx] at h
    split at h
    · rename_i hc
      rw [beq_iff_eq] at hc
      subst hc
      simp only [Option.some.injEq] at h
      subst h
      simp [List.takeWhile]
    · rename_i hc
      rcases hfe : firstEqIdx rest with _ | j
      · rw [hfe] at h; simp at h
      · rw [hfe] at h
        simp only [Option.map_some', Option.some.injEq] at h
        obtain ⟨h1, h2⟩ := ih j hfe
        subst h
        constructor
        · rw [List.takeWhile_cons]
          rw [if_pos (by simpa using hc)]
          rw [h1]
          rfl
        · simp
          omega

theorem isPfxOf_eq_take : ∀ (p q : List Char), isPfxOf p q = (q.take p.length == p) := by
  intro p
  induction p with
  | nil => intro q; simp [isPfxOf]
  | cons a as ih =>
    intro q
    cases q with
    | nil => simp [isPfxOf]
    | cons b bs =>
      simp only [isPfxOf, List.length_cons, List.take_succ_cons, List.cons_beq_cons]
      rw [ih bs]
      congr 1
      exact Bool.beq_comm

theorem hasEnvPfx_eq_key (e : String) (h : '=' ∈ e.data) :
    hasEnvPfx e "MP_" = goStartsWith (envKey e) "MP_" := by
  obtain ⟨i, hi, hil⟩ := firstEqIdx_some_of_mem e.data h
  obtain ⟨htw, _⟩ := firstEqIdx_takeWhile e.data i hi
  unfold hasEnvPfx goStartsWith envKey
  rw [hi, htw]
  show (decide (3 ≤ i) && (e.data.take 3 == ("MP_" : String).data))
      = isPfxOf ("MP_" : String).data (e.data.take i)
  rw [isPfxOf_eq_take]
  by_cases h3 : 3 ≤ i
  · rw [decide_eq_true h3, Bool.true_and]
    have : (e.data.take i).take (("MP_" : String).data.length) = e.data.take 3 := by
      rw [List.take_take]
      congr 1
      show min 3 i = 3
      omega
    rw [this]
  · rw [decide_eq_false h3, Bool.false_and]
    have hlen : (e.data.take i).length = i := by
      rw [List.length_take]
      omega
    symm
    by_contra hcontra
    rw [Bool.not_eq_false] at hcontra
    have heq := eq_of_beq hcontra
    have : ((e.data.take i).take (("MP_" : String).data.length)).length ≤ i := by
      rw [List.length_take, hlen]
      omega
    rw [heq] at this
    simp at this
    omega

theorem mem_filterEnv_not_mp (e : String) (environ : List String)
    (h : e ∈ filterEnv environ "MP_") : hasEnvPfx e "MP_" = false := by
  unfold filterEnv at h
  have := (List.mem_filter.mp h).2
  simpa using this

theorem takeWhile_append_of_exists (p : Char → Bool) :
    ∀ (u v : List Char), (∃ c ∈ u, p c = false) →
      (u ++ v).takeWhile p = u.takeWhile p := by
  intro u
  induction u with
  | nil => intro v h; simp at h
  | cons a as ih =>
    intro v h
    rw [List.cons_append, List.takeWhile_cons, List.takeWhile_cons]
    by_cases hp : p a = true
    · rw [if_pos hp, if_pos hp]
      obtain ⟨c, hc, hcp⟩ := h
      rcases List.mem_cons.mp hc with h' | h'
      · subst h'
        rw [hp] at hcp
        simp at hcp
      · rw [ih v ⟨c, h', hcp⟩]
    · rw [if_neg hp, if_neg hp]

theorem envKey_append (p v : String) (h : '=' ∈ p.data) : envKey (p ++ v) = envKey p := by
  unfold envKey
  rw [strData_append]
  rw [takeWhile_append_of_exists _ p.data v.data ⟨'=', h, by simp⟩]

theorem hasEnvPfx_built (p v : String) (i : Nat)
    (hp : firstEqIdx p.data = some i) (h3 : 3 ≤ i) (hlen : 3 ≤ p.data.length)
    (ht : p.data.take 3 = ("MP_" : String).data) :
    hasEnvPfx (p ++ v) "MP_" = true := by
  unfold hasEnvPfx
  rw [strData_append, firstEqIdx_append_of_some p.data i hp v.data]
  show (decide (3 ≤ i) && ((p.data ++ v.data).take 3 == ("MP_" : String).data)) = true
  rw [decide_eq_true h3, List.take_append_of_le_length hlen, ht]
  simp

/-- C6: the environment `buildEnv` hands to a hook contains no
`MP_`-prefixed variable beyond those derived from the `HookContext`
(stale ambient `MP_*` values are stripped), each context field appears
under its `MP_` name exactly when non-empty (`mpEntries`), and no
`MP_`-prefixed key occurs twice. -/
theorem buildEnv_contract (environ : List String) (ctx : HookContext)
    (hwf : ∀ e ∈ environ, '=' ∈ e.data) :
    (∀ e ∈ buildEnv environ ctx, goStartsWith (envKey e) "MP_" = true → e ∈ mpEntries ctx) ∧
    (∀ e ∈ mpEntries ctx, e ∈ buildEnv environ ctx) ∧
    (((buildEnv environ ctx).filter (fun e => hasEnvPfx e "MP_")).map envKey).Nodup := by
  have k1 : envKey ("MP_PIECE_NAME=" ++ ctx.pieceName) = "MP_PIECE_NAME" := by
    rw [envKey_append _ _ (by decide)]
    decide
  have k2 : envKey ("MP_WORKTREE_PATH=" ++ ctx.worktreePath) = "MP_WORKTREE_PATH" := by
    rw [envKey_append _ _ (by decide)]
    decide
  have k3 : envKey ("MP_REPO_ROOT=" ++ ctx.repoRoot) = "MP_REPO_ROOT" := by
    rw [envKey_append _ _ (by decide)]
    decide
  have k4 : envKey ("MP_MAIN_BRANCH=" ++ ctx.mainBranch) = "MP_MAIN_BRANCH" := by
    rw [envKey_append _ _ (by decide)]
    decide
  have k5 : envKey ("MP_SESSION_NAME=" ++ ctx.sessionName) = "MP_SESSION_NAME" := by
    rw [envKey_append _ _ (by decide)]
    decide
  have hmp : ∀ e ∈ mpEntries ctx, hasEnvPfx e "MP_" = true := by
    intro e he
    unfold mpEntries at he
    simp only [List.mem_append] at he
    rcases he with ((((h | h) | h) | h) | h) <;>
      [skip; skip; skip; skip; skip] <;>
      first
      | (rw [List.mem_ite_nil_right] at h
         rw [List.mem_singleton.mp h.2]
         first
         | exact hasEnvPfx_built "MP_PIECE_NAME=" _ 13 (by decide) (by decide) (by decide)
             (by decide)
         | exact hasEnvPfx_built "MP_WORKTREE_PATH=" _ 16 (by decide) (by decide) (by decide)
             (by decide)
         | exact hasEnvPfx_built "MP_REPO_ROOT=" _ 12 (by decide) (by decide) (by decide)
             (by decide)
         | exact hasEnvPfx_built "MP_MAIN_BRANCH=" _ 14 (by decide) (by decide) (by decide)
             (by decide)
         | exact hasEnvPfx_built "MP_SESSION_NAME=" _ 15 (by decide) (by decide) (by decide)
             (by decide))
  have hkeymap : (mpEntries ctx).map envKey =
      (if ctx.pieceName ≠ "" then ["MP_PIECE_NAME"] else []) ++
      (if ctx.worktreePath ≠ "" then ["MP_WORKTREE_PATH"] else []) ++
      (if ctx.repoRoot ≠ "" then ["MP_REPO_ROOT"] else []) ++
      (if ctx.mainBranch ≠ "" then ["MP_MAIN_BRANCH"] else []) ++
      (if ctx.sessionName ≠ "" then ["MP_SESSION_NAME"] else []) := by
    unfold mpEntries
    split_ifs <;> simp [k1, k2, k3, k4, k5]
  rw [buildEnv_eq_append]
  refine ⟨?_, ?_, ?_⟩
  · intro e he hkey
    rcases List.mem_append.mp he with h' | h'
    · exfalso
      have hf := mem_filterEnv_not_mp e environ h'
      have hwfe : '=' ∈ e.data := hwf e (List.mem_filter.mp h').1
      rw [hasEnvPfx_eq_key e hwfe] at hf
      rw [hf] at hkey
      exact absurd hkey (by simp)
    · exact h'
  · intro e he
    exact List.mem_append_right _ he
  · rw [List.filter_append]
    have hnil : (filterEnv environ "MP_").filter (fun e => hasEnvPfx e "MP_") = [] := by
      rw [List.filter_eq_nil_iff]
      intro e he
      rw [mem_filterEnv_not_mp e environ he]
      simp
    have hall : (mpEntries ctx).filter (fun e => hasEnvPfx e "MP_") = mpEntries ctx :=
      List.filter_eq_self.mpr (fun e he => hmp e he)
    rw [hnil, hall, List.nil_append, hkeymap]
    split_ifs <;> decide

/-- Witness for C6 at a concrete ambient environment (with a stale
`MP_PIECE_NAME`) and a concrete hook context. -/
theorem buildEnv_contract_witness :
    (∀ e ∈ ["PATH=/bin", "MP_PIECE_NAME=stale", "HOME=/root"], '=' ∈ e.data) ∧
    (∀ e ∈ buildEnv ["PATH=/bin", "MP_PIECE_NAME=stale", "HOME=/root"]
        { pieceName := "p1", worktreePath := "/w", sessionName := "mp-piece-p1" },
      goStartsWith (envKey e) "MP_" = true →
        e ∈ mpEntries { pieceName := "p1", worktreePath := "/w", sessionName := "mp-piece-p1" }) ∧
    buildEnv ["PATH=/bin", "MP_PIECE_NAME=stale", "HOME=/root"]
        { pieceName := "p1", worktreePath := "/w", sessionName := "mp-piece-p1" } =
      ["PATH=/bin", "HOME=/root", "MP_PIECE_NAME=p1", "MP_WORKTREE_PATH=/w",
        "MP_SESSION_NAME=mp-piece-p1"] := by
  refine ⟨by decide, ?_, by decide⟩
  exact (buildEnv_contract ["PATH=/bin", "MP_PIECE_NAME=stale", "HOME=/root"]
    { pieceName := "p1", worktreePath := "/w", sessionName := "mp-piece-p1" } (by decide)).1

/-! ## Effect monad and oracle environment

External effects are recorded as a `Call` trace; results of subprocess
execution, filesystem access and JSON decoding come from a static
`GoEnv` oracle, exactly as the repository's tests drive the handlers
through `MockExec` (fixed response per command) and `MemoryFS`. -/

/-- Message kinds of `core.Message` (the `Data` payload is not tracked). -/
inductive MsgType where
  | info
  | success
  | warning
  | error
deriving Repr, DecidableEq

/-- One recorded external effect. -/
inductive Call where
  | run (name : String) (args : List String)
  | runDir (dir name : String) (args : List String)
  | runEnv (dir : String) (envv : List String) (name : String) (args : List String)
  | fsWrite (path data : String)
  | fsMkdir (path : String)
  | fsSymlink (target link : String)
  | msg (t : MsgType) (content : String)
deriving Repr, DecidableEq

/-- Result of one subprocess execution: combined output and optional
error (both can be set, as with Go's `([]byte, error)`). -/
structure ExecResult where
  output : String := ""
  err : Option String := none
deriving Repr, DecidableEq

/-- Result of `FS.Stat`, distinguishing not-exist from other errors
(`os.IsNotExist`). -/
inductive StatRes where
  | found (mode : Nat) (isDir : Bool)
  | notExist
  | statErr (e : String)
deriving Repr, DecidableEq

/-- Filesystem read errors, distinguishing not-exist (`os.IsNotExist`). -/
inductive FsErr where
  | notExist
  | other (e : String)
deriving Repr, DecidableEq

/-- Error message text of a filesystem error. -/
def fsErrMsg : FsErr → String
  | FsErr.notExist => "file does not exist"
  | FsErr.other e => e

/-- A directory entry as returned by `FS.ReadDir`. -/
structure DirEntry where
  name : String
  isDir : Bool
deriving Repr, DecidableEq

/-- PR metadata record (pr_metadata.go); the `CreatedAt` timestamp plays
no role in any handler logic and is not tracked. -/
structure PRMetadata where
  prNumber : Nat := 0
  prURL : String := ""
  branch : String := ""
  baseBranch : String := ""
  issuePath : String := ""
deriving Repr, DecidableEq

/-- Current-issue marker record (handler.go). -/
structure CurrentIssueMarker where
  issuePath : String := ""
  issueName : String := ""
  pieceName : String := ""
deriving Repr, DecidableEq

/-- The slice of the project configuration the piece handler reads:
issue provider name and the provider config map (an association list,
for `cfg.Issues.Config["directory"]`). -/
structure Config where
  issuesProvider : String := ""
  issuesConfig : List (String × String) := []
deriving Repr, DecidableEq

/-- The oracle environment: ambient process state, subprocess results,
filesystem contents, and JSON decoding results (`encoding/json` is
treated as a port, like the other external libraries). -/
structure GoEnv where
  getwd : Except String String
  environ : List String
  getenv : String → String
  userHomeDir : Except String String
  nowStamp : String
  exec : String → List String → ExecResult
  execDir : String → String → List String → ExecResult
  execEnv : String → List String → String → List String → ExecResult
  stat : String → StatRes
  readFile : String → Except FsErr String
  readDir : String → Except FsErr (List DirEntry)
  writeRes : String → String → Option String
  mkdirRes : String → Option String
  symlinkRes : String → String → Option String
  parseConfig : String → Except String Config
  parsePRMetadata : String → Except String PRMetadata
  parseMergedAt : String → Except String (Option String)
  parsePRList : String → Except String (List Nat)
  parseMarker : String → Except String CurrentIssueMarker

/-- The effect monad: a result plus the ordered trace of external calls
performed before returning (on error, the calls made up to the error). -/
def M (α : Type) : Type := Except String α × List Call

instance : Monad M where
  pure a := (Except.ok a, [])
  bind x f :=
    match x.1 with
    | Except.error e => (Except.error e, x.2)
    | Except.ok a => ((f a).1, x.2 ++ (f a).2)

/-- Fail with a Go error string. -/
def M.fail {α : Type} (e : String) : M α := (Except.error e, [])

/-- Record one call. -/
def M.emit (c : Call) : M Unit := (Except.ok (), [c])

/-- Capture a computation's result as a value, keeping its trace — the
`x, err := f(...)` pattern where the caller inspects `err` itself. -/
def M.attempt {α : Type} (x : M α) : M (Except String α) := (Except.ok x.1, x.2)

/-- The `if err != nil { return fmt.Errorf("msg: %w", err) }` pattern:
prepend a message to a propagated error. -/
def wrapErr {α : Type} (msg : String) (x : M α) : M α :=
  match x.1 with
  | Except.error e => (Except.error (msg ++ e), x.2)
  | Except.ok a => (Except.ok a, x.2)

/-- Lift an effect-free fallible computation. -/
def liftExcept {α : Type} (e : Except String α) : M α := (e, [])

theorem M.bind_ok {α β : Type} {x : M α} {a : α} (h : x.1 = Except.ok a) (f : α → M β) :
    (x >>= f) = ((f a).1, x.2 ++ (f a).2) := by
  show (match x.1 with
    | Except.error e => (Except.error e, x.2)
    | Except.ok a => ((f a).1, x.2 ++ (f a).2)) = _
  rw [h]

theorem M.bind_err {α β : Type} {x : M α} {e : String} (h : x.1 = Except.error e) (f : α → M β) :
    (x >>= f) = (Except.error e, x.2) := by
  show (match x.1 with
    | Except.error e => (Except.error e, x.2)
    | Except.ok a => ((f a).1, x.2 ++ (f a).2)) = _
  rw [h]

theorem M.attempt_bind {α β : Type} (x : M α) (f : Except String α → M β) :
    (M.attempt x >>= f) = ((f x.1).1, x.2 ++ (f x.1).2) :=
  M.bind_ok rfl f

theorem wrapErr_ok {α : Type} {x : M α} {a : α} (msg : String) (h : x.1 = Except.ok a) :
    wrapErr msg x = (Except.ok a, x.2) := by
  unfold wrapErr
  rw [h]

theorem wrapErr_err {α : Type} {x : M α} {e : String} (msg : String) (h : x.1 = Except.error e) :
    wrapErr msg x = (Except.error (msg ++ e), x.2) := by
  unfold wrapErr
  rw [h]

theorem wrapErr_calls {α : Type} (msg : String) (x : M α) : (wrapErr msg x).2 = x.2 := by
  unfold wrapErr
  rcases h : x.1 with e | a <;> simp

theorem mem_calls_bind {α β : Type} {x : M α} {f : α → M β} {c : Call}
    (h : c ∈ (x >>= f).2) : c ∈ x.2 ∨ ∃ a, x.1 = Except.ok a ∧ c ∈ (f a).2 := by
  rcases hx : x.1 with e | a
  · rw [M.bind_err hx f] at h
    exact Or.inl h
  · rw [M.bind_ok hx f] at h
    rcases List.mem_append.mp h with h' | h'
    · exact Or.inl h'
    · exact Or.inr ⟨a, rfl, h'⟩

/-! ### Effect wrappers for the ports -/

/-- `Exec.Run` (used by the tmux adapter). -/
def runPlain (env : GoEnv) (name : String) (args : List String) : M ExecResult :=
  (Except.ok (env.exec name args), [Call.run name args])

/-- `Exec.RunWithDir`. -/
def runWithDir (env : GoEnv) (dir name : String) (args : List String) : M ExecResult :=
  (Except.ok (env.execDir dir name args), [Call.runDir dir name args])

/-- `Exec.RunWithEnv`. -/
def runWithEnvM (env : GoEnv) (dir : String) (envv : List String) (name : String)
    (args : List String) : M ExecResult :=
  (Except.ok (env.execEnv dir envv name args), [Call.runEnv dir envv name args])

/-- `FS.WriteFile` (the result comes from the oracle; the write is
recorded). -/
def writeFileM (env : GoEnv) (path data : String) : M (Option String) :=
  (Except.ok (env.writeRes path data), [Call.fsWrite path data])

/-- `FS.MkdirAll`. -/
def mkdirAllM (env : GoEnv) (path : String) : M (Option String) :=
  (Except.ok (env.mkdirRes path), [Call.fsMkdir path])

/-- `FS.Symlink`. -/
def symlinkM (env : GoEnv) (target link : String) : M (Option String) :=
  (Except.ok (env.symlinkRes target link), [Call.fsSymlink target link])

/-- `Output.Write`. -/
def outputW (t : MsgType) (content : String) : M Unit := M.emit (Call.msg t content)

/-- `filepath.Abs` with its error ignored (`absGitDir, _ :=
filepath.Abs(gitDir)`): relative paths resolve against `os.Getwd`, an
empty string results when that fails. -/
def fpAbsIgnore (env : GoEnv) (p : String) : String :=
  if fpIsAbs p then fpClean p
  else
    match env.getwd with
    | Except.ok wd => fpJoin [wd, p]
    | Except.error _ => ""

namespace Git

/-- `Git.WorktreeAdd` (adapters/git.go). -/
def WorktreeAdd (env : GoEnv) (repoRoot worktreePath : String) : M Unit := do
  let r ← runWithDir env repoRoot "git" ["worktree", "add", worktreePath]
  match r.err with
  | some e =>
    M.fail ("failed to create worktree at " ++ worktreePath ++ " from repo " ++ repoRoot ++
      ": " ++ e)
  | none => pure ()

/-- `Git.WorktreeRemove`. -/
def WorktreeRemove (env : GoEnv) (repoRoot worktreePath : String) : M Unit := do
  let r ← runWithDir env repoRoot "git" ["worktree", "remove", worktreePath]
  match r.err with
  | some e =>
    M.fail ("failed to remove worktree at " ++ worktreePath ++ " from repo " ++ repoRoot ++
      ": " ++ e)
  | none => pure ()

/-- `Git.RevParseGitDir`. -/
def RevParseGitDir (env : GoEnv) (workDir : String) : M String := do
  let r ← runWithDir env workDir "git" ["rev-parse", "--git-dir"]
  match r.err with
  | some e => M.fail ("failed to get git dir: " ++ e)
  | none =>
    let gitDir := goTrim r.output
    let gitDir := if !(fpIsAbs gitDir) then fpJoin [workDir, gitDir] else gitDir
    pure (fpAbsIgnore env gitDir)

/-- `Git.IsWorktree`: the git dir of a worktree sits under a
`worktrees` path segment. -/
def IsWorktree (env : GoEnv) (gitDir : String) : Bool :=
  let absGitDir := fpAbsIgnore env gitDir
  goContains absGitDir "worktrees" || (fpBase (fpDir absGitDir) == "worktrees")

/-- `Git.RepoRoot`. -/
def RepoRoot (env : GoEnv) (workDir : String) : M String := do
  let r ← runWithDir env workDir "git" ["rev-parse", "--show-toplevel"]
  match r.err with
  | some e => M.fail ("failed to get repo root: " ++ e)
  | none => pure (fpAbsIgnore env (goTrim r.output))

/-- `Git.CurrentBranch`. -/
def CurrentBranch (env : GoEnv) (workDir : String) : M String := do
  let r ← runWithDir env workDir "git" ["rev-parse", "--abbrev-ref", "HEAD"]
  match r.err with
  | some e => M.fail ("failed to get current branch: " ++ e)
  | none => pure (goTrim r.output)

/-- `Git.Merge`. -/
def Merge (env : GoEnv) (workDir branch : String) : M Unit := do
  let r ← runWithDir env workDir "git" ["merge", branch]
  match r.err with
  | some e => M.fail ("failed to merge branch " ++ branch ++ " in " ++ workDir ++ ": " ++ e)
  | none => pure ()

/-- `Git.IsMainAhead`: merge-base, then `rev-list --count
<base>..<main>`; ahead iff the trimmed count differs from `"0"`. -/
def IsMainAhead (env : GoEnv) (workDir mainBranch pieceBranch : String) : M Bool := do
  let r ← runWithDir env workDir "git" ["merge-base", mainBranch, pieceBranch]
  match r.err with
  | some e => M.fail ("failed to find merge-base: " ++ e)
  | none => do
    let mergeBase := goTrim r.output
    let r2 ← runWithDir env workDir "git" ["rev-list", "--count", mergeBase ++ ".." ++ mainBranch]
    match r2.err with
    | some e => M.fail ("failed to count commits: " ++ e)
    | none =>
      let count := goTrim r2.output
      pure (count != "0")

/-- `Git.GetMainRepoRoot`: walk up two levels from a worktree gitdir. -/
def GetMainRepoRoot (env : GoEnv) (workDir : String) : M String := do
  let gitDir ← RevParseGitDir env workDir
  if IsWorktree env gitDir then
    let mainGitDir := fpDir (fpDir gitDir)
    let mainRepoRoot := fpDir mainGitDir
    pure (fpAbsIgnore env mainRepoRoot)
  else
    RepoRoot env workDir

/-- `Git.Checkout`. -/
def Checkout (env : GoEnv) (workDir branch : String) : M Unit := do
  let r ← runWithDir env workDir "git" ["checkout", branch]
  match r.err with
  | some e => M.fail ("failed to checkout branch " ++ branch ++ " in " ++ workDir ++ ": " ++ e)
  | none => pure ()

/-- `Git.MergeSquash`. -/
def MergeSquash (env : GoEnv) (workDir branch : String) : M Unit := do
  let r ← runWithDir env workDir "git" ["merge", "--squash", branch]
  match r.err with
  | some e =>
    M.fail ("failed to squash merge branch " ++ branch ++ " in " ++ workDir ++ ": " ++ e)
  | none => pure ()

/-- `Git.Commit`. -/
def Commit (env : GoEnv) (workDir message : String) : M Unit := do
  let r ← runWithDir env workDir "git" ["commit", "-m", message]
  match r.err with
  | some e => M.fail ("failed to commit in " ++ workDir ++ ": " ++ e)
  | none => pure ()

/-- `Git.GetCommitMessages`: `git log --format=%s base..branch`,
keeping non-empty lines. -/
def GetCommitMessages (env : GoEnv) (workDir base branch : String) : M (List String) := do
  let r ← runWithDir env workDir "git" ["log", "--format=%s", base ++ ".." ++ branch]
  match r.err with
  | some e => M.fail ("failed to get commit messages: " ++ e)
  | none =>
    let lines := goSplitNL (goTrim r.output)
    pure (lines.filter (fun line => line ≠ ""))

/-- `Git.IsBranchMerged`: scan `git branch --merged <main>` output for
the branch name (stripping the `*` current marker). -/
def IsBranchMerged (env : GoEnv) (workDir mainBranch branchName : String) : M Bool := do
  let r ← runWithDir env workDir "git" ["branch", "--merged", mainBranch]
  match r.err with
  | some e => M.fail ("failed to list merged branches: " ++ e)
  | none =>
    let lines := goSplitNL (goTrim r.output)
    pure (lines.any (fun line => goTrim (goTrimPfx line "*") == branchName))

/-- `Git.BranchExistsOnRemote`. -/
def BranchExistsOnRemote (env : GoEnv) (workDir branchName : String) : M Bool := do
  let r ← runWithDir env workDir "git" ["ls-remote", "--heads", "origin", branchName]
  match r.err with
  | some e => M.fail ("failed to check remote branches: " ++ e)
  | none => pure (goTrim r.output != "")

/-- `Git.GetBranchCommit`. -/
def GetBranchCommit (env : GoEnv) (workDir branchName : String) : M String := do
  let r ← runWithDir env workDir "git" ["rev-parse", branchName]
  match r.err with
  | some e => M.fail ("failed to get branch commit: " ++ e)
  | none => pure (goTrim r.output)

/-- `Git.IsCommitInBranch`: exit status 1 of `merge-base --is-ancestor`
means not-an-ancestor; other errors are real errors. -/
def IsCommitInBranch (env : GoEnv) (workDir commit branch : String) : M Bool := do
  let r ← runWithDir env workDir "git" ["merge-base", "--is-ancestor", commit, branch]
  match r.err with
  | some e =>
    if goContains e "exit status 1" then pure false
    else M.fail ("failed to check commit ancestry: " ++ e)
  | none => pure true

end Git

namespace Tmux

/-- `Tmux.NewSession` (adapters/tmux.go). -/
def NewSession (env : GoEnv) (sessionName workDir : String) : M Unit := do
  let r ← runPlain env "tmux" ["new-session", "-d", "-s", sessionName, "-c", workDir]
  match r.err with
  | some e => M.fail ("failed to create tmux session: " ++ e)
  | none => pure ()

/-- `Tmux.KillSession`. -/
def KillSession (env : GoEnv) (sessionName : String) : M Unit := do
  let r ← runPlain env "tmux" ["kill-session", "-t", sessionName]
  match r.err with
  | some e => M.fail ("failed to kill tmux session: " ++ e)
  | none => pure ()

end Tmux

namespace GitHub

/-- `GitHub.IsPRMerged`: `gh pr view <n> --json mergedAt`, merged iff
`mergedAt` is set and non-empty. -/
def IsPRMerged (env : GoEnv) (workDir : String) (prNumber : Nat) : M Bool := do
  let r ← runWithDir env workDir "gh" ["pr", "view", goNatToStr prNumber, "--json", "mergedAt"]
  match r.err with
  | some e => M.fail ("failed to get PR merge status: " ++ e)
  | none =>
    match env.parseMergedAt r.output with
    | Except.error e => M.fail ("failed to parse PR merge status: " ++ e)
    | Except.ok m =>
      pure (match m with
        | some s => s ≠ ""
        | none => false)

end GitHub

/-! ### Hook runner (hooks.go) -/

def HooksDir : String := ".monkeypuzzle/hooks"

def HookOnPieceCreate : String := "on-piece-create.sh"

def HookBeforePieceMerge : String := "before-piece-merge.sh"

def HookAfterPieceMerge : String := "after-piece-merge.sh"

def HookBeforePieceUpdate : String := "before-piece-update.sh"

def HookAfterPieceUpdate : String := "after-piece-update.sh"

/-- `HookRunner.RunHook`: missing hook is fine, non-executable hook is
skipped with a warning, a failing hook surfaces its output and errors. -/
def RunHook (env : GoEnv) (repoRoot hookName : String) (ctx : HookContext) : M Unit := do
  let hookPath := fpJoin [repoRoot, HooksDir, hookName]
  match env.stat hookPath with
  | StatRes.notExist => pure ()
  | StatRes.statErr e => M.fail ("failed to stat hook " ++ hookName ++ ": " ++ e)
  | StatRes.found mode _ =>
    if mode &&& 0o111 == 0 then do
      outputW MsgType.warning ("Hook " ++ hookName ++ " is not executable, skipping")
      pure ()
    else do
      let envv := buildEnv env.environ ctx
      outputW MsgType.info ("Running hook: " ++ hookName)
      let r ← runWithEnvM env repoRoot envv "bash" [hookPath]
      match r.err with
      | some e => do
        let _ ← (if r.output != "" then outputW MsgType.error r.output else pure ())
        M.fail ("hook " ++ hookName ++ " failed: " ++ e)
      | none => do
        let _ ← (if r.output != "" then outputW MsgType.info r.output else pure ())
        pure ()

/-! ### Issue-name extraction and path resolution (issue.go) -/

/-- Model of `titleRegex.FindStringSubmatch (strings.TrimSpace line)` —
`(?i)^title:\s*(.+)$` — returning the capture when the trimmed line
matches. -/
def titleLineCapture (line : String) : Option String :=
  let t := goTrim line
  if ((t.data.take 6).map asciiLowerChar == ("title:" : String).data) then
    let rest := (t.data.drop 6).dropWhile goIsRegexSpace
    if rest.isEmpty then none else some (String.mk rest)
  else none

/-- Scan of the frontmatter lines in `extractFromFrontmatter`: first
matching `title:` line wins; the capture is whitespace-trimmed and
stripped of surrounding quotes. -/
def titleFromLines : List String → Option String
  | [] => none
  | l :: ls =>
    match titleLineCapture l with
    | some v => some (goTrimCut (goTrim v) quoteCutset)
    | none => titleFromLines ls

/-- `extractFromFrontmatter` (issue.go): title from the YAML block, or
`""`. -/
def extractTitleFromFrontmatter (text : String) : String :=
  if !(goStartsWith text "---\n" || goStartsWith text ("---" ++ String.mk [Char.ofNat 13] ++ "\n")) then ""
  else
    let lines := goSplitNL text
    if lines.length < 2 then ""
    else
      match findFMEnd (lines.drop 1) 1 with
      | none => ""
      | some endIdx =>
        let frontmatter := goJoinNL ((lines.drop 1).take (endIdx - 1))
        match titleFromLines (goSplitNL frontmatter) with
        | some t => t
        | none => ""

/-- The line scan of `extractFromH1`: first trimmed line of the form
`# <title>` with non-empty title. -/
def h1FromLines : List String → String
  | [] => ""
  | l :: ls =>
    let trimmed := goTrim l
    if goStartsWith trimmed "# " then
      let title := goTrim (String.mk (trimmed.data.drop 2))
      if title ≠ "" then title else h1FromLines ls
    else h1FromLines ls

/-- `extractFromH1` (issue.go). -/
def extractFromH1 (text : String) : String :=
  h1FromLines (goSplitNL text)

/-- `filepath.Ext`: the suffix beginning at the final dot in the final
slash-separated element, or `""`. -/
def fpExt (p : String) : String :=
  let revSeg := p.data.reverse.takeWhile (fun c => c ≠ '/')
  let afterDot := revSeg.takeWhile (fun c => c ≠ '.')
  if afterDot.length = revSeg.length then ""
  else String.mk ('.' :: afterDot.reverse)

/-- `strings.TrimSuffix`. -/
def goTrimSfx (s sfx : String) : String :=
  if isPfxOf sfx.data.reverse s.data.reverse then
    String.mk (s.data.take (s.data.length - sfx.data.length))
  else s

/-- `extractFromFilename` (issue.go). -/
def extractFromFilename (issuePath : String) : String :=
  let base := fpBase issuePath
  let ext := fpExt base
  if ext ≠ "" then goTrimSfx base ext else base

def DirName : String := ".monkeypuzzle"

def ConfigFile : String := "monkeypuzzle.json"

def symlinkName : String := ".monkeypuzzle-source"

def prMetadataFilename : String := "pr-metadata.json"

/-- `ReadConfig` (issue.go): read and decode
`.monkeypuzzle/monkeypuzzle.json` under the repo root. -/
def ReadConfig (env : GoEnv) (repoRoot : String) : Except String Config :=
  match env.readFile (fpJoin [repoRoot, DirName, ConfigFile]) with
  | Except.error fe => Except.error ("failed to read config file: " ++ fsErrMsg fe)
  | Except.ok data =>
    match env.parseConfig data with
    | Except.error e => Except.error ("failed to parse config file: " ++ e)
    | Except.ok cfg => Except.ok cfg

/-- `ResolveIssuePath` (issue.go): absolute paths are taken as-is,
relative ones resolve against the repo root; the file must exist. -/
def ResolveIssuePath (env : GoEnv) (repoRoot issuePath : String) : Except String String :=
  if fpIsAbs issuePath then
    match env.stat issuePath with
    | StatRes.found _ _ => Except.ok issuePath
    | _ => Except.error ("issue file not found: " ++ issuePath)
  else
    let absPath := fpClean (fpJoin [repoRoot, issuePath])
    match env.stat absPath with
    | StatRes.found _ _ => Except.ok absPath
    | _ => Except.error ("issue file not found: " ++ issuePath)

/-- `ExtractIssueName` (issue.go): frontmatter title, else first H1,
else the filename without extension. -/
def ExtractIssueName (env : GoEnv) (issuePath : String) : Except String String :=
  match env.readFile issuePath with
  | Except.error fe => Except.error ("failed to read issue file: " ++ fsErrMsg fe)
  | Except.ok text =>
    if extractTitleFromFrontmatter text ≠ "" then Except.ok (extractTitleFromFrontmatter text)
    else if extractFromH1 text ≠ "" then Except.ok (extractFromH1 text)
    else Except.ok (extractFromFilename issuePath)

/-- `ReadPRMetadata` (pr_metadata.go). -/
def ReadPRMetadata (env : GoEnv) (worktreePath : String) : Except String PRMetadata :=
  match env.readFile (fpJoin [worktreePath, DirName, prMetadataFilename]) with
  | Except.error fe => Except.error ("failed to read PR metadata: " ++ fsErrMsg fe)
  | Except.ok data =>
    match env.parsePRMetadata data with
    | Except.error e => Except.error ("failed to parse PR metadata: " ++ e)
    | Except.ok m => Except.ok m

/-- `ParseStatus` (issue.go), wrapping the pure `parseStatusText` with
the file read. -/
def ParseStatusM (env : GoEnv) (issuePath : String) : M String :=
  match env.readFile issuePath with
  | Except.error fe => M.fail ("failed to read issue file: " ++ fsErrMsg fe)
  | Except.ok content => liftExcept (parseStatusText content)

/-- `UpdateStatus` (issue.go): validate, read, rewrite the frontmatter,
write back (the update step's error channel is always nil in the
source). -/
def UpdateStatusM (env : GoEnv) (issuePath status : String) : M Unit :=
  if !(ValidateStatus status) then
    M.fail ("invalid status: " ++ goQuote status ++ " (valid: [todo in-progress done])")
  else
    match env.readFile issuePath with
    | Except.error fe => M.fail ("failed to read issue file: " ++ fsErrMsg fe)
    | Except.ok content => do
      let updated := updateStatusInFrontmatter content status
      let w ← writeFileM env issuePath updated
      match w with
      | some e => M.fail ("failed to write issue file: " ++ e)
      | none => pure ()

/-! ### Piece handler (handler.go / part_007) -/

/-- `PieceInfo`. -/
structure PieceInfo where
  name : String := ""
  worktreePath : String := ""
  sessionName : String := ""
deriving Repr, DecidableEq

/-- `PieceStatus`. -/
structure PieceStatus where
  inPiece : Bool := false
  pieceName : String := ""
  worktreePath : String := ""
  repoRoot : String := ""
deriving Repr, DecidableEq

/-- `MergeStatus`. -/
structure MergeStatus where
  isMerged : Bool := false
  method : String := ""
  prNumber : Nat := 0
  existsOnRemote : Bool := false
deriving Repr, DecidableEq

/-- `CleanupResult`. -/
structure CleanupResult where
  pieceName : String := ""
  worktreePath : String := ""
  issuePath : String := ""
  issueUpdated : Bool := false
deriving Repr, DecidableEq

/-- `CleanupOptions` (the `Force` flag is unused by the handler). -/
structure CleanupOptions where
  dryRun : Bool := false
  mainBranch : String := ""
deriving Repr, DecidableEq

/-- `getPiecesDir`: `$XDG_DATA_HOME/monkeypuzzle/pieces`, falling back
to `~/.local/share`. -/
def getPiecesDir (env : GoEnv) : Except String String :=
  let dataHome := env.getenv "XDG_DATA_HOME"
  if dataHome == "" then
    match env.userHomeDir with
    | Except.error e => Except.error ("failed to get home directory: " ++ e)
    | Except.ok home => Except.ok (fpJoin [fpJoin [home, ".local", "share"], "monkeypuzzle", "pieces"])
  else Except.ok (fpJoin [dataHome, "monkeypuzzle", "pieces"])

/-- Concatenation of a list of strings (`strings.Builder` accumulation). -/
def strConcat : List String → String
  | [] => ""
  | s :: ss => s ++ strConcat ss

/-- `buildSquashCommitMessage`. -/
def buildSquashCommitMessage (pieceName : String) (commitMsgs : List String) : String :=
  let b := "feat: " ++ pieceName ++ "\n"
  if commitMsgs.length > 0 then
    b ++ "\nSquashed commits:\n" ++ strConcat (commitMsgs.map (fun m => "- " ++ m ++ "\n"))
  else b

/-- `Status` (handler): never an error — failure of each git query
falls back to a default field value. -/
def Status (env : GoEnv) (workDir : String) : M PieceStatus := do
  let gd ← M.attempt (Git.RevParseGitDir env workDir)
  match gd with
  | Except.error _ => pure { inPiece := false }
  | Except.ok gitDir =>
    if !(Git.IsWorktree env gitDir) then do
      let rr ← M.attempt (Git.RepoRoot env workDir)
      let repoRoot := (match rr with | Except.error _ => "" | Except.ok r => r)
      pure { inPiece := false, repoRoot := repoRoot }
    else do
      let wp ← M.attempt (Git.RepoRoot env workDir)
      let worktreePath := (match wp with | Except.error _ => workDir | Except.ok r => r)
      let pieceName := fpBase worktreePath
      let mr ← M.attempt (Git.GetMainRepoRoot env workDir)
      let repoRoot := (match mr with | Except.error _ => "" | Except.ok r => r)
      pure { inPiece := true, pieceName := pieceName, worktreePath := worktreePath,
             repoRoot := repoRoot }

/-- The counter loop of `GeneratePieceName`: first free name wins, the
counter is capped at 1000. -/
def generateLoop (env : GoEnv) (baseDir baseName : String) (counter : Nat) : M String :=
  let pieceName := if counter > 0 then baseName ++ "-" ++ goNatToStr counter else baseName
  let piecePath := fpJoin [baseDir, pieceName]
  match env.stat piecePath with
  | StatRes.found _ _ =>
    if h : counter + 1 > 1000 then M.fail "too many pieces with similar names"
    else generateLoop env baseDir baseName (counter + 1)
  | StatRes.notExist => (Except.ok pieceName, [])
  | StatRes.statErr _ => (Except.ok pieceName, [])
termination_by 1001 - counter
decreasing_by omega

/-- `GeneratePieceName`. -/
def GeneratePieceName (env : GoEnv) (baseDir : String) : M String :=
  let timestamp := env.nowStamp
  let baseName := "piece-" ++ timestamp
  generateLoop env baseDir baseName 0

/-- `cleanupPiece`: kill the tmux session if one was created, then
remove the worktree; failures are warnings. -/
def cleanupPiece (env : GoEnv) (repoRoot worktreePath sessionName : String)
    (tmuxCreated : Bool) : M Unit := do
  let _ ← (if tmuxCreated then do
      let kr ← M.attempt (Tmux.KillSession env sessionName)
      match kr with
      | Except.error e => outputW MsgType.warning ("Failed to cleanup tmux session: " ++ e)
      | Except.ok _ => pure ()
    else pure ())
  let wr ← M.attempt (Git.WorktreeRemove env repoRoot worktreePath)
  match wr with
  | Except.error e => outputW MsgType.warning ("Failed to cleanup worktree: " ++ e)
  | Except.ok _ => pure ()

/-- `CreatePiece` (part_007). -/
def CreatePiece (env : GoEnv) (monkeypuzzleSourceDir pieceName0 : String) : M PieceInfo := do
  let wd ← wrapErr "failed to get working directory: " (liftExcept env.getwd)
  let repoRoot ← wrapErr "not in a git repository: " (Git.RepoRoot env wd)
  let piecesDir ← wrapErr "failed to get pieces directory: " (liftExcept (getPiecesDir env))
  let pieceName ← (if pieceName0 == "" then
      wrapErr "failed to generate piece name: " (GeneratePieceName env piecesDir)
    else
      match env.stat (fpJoin [piecesDir, pieceName0]) with
      | StatRes.found _ _ =>
        M.fail ("piece name " ++ goQuote pieceName0 ++ " already exists at " ++
          fpJoin [piecesDir, pieceName0])
      | _ => pure pieceName0)
  let mk ← mkdirAllM env piecesDir
  match mk with
  | some e => M.fail ("failed to create pieces directory at " ++ piecesDir ++ ": " ++ e)
  | none => do
    let worktreePath := fpJoin [piecesDir, pieceName]
    let _ ← wrapErr ("failed to create worktree at " ++ worktreePath ++ ": ")
      (Git.WorktreeAdd env repoRoot worktreePath)
    let sl ← symlinkM env monkeypuzzleSourceDir (fpJoin [worktreePath, symlinkName])
    let _ ← (match sl with
      | some e => outputW MsgType.warning ("Failed to create symlink: " ++ e)
      | none => pure ())
    let sessionName := "mp-piece-" ++ pieceName
    let tm ← M.attempt (Tmux.NewSession env sessionName worktreePath)
    let tmuxCreated ← (match tm with
      | Except.error e => do
        let _ ← outputW MsgType.warning ("Failed to create tmux session: " ++ e)
        pure false
      | Except.ok _ => pure true)
    let info : PieceInfo :=
      { name := pieceName, worktreePath := worktreePath, sessionName := sessionName }
    let hookCtx : HookContext :=
      { pieceName := pieceName, worktreePath := worktreePath, repoRoot := repoRoot,
        sessionName := sessionName }
    let hr ← M.attempt (RunHook env repoRoot HookOnPieceCreate hookCtx)
    match hr with
    | Except.error e => do
      let _ ← cleanupPiece env repoRoot worktreePath sessionName tmuxCreated
      (M.fail ("on-piece-create hook failed: " ++ e) : M PieceInfo)
    | Except.ok _ => do
      let _ ← outputW MsgType.success ("Created piece: " ++ pieceName ++ " at " ++ worktreePath)
      pure info

/-- Rendering of `json.MarshalIndent(marker, "", "  ")` (its error
channel is dead for this struct). -/
def marshalMarker (m : CurrentIssueMarker) : String :=
  "\x7b\n  " ++ goQuote "issue_path" ++ ": " ++ goQuote m.issuePath ++ ",\n  " ++
  goQuote "issue_name" ++ ": " ++ goQuote m.issueName ++ ",\n  " ++
  goQuote "piece_name" ++ ": " ++ goQuote m.pieceName ++ "\n\x7d"

/-- `writeCurrentIssueMarker`. -/
def writeCurrentIssueMarker (env : GoEnv) (worktreePath : String)
    (marker : CurrentIssueMarker) : M Unit := do
  let mpDir := fpJoin [worktreePath, DirName]
  let mk ← mkdirAllM env mpDir
  match mk with
  | some e => M.fail ("failed to create .monkeypuzzle directory: " ++ e)
  | none => do
    let markerPath := fpJoin [mpDir, "current-issue.json"]
    let w ← writeFileM env markerPath (marshalMarker marker)
    match w with
    | some e => M.fail ("failed to write marker file: " ++ e)
    | none => pure ()

/-- `updateIssueStatusToInProgress`: move a `todo` issue to
`in-progress`; failures are warnings only. -/
def updateIssueStatusToInProgress (env : GoEnv) (issuePath : String) : M Unit := do
  let cs ← M.attempt (ParseStatusM env issuePath)
  match cs with
  | Except.error e => outputW MsgType.warning ("Failed to read issue status: " ++ e)
  | Except.ok currentStatus =>
    if currentStatus != StatusTodo then pure ()
    else do
      let us ← M.attempt (UpdateStatusM env issuePath StatusInProgress)
      match us with
      | Except.error e => outputW MsgType.warning ("Failed to update issue status: " ++ e)
      | Except.ok _ => pure ()

/-- `CreatePieceFromIssue` (part_007), with the containment check on the
configured issues directory. -/
def CreatePieceFromIssue (env : GoEnv) (cc : CharClass)
    (monkeypuzzleSourceDir issuePath : String) : M PieceInfo := do
  let wd ← wrapErr "failed to get working directory: " (liftExcept env.getwd)
  let repoRoot ← wrapErr "not in a git repository: " (Git.RepoRoot env wd)
  let cfg ← wrapErr "failed to read monkeypuzzle config: " (liftExcept (ReadConfig env repoRoot))
  if cfg.issuesProvider != "markdown" then
    M.fail ("issue provider must be 'markdown', got: " ++ cfg.issuesProvider)
  else
    match cfg.issuesConfig.lookup "directory" with
    | none => M.fail "issues directory not found in config"
    | some issuesDir =>
      if issuesDir == "" then M.fail "issues directory not found in config"
      else do
        let absIssuePath ← liftExcept (ResolveIssuePath env repoRoot issuePath)
        let absIssuesDir := fpClean (fpJoin [repoRoot, issuesDir])
        match fpRel absIssuesDir absIssuePath with
        | Except.error _ =>
          M.fail ("issue file must be within the issues directory " ++ goQuote issuesDir ++
            ", got: " ++ issuePath)
        | Except.ok relPath =>
          if goStartsWith relPath ".." then
            M.fail ("issue file must be within the issues directory " ++ goQuote issuesDir ++
              ", got: " ++ issuePath)
          else do
            let issueName ← wrapErr "failed to extract issue name: "
              (liftExcept (ExtractIssueName env absIssuePath))
            let pieceName := SanitizePieceName cc issueName
            let info ← CreatePiece env monkeypuzzleSourceDir pieceName
            let relIssuePath := (match fpRel repoRoot absIssuePath with
              | Except.error _ => issuePath
              | Except.ok r => r)
            let marker : CurrentIssueMarker :=
              { issuePath := relIssuePath, issueName := issueName, pieceName := pieceName }
            let wm ← M.attempt (writeCurrentIssueMarker env info.worktreePath marker)
            let _ ← (match wm with
              | Except.error e =>
                outputW MsgType.warning ("Failed to write current issue marker: " ++ e)
              | Except.ok _ => pure ())
            let _ ← updateIssueStatusToInProgress env absIssuePath
            pure info

/-- `MergePiece` (part_007): the squash-merge flow guarded by the
`IsMainAhead` safety check. -/
def MergePiece (env : GoEnv) (workDir mainBranch : String) : M Unit := do
  let status ← wrapErr "failed to get piece status: " (Status env workDir)
  if !status.inPiece then M.fail "not in a piece worktree"
  else do
    let pieceBranch ← wrapErr "failed to get current branch: " (Git.CurrentBranch env workDir)
    let mainRepoRoot ← wrapErr "failed to get main repo root: " (Git.GetMainRepoRoot env workDir)
    let hookCtx : HookContext :=
      { pieceName := status.pieceName, worktreePath := status.worktreePath,
        repoRoot := mainRepoRoot, mainBranch := mainBranch }
    let _ ← wrapErr "before-piece-merge hook failed: "
      (RunHook env mainRepoRoot HookBeforePieceMerge hookCtx)
    let isAhead ← wrapErr "failed to check if main is ahead: "
      (Git.IsMainAhead env mainRepoRoot mainBranch pieceBranch)
    if isAhead then
      M.fail "cannot merge: main branch has commits not in piece worktree. Run 'mp piece update' first"
    else do
      let commitMsgs ← wrapErr "failed to get commit messages: "
        (Git.GetCommitMessages env mainRepoRoot mainBranch pieceBranch)
      let commitMsg := buildSquashCommitMessage status.pieceName commitMsgs
      let _ ← wrapErr "failed to checkout main branch: " (Git.Checkout env mainRepoRoot mainBranch)
      let _ ← wrapErr "failed to squash merge piece branch into main: "
        (Git.MergeSquash env mainRepoRoot pieceBranch)
      let _ ← wrapErr "failed to commit squashed changes: " (Git.Commit env mainRepoRoot commitMsg)
      let _ ← wrapErr "after-piece-merge hook failed: "
        (RunHook env mainRepoRoot HookAfterPieceMerge hookCtx)
      outputW MsgType.success ("Squash merged " ++ pieceBranch ++ " into " ++ mainBranch)

/-- `checkPRMergeStatus`: PR metadata plus a forge query (the PR number
accompanying an error return is never used by the caller). -/
def checkPRMergeStatus (env : GoEnv) (worktreePath : String) : M (Bool × Nat) := do
  match ReadPRMetadata env worktreePath with
  | Except.error e => M.fail ("no PR metadata found: " ++ e)
  | Except.ok metadata =>
    if metadata.prNumber == 0 then M.fail "PR number not set in metadata"
    else do
      let merged ← wrapErr "failed to check PR status: "
        (GitHub.IsPRMerged env worktreePath metadata.prNumber)
      pure (merged, metadata.prNumber)

/-- `checkCommitMerged`: is the branch HEAD an ancestor of main. -/
def checkCommitMerged (env : GoEnv) (repoRoot branchName mainBranch : String) : M Bool := do
  let branchCommit ← wrapErr "failed to get branch commit: "
    (Git.GetBranchCommit env repoRoot branchName)
  Git.IsCommitInBranch env repoRoot branchCommit mainBranch

/-- The shared tail of the merge detection: the commit-ancestry
fallback, whose error aborts the whole check (part_007). -/
def commitFallback (env : GoEnv) (repoRoot branchName mainBranch : String)
    (existsOnRemote : Bool) : M MergeStatus := do
  let merged ← wrapErr "failed to check commit history: "
    (checkCommitMerged env repoRoot branchName mainBranch)
  if merged then
    pure { isMerged := true, method := "commit", existsOnRemote := existsOnRemote }
  else
    pure { isMerged := false, existsOnRemote := existsOnRemote }

/-- `IsBranchMerged` (part_007): remote-existence probe, then PR
metadata, then `git branch --merged`, then commit ancestry. -/
def IsBranchMerged (env : GoEnv) (repoRoot branchName mainBranch : String) : M MergeStatus := do
  let er ← M.attempt (Git.BranchExistsOnRemote env repoRoot branchName)
  let existsOnRemote ← (match er with
    | Except.error e => do
      let _ ← outputW MsgType.warning ("Failed to check remote branch: " ++ e)
      pure false
    | Except.ok b => pure b)
  let pr ← M.attempt (checkPRMergeStatus env repoRoot)
  match pr with
  | Except.ok (true, prNumber) =>
    pure { isMerged := true, method := "pr", prNumber := prNumber,
           existsOnRemote := existsOnRemote }
  | _ => do
    let gm ← M.attempt (Git.IsBranchMerged env repoRoot mainBranch branchName)
    match gm with
    | Except.error e => do
      let _ ← outputW MsgType.warning ("git branch --merged check failed: " ++ e)
      commitFallback env repoRoot branchName mainBranch existsOnRemote
    | Except.ok true =>
      pure { isMerged := true, method := "git", existsOnRemote := existsOnRemote }
    | Except.ok false =>
      commitFallback env repoRoot branchName mainBranch existsOnRemote

/-- `readCurrentIssueMarker` (errors returned unchanged). -/
def readCurrentIssueMarker (env : GoEnv) (worktreePath : String) : M CurrentIssueMarker :=
  match env.readFile (fpJoin [worktreePath, DirName, "current-issue.json"]) with
  | Except.error fe => M.fail (fsErrMsg fe)
  | Except.ok data =>
    match env.parseMarker data with
    | Except.error e => M.fail e
    | Except.ok m => (Except.ok m, [])

/-- `removePiece`: kill the session (errors ignored), then remove the
worktree. -/
def removePiece (env : GoEnv) (repoRoot pieceName worktreePath : String) : M Unit := do
  let sessionName := "mp-piece-" ++ pieceName
  let _ ← M.attempt (Tmux.KillSession env sessionName)
  let wr ← M.attempt (Git.WorktreeRemove env repoRoot worktreePath)
  match wr with
  | Except.error e => M.fail ("failed to remove worktree: " ++ e)
  | Except.ok _ => pure ()

/-- `updateIssueStatusToDone`: move an `in-progress` issue to `done`. -/
def updateIssueStatusToDone (env : GoEnv) (issuePath : String) : M Unit := do
  let currentStatus ← wrapErr "failed to read issue status: " (ParseStatusM env issuePath)
  if currentStatus != StatusInProgress then pure ()
  else do
    let _ ← wrapErr "failed to update issue status: " (UpdateStatusM env issuePath StatusDone)
    pure ()

/-- The per-entry loop of `CleanupMergedPieces`, with the accumulated
results. -/
def cleanupLoop (env : GoEnv) (repoRoot : String) (opts : CleanupOptions) (piecesDir : String) :
    List DirEntry → List CleanupResult → M (List CleanupResult)
  | [], results => pure results
  | entry :: rest, results =>
    if !entry.isDir then cleanupLoop env repoRoot opts piecesDir rest results
    else do
      let pieceName := entry.name
      let worktreePath := fpJoin [piecesDir, pieceName]
      let br ← M.attempt (Git.CurrentBranch env worktreePath)
      match br with
      | Except.error e => do
        let _ ← outputW MsgType.warning ("Skipping " ++ pieceName ++ ": failed to get branch: " ++ e)
        cleanupLoop env repoRoot opts piecesDir rest results
      | Except.ok branchName => do
        let ms ← M.attempt (IsBranchMerged env worktreePath branchName opts.mainBranch)
        match ms with
        | Except.error e => do
          let _ ← outputW MsgType.warning
            ("Skipping " ++ pieceName ++ ": failed to check merge status: " ++ e)
          cleanupLoop env repoRoot opts piecesDir rest results
        | Except.ok mergeStatus =>
          if !mergeStatus.isMerged then cleanupLoop env repoRoot opts piecesDir rest results
          else do
            let mk ← M.attempt (readCurrentIssueMarker env worktreePath)
            let issuePath := (match mk with
              | Except.ok marker => marker.issuePath
              | Except.error _ => "")
            let result : CleanupResult :=
              { pieceName := pieceName, worktreePath := worktreePath, issuePath := issuePath }
            if opts.dryRun then do
              let _ ← outputW MsgType.info
                ("[dry-run] Would cleanup: " ++ pieceName ++ " (merged via " ++
                  mergeStatus.method ++ ")")
              cleanupLoop env repoRoot opts piecesDir rest (results ++ [result])
            else do
              let rp ← M.attempt (removePiece env repoRoot pieceName worktreePath)
              match rp with
              | Except.error e => do
                let _ ← outputW MsgType.warning ("Failed to cleanup " ++ pieceName ++ ": " ++ e)
                cleanupLoop env repoRoot opts piecesDir rest results
              | Except.ok _ => do
                let result2 ← (if result.issuePath ≠ "" then do
                    let absIssuePath := fpJoin [repoRoot, result.issuePath]
                    let ur ← M.attempt (updateIssueStatusToDone env absIssuePath)
                    match ur with
                    | Except.error e => do
                      let _ ← outputW MsgType.warning ("Failed to update issue status: " ++ e)
                      pure result
                    | Except.ok _ => pure { result with issueUpdated := true }
                  else pure result)
                let _ ← outputW MsgType.success ("Cleaned up: " ++ pieceName)
                cleanupLoop env repoRoot opts piecesDir rest (results ++ [result2])

/-- `CleanupMergedPieces` (part_007). -/
def CleanupMergedPieces (env : GoEnv) (repoRoot : String) (opts : CleanupOptions) :
    M (List CleanupResult) := do
  let piecesDir ← wrapErr "failed to get pieces directory: " (liftExcept (getPiecesDir env))
  match env.readDir piecesDir with
  | Except.error FsErr.notExist => pure []
  | Except.error (FsErr.other e) => M.fail ("failed to read pieces directory: " ++ e)
  | Except.ok entries => cleanupLoop env repoRoot opts piecesDir entries []

/-! ### The `Status` value, characterized -/

/-- The value `Status` computes, as a pure function of the underlying
query results. -/
def statusVal (env : GoEnv) (workDir : String) : PieceStatus :=
  match (Git.RevParseGitDir env workDir).1 with
  | Except.error _ => { inPiece := false }
  | Except.ok gitDir =>
    if !(Git.IsWorktree env gitDir) then
      { inPiece := false,
        repoRoot := (match (Git.RepoRoot env workDir).1 with
          | Except.error _ => ""
          | Except.ok r => r) }
    else
      let worktreePath := (match (Git.RepoRoot env workDir).1 with
        | Except.error _ => workDir
        | Except.ok r => r)
      { inPiece := true, pieceName := fpBase worktreePath, worktreePath := worktreePath,
        repoRoot := (match (Git.GetMainRepoRoot env workDir).1 with
          | Except.error _ => ""
          | Except.ok r => r) }

theorem Status_val_eq (env : GoEnv) (workDir : String) :
    (Status env workDir).1 = Except.ok (statusVal env workDir) := by
  unfold Status statusVal
  rcases h : (Git.RevParseGitDir env workDir).1 with e | gitDir
  · simp only [M.attempt_bind, h]
    rfl
  · simp only [M.attempt_bind, h]
    by_cases hw : Git.IsWorktree env gitDir = true
    · simp only [hw]
      rcases h2 : (Git.RepoRoot env workDir).1 with e2 | r2 <;>
        rcases h3 : (Git.GetMainRepoRoot env workDir).1 with e3 | r3 <;>
          simp only [M.attempt_bind, h2, h3] <;> rfl
    · simp only [Bool.not_eq_true] at hw
      simp only [hw]
      rcases h2 : (Git.RepoRoot env workDir).1 with e2 | r2 <;>
        simp only [M.attempt_bind, h2] <;> rfl

/-- C10: `Status` is total over its error channel: it always returns a
value; when the `rev-parse --git-dir` probe fails the result is just
`inPiece = false`; outside a worktree the repo root falls back to empty
when the repo-root query fails; inside a worktree the worktree path
falls back to `workDir` on repo-root failure and the main repo root
falls back to empty on failure — errors are never propagated. -/
theorem Status_total (env : GoEnv) (workDir : String) :
    (∃ st, (Status env workDir).1 = Except.ok st) ∧
    (∀ e, (Git.RevParseGitDir env workDir).1 = Except.error e →
      (Status env workDir).1 = Except.ok { inPiece := false }) ∧
    (∀ gitDir, (Git.RevParseGitDir env workDir).1 = Except.ok gitDir →
      Git.IsWorktree env gitDir = false →
      (Status env workDir).1 = Except.ok
        { inPiece := false,
          repoRoot := (match (Git.RepoRoot env workDir).1 with
            | Except.error _ => ""
            | Except.ok r => r) }) ∧
    (∀ gitDir, (Git.RevParseGitDir env workDir).1 = Except.ok gitDir →
      Git.IsWorktree env gitDir = true →
      (Status env workDir).1 = Except.ok
        { inPiece := true,
          pieceName := fpBase (match (Git.RepoRoot env workDir).1 with
            | Except.error _ => workDir
            | Except.ok r => r),
          worktreePath := (match (Git.RepoRoot env workDir).1 with
            | Except.error _ => workDir
            | Except.ok r => r),
          repoRoot := (match (Git.GetMainRepoRoot env workDir).1 with
            | Except.error _ => ""
            | Except.ok r => r) }) := by
  refine ⟨⟨statusVal env workDir, Status_val_eq env workDir⟩, ?_, ?_, ?_⟩
  · intro e he
    rw [Status_val_eq]
    unfold statusVal
    rw [he]
  · intro gitDir hg hw
    rw [Status_val_eq]
    unfold statusVal
    rw [hg]
    simp only [hw, Bool.not_false, if_true]
  · intro gitDir hg hw
    rw [Status_val_eq]
    unfold statusVal
    rw [hg]
    simp only [hw, Bool.not_true, Bool.false_eq_true, if_false]

/-- A mock oracle environment in the style of the repository's test
doubles: every probe fails or is empty unless overridden. -/
def baseEnv : GoEnv where
  getwd := Except.ok "/home/u/repo"
  environ := []
  getenv := fun _ => ""
  userHomeDir := Except.ok "/home/u"
  nowStamp := "20240101-000000"
  exec := fun _ _ => { output := "", err := some "exec not mocked" }
  execDir := fun _ _ _ => { output := "", err := some "exec not mocked" }
  execEnv := fun _ _ _ _ => { output := "", err := some "exec not mocked" }
  stat := fun _ => StatRes.notExist
  readFile := fun _ => Except.error FsErr.notExist
  readDir := fun _ => Except.error FsErr.notExist
  writeRes := fun _ _ => none
  mkdirRes := fun _ => none
  symlinkRes := fun _ _ => none
  parseConfig := fun _ => Except.error "invalid config"
  parsePRMetadata := fun _ => Except.error "invalid metadata"
  parseMergedAt := fun _ => Except.error "invalid json"
  parsePRList := fun _ => Except.error "invalid json"
  parseMarker := fun _ => Except.error "invalid marker"

/-- Oracle for the no-git-repo case: every git probe fails. -/
def envStatErr : GoEnv :=
  { baseEnv with execDir := fun _ _ _ => { output := "", err := some "exit status 128" } }

/-- Oracle for the main-repo case where the repo-root query fails. -/
def envStatMain : GoEnv :=
  { baseEnv with execDir := fun _ _ args =>
      if args = ["rev-parse", "--git-dir"] then { output := ".git\n", err := none }
      else { output := "", err := some "boom" } }

/-- Oracle for the worktree case where the repo-root query fails. -/
def envStatWt : GoEnv :=
  { baseEnv with execDir := fun _ _ args =>
      if args = ["rev-parse", "--git-dir"] then
        { output := "/repo/.git/worktrees/p1\n", err := none }
      else { output := "", err := some "boom" } }

/-! ### Trace characterizations of the adapters -/

theorem M.bind_fst_ok {α β : Type} {x : M α} {a : α} (h : x.1 = Except.ok a) (f : α → M β) :
    (x >>= f).1 = (f a).1 := by
  rw [M.bind_ok h f]

theorem M.bind_snd_ok {α β : Type} {x : M α} {a : α} (h : x.1 = Except.ok a) (f : α → M β) :
    (x >>= f).2 = x.2 ++ (f a).2 := by
  rw [M.bind_ok h f]

theorem wrapErr_val_ok {α : Type} {x : M α} {a : α} (msg : String) (h : x.1 = Except.ok a) :
    (wrapErr msg x).1 = Except.ok a := by
  rw [wrapErr_ok msg h]

/-- An adapter of the shape "one `RunWithDir` then a pure wrap-up"
records exactly that one call. -/
theorem calls_exec_then_pure {β : Type} (env : GoEnv) (d n : String) (a : List String)
    (k : ExecResult → M β) (hk : ∀ r, (k r).2 = []) :
    (runWithDir env d n a >>= k).2 = [Call.runDir d n a] := by
  rw [M.bind_snd_ok (rfl : (runWithDir env d n a).1 = Except.ok (env.execDir d n a)) k]
  show Call.runDir d n a :: ([] ++ (k (env.execDir d n a)).2) = _
  rw [hk]
  rfl

/-- Same, for `Run` (the tmux adapter). -/
theorem calls_run_then_pure {β : Type} (env : GoEnv) (n : String) (a : List String)
    (k : ExecResult → M β) (hk : ∀ r, (k r).2 = []) :
    (runPlain env n a >>= k).2 = [Call.run n a] := by
  rw [M.bind_snd_ok (rfl : (runPlain env n a).1 = Except.ok (env.exec n a)) k]
  show Call.run n a :: ([] ++ (k (env.exec n a)).2) = _
  rw [hk]
  rfl

theorem revParseGitDir_calls (env : GoEnv) (workDir : String) :
    (Git.RevParseGitDir env workDir).2 = [Call.runDir workDir "git" ["rev-parse", "--git-dir"]] := by
  unfold Git.RevParseGitDir
  exact calls_exec_then_pure env workDir "git" ["rev-parse", "--git-dir"] _
    (fun r => by rcases r with ⟨o, err⟩; rcases err with _ | e <;> rfl)

theorem repoRoot_calls (env : GoEnv) (workDir : String) :
    (Git.RepoRoot env workDir).2 = [Call.runDir workDir "git" ["rev-parse", "--show-toplevel"]] := by
  unfold Git.RepoRoot
  exact calls_exec_then_pure env workDir "git" ["rev-parse", "--show-toplevel"] _
    (fun r => by rcases r with ⟨o, err⟩; rcases err with _ | e <;> rfl)

theorem currentBranch_calls (env : GoEnv) (workDir : String) :
    (Git.CurrentBranch env workDir).2 =
      [Call.runDir workDir "git" ["rev-parse", "--abbrev-ref", "HEAD"]] := by
  unfold Git.CurrentBranch
  exact calls_exec_then_pure env workDir "git" ["rev-parse", "--abbrev-ref", "HEAD"] _
    (fun r => by rcases r with ⟨o, err⟩; rcases err with _ | e <;> rfl)

theorem worktreeAdd_calls (env : GoEnv) (repoRoot worktreePath : String) :
    (Git.WorktreeAdd env repoRoot worktreePath).2 =
      [Call.runDir repoRoot "git" ["worktree", "add", worktreePath]] := by
  unfold Git.WorktreeAdd
  exact calls_exec_then_pure env repoRoot "git" ["worktree", "add", worktreePath] _
    (fun r => by rcases r with ⟨o, err⟩; rcases err with _ | e <;> rfl)

theorem worktreeRemove_calls (env : GoEnv) (repoRoot worktreePath : String) :
    (Git.WorktreeRemove env repoRoot worktreePath).2 =
      [Call.runDir repoRoot "git" ["worktree", "remove", worktreePath]] := by
  unfold Git.WorktreeRemove
  exact calls_exec_then_pure env repoRoot "git" ["worktree", "remove", worktreePath] _
    (fun r => by rcases r with ⟨o, err⟩; rcases err with _ | e <;> rfl)

theorem branchExistsOnRemote_calls (env : GoEnv) (workDir branchName : String) :
    (Git.BranchExistsOnRemote env workDir branchName).2 =
      [Call.runDir workDir "git" ["ls-remote", "--heads", "origin", branchName]] := by
  unfold Git.BranchExistsOnRemote
  exact calls_exec_then_pure env workDir "git" ["ls-remote", "--heads", "origin", branchName] _
    (fun r => by rcases r with ⟨o, err⟩; rcases err with _ | e <;> rfl)

theorem getBranchCommit_calls (env : GoEnv) (workDir branchName : String) :
    (Git.GetBranchCommit env workDir branchName).2 =
      [Call.runDir workDir "git" ["rev-parse", branchName]] := by
  unfold Git.GetBranchCommit
  exact calls_exec_then_pure env workDir "git" ["rev-parse", branchName] _
    (fun r => by rcases r with ⟨o, err⟩; rcases err with _ | e <;> rfl)

theorem isCommitInBranch_calls (env : GoEnv) (workDir commit branch : String) :
    (Git.IsCommitInBranch env workDir commit branch).2 =
      [Call.runDir workDir "git" ["merge-base", "--is-ancestor", commit, branch]] := by
  unfold Git.IsCommitInBranch
  refine calls_exec_then_pure env workDir "git" ["merge-base", "--is-ancestor", commit, branch] _
    (fun r => ?_)
  rcases r with ⟨o, err⟩
  rcases err with _ | e
  · rfl
  · show (if goContains e "exit status 1" = true then (pure false : M Bool) else M.fail _).2 = []
    by_cases hg : goContains e "exit status 1" = true
    · rw [if_pos hg]
      rfl
    · rw [if_neg hg]
      rfl

theorem gitIsBranchMerged_calls (env : GoEnv) (workDir mainBranch branchName : String) :
    (Git.IsBranchMerged env workDir mainBranch branchName).2 =
      [Call.runDir workDir "git" ["branch", "--merged", mainBranch]] := by
  unfold Git.IsBranchMerged
  exact calls_exec_then_pure env workDir "git" ["branch", "--merged", mainBranch] _
    (fun r => by rcases r with ⟨o, err⟩; rcases err with _ | e <;> rfl)

theorem getCommitMessages_calls (env : GoEnv) (workDir base branch : String) :
    (Git.GetCommitMessages env workDir base branch).2 =
      [Call.runDir workDir "git" ["log", "--format=%s", base ++ ".." ++ branch]] := by
  unfold Git.GetCommitMessages
  exact calls_exec_then_pure env workDir "git" ["log", "--format=%s", base ++ ".." ++ branch] _
    (fun r => by rcases r with ⟨o, err⟩; rcases err with _ | e <;> rfl)

theorem newSession_calls (env : GoEnv) (sessionName workDir : String) :
    (Tmux.NewSession env sessionName workDir).2 =
      [Call.run "tmux" ["new-session", "-d", "-s", sessionName, "-c", workDir]] := by
  unfold Tmux.NewSession
  exact calls_run_then_pure env "tmux" ["new-session", "-d", "-s", sessionName, "-c", workDir] _
    (fun r => by rcases r with ⟨o, err⟩; rcases err with _ | e <;> rfl)

theorem killSession_calls (env : GoEnv) (sessionName : String) :
    (Tmux.KillSession env sessionName).2 = [Call.run "tmux" ["kill-session", "-t", sessionName]] := by
  unfold Tmux.KillSession
  exact calls_run_then_pure env "tmux" ["kill-session", "-t", sessionName] _
    (fun r => by rcases r with ⟨o, err⟩; rcases err with _ | e <;> rfl)

theorem isPRMerged_calls (env : GoEnv) (workDir : String) (prNumber : Nat) :
    (GitHub.IsPRMerged env workDir prNumber).2 =
      [Call.runDir workDir "gh" ["pr", "view", goNatToStr prNumber, "--json", "mergedAt"]] := by
  unfold GitHub.IsPRMerged
  refine calls_exec_then_pure env workDir "gh" ["pr", "view", goNatToStr prNumber, "--json", "mergedAt"] _
    (fun r => ?_)
  rcases r with ⟨o, err⟩
  rcases err with _ | e
  · show (match env.parseMergedAt o with
      | Except.error e => (M.fail ("failed to parse PR merge status: " ++ e) : M Bool)
      | Except.ok m => pure (match m with | some s => decide (s ≠ "") | none => false)).2 = []
    rcases env.parseMergedAt o with e2 | m <;> rfl
  · rfl

/-- The two probes of `IsMainAhead`. -/
theorem isMainAhead_calls (env : GoEnv) (workDir mainBranch pieceBranch : String) :
    ∀ c ∈ (Git.IsMainAhead env workDir mainBranch pieceBranch).2,
      c = Call.runDir workDir "git" ["merge-base", mainBranch, pieceBranch] ∨
      ∃ range, c = Call.runDir workDir "git" ["rev-list", "--count", range] := by
  intro c hc
  unfold Git.IsMainAhead at hc
  rcases mem_calls_bind hc with h | ⟨r, hr, h⟩
  · left
    simpa [runWithDir] using h
  · rcases r with ⟨o, err⟩
    rcases err with _ | e
    · rcases mem_calls_bind h with h2 | ⟨r2, hr2, h2⟩
      · right
        exact ⟨goTrim o ++ ".." ++ mainBranch, by simpa [runWithDir] using h2⟩
      · rcases r2 with ⟨o2, err2⟩
        rcases err2 with _ | e2 <;> simp [M.fail, pure] at h2
    · simp [M.fail] at h

theorem getMainRepoRoot_calls (env : GoEnv) (workDir : String) :
    ∀ c ∈ (Git.GetMainRepoRoot env workDir).2,
      c = Call.runDir workDir "git" ["rev-parse", "--git-dir"] ∨
      c = Call.runDir workDir "git" ["rev-parse", "--show-toplevel"] := by
  intro c hc
  unfold Git.GetMainRepoRoot at hc
  rcases mem_calls_bind hc with h | ⟨gitDir, hg, h⟩
  · left
    rw [revParseGitDir_calls] at h
    simpa using h
  · by_cases hw : Git.IsWorktree env gitDir = true
    · simp only [hw, if_true] at h
      simp [pure] at h
    · simp only [Bool.not_eq_true] at hw
      simp only [hw, Bool.false_eq_true, if_false] at h
      right
      rw [repoRoot_calls] at h
      simpa using h

theorem status_calls (env : GoEnv) (workDir : String) :
    ∀ c ∈ (Status env workDir).2,
      c = Call.runDir workDir "git" ["rev-parse", "--git-dir"] ∨
      c = Call.runDir workDir "git" ["rev-parse", "--show-toplevel"] := by
  intro c hc
  unfold Status at hc
  rcases mem_calls_bind hc with h | ⟨gd, hgd, h⟩
  · left
    have h' : c ∈ (Git.RevParseGitDir env workDir).2 := h
    rw [revParseGitDir_calls] at h'
    simpa using h'
  · rcases gd with e | gitDir
    · simp [pure] at h
    · by_cases hw : Git.IsWorktree env gitDir = true
      · simp only [hw, Bool.not_true, Bool.false_eq_true, if_false] at h
        rcases mem_calls_bind h with h2 | ⟨wp, hwp, h2⟩
        · right
          have h' : c ∈ (Git.RepoRoot env workDir).2 := h2
          rw [repoRoot_calls] at h'
          simpa using h'
        · rcases mem_calls_bind h2 with h3 | ⟨mr, hmr, h3⟩
          · have h' : c ∈ (Git.GetMainRepoRoot env workDir).2 := h3
            exact getMainRepoRoot_calls env workDir c h'
          · simp [pure] at h3
      · simp only [Bool.not_eq_true] at hw
        simp only [hw, Bool.not_false, if_true] at h
        rcases mem_calls_bind h with h2 | ⟨rr, hrr, h2⟩
        · right
          have h' : c ∈ (Git.RepoRoot env workDir).2 := h2
          rw [repoRoot_calls] at h'
          simpa using h'
        · simp [pure] at h2

/-- Calls a hook run can make: messages and the `bash` invocation. -/
theorem runHook_calls (env : GoEnv) (repoRoot hookName : String) (ctx : HookContext) :
    ∀ c ∈ (RunHook env repoRoot hookName ctx).2,
      (∃ t s, c = Call.msg t s) ∨
      (∃ d ev n a, c = Call.runEnv d ev n a) := by
  intro c hc
  simp only [RunHook] at hc
  generalize hstat : env.stat (fpJoin [repoRoot, HooksDir, hookName]) = sr at hc
  rcases sr with ⟨mode, b⟩ | - | e
  · dsimp only at hc
    by_cases hm : (mode &&& 0o111 == 0) = true
    · rw [if_pos hm] at hc
      rcases mem_calls_bind hc with h | ⟨u, hu, h⟩
      · left
        have h' : c ∈ [Call.msg MsgType.warning
            ("Hook " ++ hookName ++ " is not executable, skipping")] := h
        exact ⟨_, _, List.mem_singleton.mp h'⟩
      · simp [pure] at h
    · rw [if_neg hm] at hc
      rcases mem_calls_bind hc with h | ⟨u, hu, h⟩
      · left
        have h' : c ∈ [Call.msg MsgType.info ("Running hook: " ++ hookName)] := h
        exact ⟨_, _, List.mem_singleton.mp h'⟩
      · rcases mem_calls_bind h with h2 | ⟨r, hr, h2⟩
        · right
          have h' : c ∈ [Call.runEnv repoRoot (buildEnv env.environ ctx) "bash"
              [fpJoin [repoRoot, HooksDir, hookName]]] := h2
          exact ⟨_, _, _, _, List.mem_singleton.mp h'⟩
        · rcases r with ⟨o, err⟩
          rcases err with _ | e
          · rcases mem_calls_bind h2 with h3 | ⟨u2, hu2, h3⟩
            · by_cases ho : (o != "") = true
              · rw [if_pos ho] at h3
                left
                have h' : c ∈ [Call.msg MsgType.info o] := h3
                exact ⟨_, _, List.mem_singleton.mp h'⟩
              · rw [if_neg ho] at h3
                simp [pure] at h3
            · simp [pure] at h3
          · rcases mem_calls_bind h2 with h3 | ⟨u2, hu2, h3⟩
            · by_cases ho : (o != "") = true
              · rw [if_pos ho] at h3
                left
                have h' : c ∈ [Call.msg MsgType.error o] := h3
                exact ⟨_, _, List.mem_singleton.mp h'⟩
              · rw [if_neg ho] at h3
                simp [pure] at h3
            · simp [M.fail] at h3
  · simp [pure] at hc
  · simp [M.fail] at hc

/-- A `git checkout`, `git merge` (including `--squash`) or
`git commit` invocation — the state-changing git commands of the merge
flow. -/
def gitMut (c : Call) : Bool :=
  match c with
  | Call.runDir _ name (sub :: _) =>
    name == "git" && (sub == "checkout" || sub == "merge" || sub == "commit")
  | _ => false

/-- C1: when the main branch is ahead of the piece branch (per
merge-base + rev-list count), `MergePiece` fails with the
run-update-first error, and its entire call trace is free of
`git checkout`, `git merge` and `git commit` — the repository's git
state is untouched. -/
theorem MergePiece_ahead_safe (env : GoEnv) (workDir mainBranch : String)
    (st : PieceStatus) (pieceBranch mainRepoRoot : String)
    (h1 : (Status env workDir).1 = Except.ok st)
    (h2 : st.inPiece = true)
    (h3 : (Git.CurrentBranch env workDir).1 = Except.ok pieceBranch)
    (h4 : (Git.GetMainRepoRoot env workDir).1 = Except.ok mainRepoRoot)
    (h5 : (RunHook env mainRepoRoot HookBeforePieceMerge
        { pieceName := st.pieceName, worktreePath := st.worktreePath,
          repoRoot := mainRepoRoot, mainBranch := mainBranch }).1 = Except.ok ())
    (h6 : (Git.IsMainAhead env mainRepoRoot mainBranch pieceBranch).1 = Except.ok true) :
    (MergePiece env workDir mainBranch).1 = Except.error
      "cannot merge: main branch has commits not in piece worktree. Run 'mp piece update' first" ∧
    ∀ c ∈ (MergePiece env workDir mainBranch).2, gitMut c = false := by
  have hv1 := wrapErr_val_ok "failed to get piece status: " h1
  have hv2 := wrapErr_val_ok "failed to get current branch: " h3
  have hv3 := wrapErr_val_ok "failed to get main repo root: " h4
  have hv4 := wrapErr_val_ok "before-piece-merge hook failed: " h5
  have hv5 := wrapErr_val_ok "failed to check if main is ahead: " h6
  constructor
  · simp only [MergePiece, M.bind_fst_ok hv1, h2, Bool.not_true, Bool.false_eq_true, if_false,
      M.bind_fst_ok hv2, M.bind_fst_ok hv3, M.bind_fst_ok hv4, M.bind_fst_ok hv5,
      eq_self_iff_true, if_true]
    rfl
  · intro c hc
    unfold MergePiece at hc
    rcases mem_calls_bind hc with h | ⟨st', hst', h⟩
    · have h' : c ∈ (Status env workDir).2 := by rwa [wrapErr_calls] at h
      rcases status_calls env workDir c h' with rfl | rfl <;> rfl
    · have hst2 : st = st' := Except.ok.inj (hv1.symm.trans hst')
      subst hst2
      rw [h2, if_neg (by decide : ¬((!true) = true))] at h
      rcases mem_calls_bind h with h | ⟨pb', hpb', h⟩
      · have h' : c ∈ (Git.CurrentBranch env workDir).2 := by rwa [wrapErr_calls] at h
        rw [currentBranch_calls] at h'
        rcases List.mem_singleton.mp h' with rfl
        rfl
      · have hpb2 : pieceBranch = pb' := Except.ok.inj (hv2.symm.trans hpb')
        subst hpb2
        rcases mem_calls_bind h with h | ⟨mrr', hmrr', h⟩
        · have h' : c ∈ (Git.GetMainRepoRoot env workDir).2 := by rwa [wrapErr_calls] at h
          rcases getMainRepoRoot_calls env workDir c h' with rfl | rfl <;> rfl
        · have hmrr2 : mainRepoRoot = mrr' := Except.ok.inj (hv3.symm.trans hmrr')
          subst hmrr2
          rcases mem_calls_bind h with h | ⟨u', hu', h⟩
          · have h' : c ∈ (RunHook env mainRepoRoot HookBeforePieceMerge
                { pieceName := st.pieceName, worktreePath := st.worktreePath,
                  repoRoot := mainRepoRoot, mainBranch := mainBranch }).2 := by
              rwa [wrapErr_calls] at h
            rcases runHook_calls env mainRepoRoot HookBeforePieceMerge _ c h' with
              ⟨t, s, rfl⟩ | ⟨d, ev, n, a, rfl⟩ <;> rfl
          · rcases mem_calls_bind h with h | ⟨ahead', hahead', h⟩
            · have h' : c ∈ (Git.IsMainAhead env mainRepoRoot mainBranch pieceBranch).2 := by
                rwa [wrapErr_calls] at h
              rcases isMainAhead_calls env mainRepoRoot mainBranch pieceBranch c h' with
                rfl | ⟨range, rfl⟩ <;> rfl
            · have hahead2 : true = ahead' := Except.ok.inj (hv5.symm.trans hahead')
              subst hahead2
              rw [if_pos rfl] at h
              exact absurd h (List.not_mem_nil c)

/-! ### Navigation lemmas for values, memberships and sub-traces -/

theorem M.fst_bind_eq {α β : Type} {x : M α} {f : α → M β} {a : α} {v : Except String β}
    (hx : x.1 = Except.ok a) (h : (f a).1 = v) : (x >>= f).1 = v := by
  rw [M.bind_fst_ok hx]
  exact h

theorem M.attempt_bind_fst {α β : Type} (x : M α) (f : Except String α → M β) :
    (M.attempt x >>= f).1 = (f x.1).1 := by
  rw [M.attempt_bind]

theorem M.mem_bind_left {α β : Type} {x : M α} {f : α → M β} {c : Call}
    (hc : c ∈ x.2) : c ∈ (x >>= f).2 := by
  rcases hx : x.1 with e | a
  · rw [M.bind_err hx]
    exact hc
  · rw [M.bind_ok hx]
    exact List.mem_append_left _ hc

theorem M.mem_bind_right {α β : Type} {x : M α} {f : α → M β} {a : α} {c : Call}
    (hx : x.1 = Except.ok a) (hc : c ∈ (f a).2) : c ∈ (x >>= f).2 := by
  rw [M.bind_ok hx]
  exact List.mem_append_right _ hc

theorem M.sublist_bind_left {α β : Type} {x : M α} {f : α → M β} {L : List Call}
    (h : L.Sublist x.2) : L.Sublist (x >>= f).2 := by
  rcases hx : x.1 with e | a
  · rw [M.bind_err hx]
    exact h
  · rw [M.bind_ok hx]
    exact h.trans (List.sublist_append_left _ _)

theorem M.sublist_bind_right {α β : Type} {x : M α} {f : α → M β} {a : α} {L : List Call}
    (hx : x.1 = Except.ok a) (h : L.Sublist (f a).2) : L.Sublist (x >>= f).2 := by
  rw [M.bind_ok hx]
  exact h.trans (List.sublist_append_right _ _)

/-- An ordered pair of calls drawn from consecutive trace segments. -/
theorem sublist_pair_of_mem {a b : Call} {l1 l2 : List Call} (ha : a ∈ l1) (hb : b ∈ l2) :
    List.Sublist [a, b] (l1 ++ l2) :=
  List.Sublist.append (List.singleton_sublist.mpr ha) (List.singleton_sublist.mpr hb)

/-! ### `cleanupPiece` compensations -/

theorem cleanupPiece_val (env : GoEnv) (rr wt s : String) (tc : Bool) :
    (cleanupPiece env rr wt s tc).1 = Except.ok () := by
  unfold cleanupPiece
  refine M.fst_bind_eq (a := ()) ?_ ?_
  · rcases tc
    · rw [if_neg (by decide : ¬(false = true))]
      rfl
    · rw [if_pos rfl, M.attempt_bind_fst]
      rcases (Tmux.KillSession env s).1 with e | u <;> rfl
  · rw [M.attempt_bind_fst]
    rcases (Git.WorktreeRemove env rr wt).1 with e | u <;> rfl

theorem cleanupPiece_remove_mem (env : GoEnv) (rr wt s : String) (tc : Bool) :
    Call.runDir rr "git" ["worktree", "remove", wt] ∈ (cleanupPiece env rr wt s tc).2 := by
  unfold cleanupPiece
  refine M.mem_bind_right (a := ()) ?_ ?_
  · rcases tc
    · rw [if_neg (by decide : ¬(false = true))]
      rfl
    · rw [if_pos rfl, M.attempt_bind_fst]
      rcases (Tmux.KillSession env s).1 with e | u <;> rfl
  · refine M.mem_bind_left ?_
    have h : Call.runDir rr "git" ["worktree", "remove", wt] ∈ (Git.WorktreeRemove env rr wt).2 := by
      rw [worktreeRemove_calls]
      exact List.mem_singleton.mpr rfl
    exact h

/-- With a created session, the compensation trace performs the
session kill strictly before the worktree removal. -/
theorem cleanupPiece_kill_then_remove (env : GoEnv) (rr wt s : String) :
    List.Sublist
      [Call.run "tmux" ["kill-session", "-t", s], Call.runDir rr "git" ["worktree", "remove", wt]]
      (cleanupPiece env rr wt s true).2 := by
  unfold cleanupPiece
  have hA : ((if true = true then
      (M.attempt (Tmux.KillSession env s) >>= fun kr =>
        match kr with
        | Except.error e => outputW MsgType.warning ("Failed to cleanup tmux session: " ++ e)
        | Except.ok _ => pure ()) else pure ()) : M Unit).1 = Except.ok () := by
    rw [if_pos rfl, M.attempt_bind_fst]
    rcases (Tmux.KillSession env s).1 with e | u <;> rfl
  rw [M.bind_snd_ok hA]
  refine sublist_pair_of_mem ?_ ?_
  · rw [if_pos rfl]
    refine M.mem_bind_left ?_
    have h : Call.run "tmux" ["kill-session", "-t", s] ∈ (Tmux.KillSession env s).2 := by
      rw [killSession_calls]
      exact List.mem_singleton.mpr rfl
    exact h
  · refine M.mem_bind_left ?_
    have h : Call.runDir rr "git" ["worktree", "remove", wt] ∈ (Git.WorktreeRemove env rr wt).2 := by
      rw [worktreeRemove_calls]
      exact List.mem_singleton.mpr rfl
    exact h

/-- Without a created session the compensation never kills: its calls
are the worktree removal and warnings only. -/
theorem cleanupPiece_false_calls (env : GoEnv) (rr wt s : String) :
    ∀ c ∈ (cleanupPiece env rr wt s false).2,
      c = Call.runDir rr "git" ["worktree", "remove", wt] ∨
      ∃ m, c = Call.msg MsgType.warning m := by
  intro c hc
  unfold cleanupPiece at hc
  rcases mem_calls_bind hc with h | ⟨u, hu, h⟩
  · rw [if_neg (by decide : ¬(false = true))] at h
    exact absurd h (List.not_mem_nil c)
  · rcases mem_calls_bind h with h2 | ⟨wr, hwr, h2⟩
    · left
      have h' : c ∈ (Git.WorktreeRemove env rr wt).2 := h2
      rw [worktreeRemove_calls] at h'
      exact List.mem_singleton.mp h'
    · rcases wr with e | u2
      · right
        have h' : c ∈ [Call.msg MsgType.warning ("Failed to cleanup worktree: " ++ e)] := h2
        exact ⟨_, List.mem_singleton.mp h'⟩
      · exact absurd h2 (List.not_mem_nil c)

/-- C4: if the `on-piece-create` hook fails during `CreatePiece`, the
engine returns the hook's error, removes the just-created worktree,
kills the tmux session strictly before removing the worktree when one
was successfully created, and never issues a kill when session
creation had failed. -/
theorem CreatePiece_hook_failure_cleanup (env : GoEnv) (src pieceName0 : String)
    (wd repoRoot piecesDir e : String)
    (hwd : env.getwd = Except.ok wd)
    (hrr : (Git.RepoRoot env wd).1 = Except.ok repoRoot)
    (hpd : getPiecesDir env = Except.ok piecesDir)
    (hnm : pieceName0 ≠ "")
    (hstat : env.stat (fpJoin [piecesDir, pieceName0]) = StatRes.notExist)
    (hmk : env.mkdirRes piecesDir = none)
    (hwt : (Git.WorktreeAdd env repoRoot (fpJoin [piecesDir, pieceName0])).1 = Except.ok ())
    (hhook : (RunHook env repoRoot HookOnPieceCreate
        { pieceName := pieceName0, worktreePath := fpJoin [piecesDir, pieceName0],
          repoRoot := repoRoot, sessionName := "mp-piece-" ++ pieceName0 }).1 =
      Except.error e) :
    (CreatePiece env src pieceName0).1 = Except.error ("on-piece-create hook failed: " ++ e) ∧
    Call.runDir repoRoot "git" ["worktree", "remove", fpJoin [piecesDir, pieceName0]]
      ∈ (CreatePiece env src pieceName0).2 ∧
    ((Tmux.NewSession env ("mp-piece-" ++ pieceName0) (fpJoin [piecesDir, pieceName0])).1 =
        Except.ok () →
      List.Sublist
        [Call.run "tmux" ["kill-session", "-t", "mp-piece-" ++ pieceName0],
         Call.runDir repoRoot "git" ["worktree", "remove", fpJoin [piecesDir, pieceName0]]]
        (CreatePiece env src pieceName0).2) ∧
    (∀ e2, (Tmux.NewSession env ("mp-piece-" ++ pieceName0) (fpJoin [piecesDir, pieceName0])).1 =
        Except.error e2 →
      Call.run "tmux" ["kill-session", "-t", "mp-piece-" ++ pieceName0]
        ∉ (CreatePiece env src pieceName0).2) := by
  have hne : (pieceName0 == "") = false := beq_eq_false_iff_ne.mpr hnm
  have hv0 : (wrapErr "failed to get working directory: " (liftExcept env.getwd)).1 =
      Except.ok wd := wrapErr_val_ok _ hwd
  have hv1 : (wrapErr "not in a git repository: " (Git.RepoRoot env wd)).1 =
      Except.ok repoRoot := wrapErr_val_ok _ hrr
  have hv2 : (wrapErr "failed to get pieces directory: " (liftExcept (getPiecesDir env))).1 =
      Except.ok piecesDir := wrapErr_val_ok _ hpd
  have hv3 : (wrapErr ("failed to create worktree at " ++ fpJoin [piecesDir, pieceName0] ++ ": ")
      (Git.WorktreeAdd env repoRoot (fpJoin [piecesDir, pieceName0]))).1 =
      Except.ok () := wrapErr_val_ok _ hwt
  refine ⟨?_, ?_, ?_, ?_⟩
  · -- the returned error
    unfold CreatePiece
    refine M.fst_bind_eq hv0 ?_
    refine M.fst_bind_eq hv1 ?_
    refine M.fst_bind_eq hv2 ?_
    refine M.fst_bind_eq (a := pieceName0) ?_ ?_
    · rw [hne, if_neg (by decide : ¬(false = true)), hstat]
      rfl
    · refine M.fst_bind_eq (a := env.mkdirRes piecesDir) rfl ?_
      rw [hmk]
      refine M.fst_bind_eq hv3 ?_
      refine M.fst_bind_eq
        (a := env.symlinkRes src (fpJoin [fpJoin [piecesDir, pieceName0], symlinkName])) rfl ?_
      refine M.fst_bind_eq (a := ()) ?_ ?_
      · rcases env.symlinkRes src (fpJoin [fpJoin [piecesDir, pieceName0], symlinkName]) with
          _ | e0 <;> rfl
      · refine M.fst_bind_eq
          (a := (Tmux.NewSession env ("mp-piece-" ++ pieceName0)
            (fpJoin [piecesDir, pieceName0])).1) rfl ?_
        rcases hns0 : (Tmux.NewSession env ("mp-piece-" ++ pieceName0)
            (fpJoin [piecesDir, pieceName0])).1 with e0 | u0
        · refine M.fst_bind_eq (a := false) rfl ?_
          refine M.fst_bind_eq
            (a := (RunHook env repoRoot HookOnPieceCreate
              { pieceName := pieceName0, worktreePath := fpJoin [piecesDir, pieceName0],
                repoRoot := repoRoot, sessionName := "mp-piece-" ++ pieceName0 }).1) rfl ?_
          rw [hhook]
          refine M.fst_bind_eq (cleanupPiece_val env repoRoot (fpJoin [piecesDir, pieceName0])
            ("mp-piece-" ++ pieceName0) false) ?_
          rfl
        · refine M.fst_bind_eq (a := true) rfl ?_
          refine M.fst_bind_eq
            (a := (RunHook env repoRoot HookOnPieceCreate
              { pieceName := pieceName0, worktreePath := fpJoin [piecesDir, pieceName0],
                repoRoot := repoRoot, sessionName := "mp-piece-" ++ pieceName0 }).1) rfl ?_
          rw [hhook]
          refine M.fst_bind_eq (cleanupPiece_val env repoRoot (fpJoin [piecesDir, pieceName0])
            ("mp-piece-" ++ pieceName0) true) ?_
          rfl
  · -- the worktree removal is always in the trace
    unfold CreatePiece
    refine M.mem_bind_right hv0 ?_
    refine M.mem_bind_right hv1 ?_
    refine M.mem_bind_right hv2 ?_
    refine M.mem_bind_right (a := pieceName0) ?_ ?_
    · rw [hne, if_neg (by decide : ¬(false = true)), hstat]
      rfl
    · refine M.mem_bind_right (a := env.mkdirRes piecesDir) rfl ?_
      rw [hmk]
      refine M.mem_bind_right hv3 ?_
      refine M.mem_bind_right
        (a := env.symlinkRes src (fpJoin [fpJoin [piecesDir, pieceName0], symlinkName])) rfl ?_
      refine M.mem_bind_right (a := ()) ?_ ?_
      · rcases env.symlinkRes src (fpJoin [fpJoin [piecesDir, pieceName0], symlinkName]) with
          _ | e0 <;> rfl
      · refine M.mem_bind_right
          (a := (Tmux.NewSession env ("mp-piece-" ++ pieceName0)
            (fpJoin [piecesDir, pieceName0])).1) rfl ?_
        rcases hns0 : (Tmux.NewSession env ("mp-piece-" ++ pieceName0)
            (fpJoin [piecesDir, pieceName0])).1 with e0 | u0
        · refine M.mem_bind_right (a := false) rfl ?_
          refine M.mem_bind_right
            (a := (RunHook env repoRoot HookOnPieceCreate
              { pieceName := pieceName0, worktreePath := fpJoin [piecesDir, pieceName0],
                repoRoot := repoRoot, sessionName := "mp-piece-" ++ pieceName0 }).1) rfl ?_
          rw [hhook]
          exact M.mem_bind_left (cleanupPiece_remove_mem env repoRoot
            (fpJoin [piecesDir, pieceName0]) ("mp-piece-" ++ pieceName0) false)
        · refine M.mem_bind_right (a := true) rfl ?_
          refine M.mem_bind_right
            (a := (RunHook env repoRoot HookOnPieceCreate
              { pieceName := pieceName0, worktreePath := fpJoin [piecesDir, pieceName0],
                repoRoot := repoRoot, sessionName := "mp-piece-" ++ pieceName0 }).1) rfl ?_
          rw [hhook]
          exact M.mem_bind_left (cleanupPiece_remove_mem env repoRoot
            (fpJoin [piecesDir, pieceName0]) ("mp-piece-" ++ pieceName0) true)
  · -- created session ⇒ kill before remove
    intro hns
    unfold CreatePiece
    refine M.sublist_bind_right hv0 ?_
    refine M.sublist_bind_right hv1 ?_
    refine M.sublist_bind_right hv2 ?_
    refine M.sublist_bind_right (a := pieceName0) ?_ ?_
    · rw [hne, if_neg (by decide : ¬(false = true)), hstat]
      rfl
    · refine M.sublist_bind_right (a := env.mkdirRes piecesDir) rfl ?_
      rw [hmk]
      refine M.sublist_bind_right hv3 ?_
      refine M.sublist_bind_right
        (a := env.symlinkRes src (fpJoin [fpJoin [piecesDir, pieceName0], symlinkName])) rfl ?_
      refine M.sublist_bind_right (a := ()) ?_ ?_
      · rcases env.symlinkRes src (fpJoin [fpJoin [piecesDir, pieceName0], symlinkName]) with
          _ | e0 <;> rfl
      · refine M.sublist_bind_right
          (a := (Tmux.NewSession env ("mp-piece-" ++ pieceName0)
            (fpJoin [piecesDir, pieceName0])).1) rfl ?_
        rw [hns]
        refine M.sublist_bind_right (a := true) rfl ?_
        refine M.sublist_bind_right
          (a := (RunHook env repoRoot HookOnPieceCreate
            { pieceName := pieceName0, worktreePath := fpJoin [piecesDir, pieceName0],
              repoRoot := repoRoot, sessionName := "mp-piece-" ++ pieceName0 }).1) rfl ?_
        rw [hhook]
        exact M.sublist_bind_left (cleanupPiece_kill_then_remove env repoRoot
          (fpJoin [piecesDir, pieceName0]) ("mp-piece-" ++ pieceName0))
  · -- no created session ⇒ no kill anywhere in the trace
    intro e2 hns hmem
    unfold CreatePiece at hmem
    rcases mem_calls_bind hmem with h | ⟨wd', hwd', h⟩
    · rw [wrapErr_calls] at h
      exact absurd h (List.not_mem_nil _)
    · obtain rfl : wd = wd' := Except.ok.inj (hv0.symm.trans hwd')
      rcases mem_calls_bind h with h | ⟨rr', hrr', h⟩
      · rw [wrapErr_calls, repoRoot_calls] at h
        exact Call.noConfusion (List.mem_singleton.mp h)
      · obtain rfl : repoRoot = rr' := Except.ok.inj (hv1.symm.trans hrr')
        rcases mem_calls_bind h with h | ⟨pd', hpd', h⟩
        · rw [wrapErr_calls] at h
          exact absurd h (List.not_mem_nil _)
        · obtain rfl : piecesDir = pd' := Except.ok.inj (hv2.symm.trans hpd')
          rcases mem_calls_bind h with h | ⟨pn', hpn', h⟩
          · rw [hne, if_neg (by decide : ¬(false = true)), hstat] at h
            exact absurd h (List.not_mem_nil _)
          · rw [hne, if_neg (by decide : ¬(false = true)), hstat] at hpn'
            obtain rfl : pieceName0 = pn' := Except.ok.inj hpn'
            rcases mem_calls_bind h with h | ⟨mkv, hmkv, h⟩
            · have h' : Call.run "tmux" ["kill-session", "-t", "mp-piece-" ++ pieceName0] ∈
                  [Call.fsMkdir piecesDir] := h
              exact Call.noConfusion (List.mem_singleton.mp h')
            · obtain rfl : env.mkdirRes piecesDir = mkv := Except.ok.inj hmkv
              rw [hmk] at h
              rcases mem_calls_bind h with h | ⟨u1, hu1, h⟩
              · rw [wrapErr_calls, worktreeAdd_calls] at h
                exact Call.noConfusion (List.mem_singleton.mp h)
              · rcases mem_calls_bind h with h | ⟨slv, hslv, h⟩
                · have h' : Call.run "tmux" ["kill-session", "-t", "mp-piece-" ++ pieceName0] ∈
                      [Call.fsSymlink src (fpJoin [fpJoin [piecesDir, pieceName0], symlinkName])] := h
                  exact Call.noConfusion (List.mem_singleton.mp h')
                · obtain rfl : env.symlinkRes src
                      (fpJoin [fpJoin [piecesDir, pieceName0], symlinkName]) = slv :=
                    Except.ok.inj hslv
                  rcases mem_calls_bind h with h | ⟨u2, hu2, h⟩
                  · rcases hsl : env.symlinkRes src
                        (fpJoin [fpJoin [piecesDir, pieceName0], symlinkName]) with _ | e0 <;>
                      rw [hsl] at h
                    · exact absurd h (List.not_mem_nil _)
                    · exact Call.noConfusion (List.mem_singleton.mp h)
                  · rcases mem_calls_bind h with h | ⟨tmv, htmv, h⟩
                    · have h' : Call.run "tmux" ["kill-session", "-t", "mp-piece-" ++ pieceName0] ∈
                          (Tmux.NewSession env ("mp-piece-" ++ pieceName0)
                            (fpJoin [piecesDir, pieceName0])).2 := h
                      rw [newSession_calls] at h'
                      have heq := List.mem_singleton.mp h'
                      exact absurd heq (by simp)
                    · obtain rfl : (Tmux.NewSession env ("mp-piece-" ++ pieceName0)
                          (fpJoin [piecesDir, pieceName0])).1 = tmv := Except.ok.inj htmv
                      rw [hns] at h
                      rcases mem_calls_bind h with h | ⟨tcv, htcv, h⟩
                      · rcases mem_calls_bind h with h2 | ⟨u3, hu3, h2⟩
                        · exact Call.noConfusion (List.mem_singleton.mp h2)
                        · exact absurd h2 (List.not_mem_nil _)
                      · obtain rfl : false = tcv := Except.ok.inj htcv
                        rcases mem_calls_bind h with h | ⟨hrv, hhrv, h⟩
                        · have h' : Call.run "tmux"
                              ["kill-session", "-t", "mp-piece-" ++ pieceName0] ∈
                              (RunHook env repoRoot HookOnPieceCreate
                                { pieceName := pieceName0,
                                  worktreePath := fpJoin [piecesDir, pieceName0],
                                  repoRoot := repoRoot,
                                  sessionName := "mp-piece-" ++ pieceName0 }).2 := h
                          rcases runHook_calls env repoRoot HookOnPieceCreate _ _ h' with
                            ⟨t, s, heq⟩ | ⟨d, ev, n, a, heq⟩ <;> exact Call.noConfusion heq
                        · have h9 := Except.ok.inj hhrv
                          rw [hhook] at h9
                          subst h9
                          rcases mem_calls_bind h with h | ⟨u4, hu4, h⟩
                          · rcases cleanupPiece_false_calls env repoRoot
                                (fpJoin [piecesDir, pieceName0]) ("mp-piece-" ++ pieceName0) _ h with
                              heq | ⟨m, heq⟩ <;> exact Call.noConfusion heq
                          · exact absurd h (List.not_mem_nil _)

/-- Oracle for a piece creation whose `on-piece-create` hook exists, is
executable, and exits non-zero; everything else succeeds. -/
def envC4 : GoEnv :=
  { baseEnv with
    getwd := Except.ok "/repo"
    getenv := fun k => if k = "XDG_DATA_HOME" then "/data" else ""
    exec := fun _ _ => { output := "", err := none }
    execDir := fun _ _ args =>
      if args = ["rev-parse", "--show-toplevel"] then { output := "/repo\n", err := none }
      else { output := "", err := none }
    execEnv := fun _ _ _ _ => { output := "", err := some "exit status 1" }
    stat := fun p =>
      if p = "/repo/.monkeypuzzle/hooks/on-piece-create.sh" then StatRes.found 0o755 false
      else StatRes.notExist }

theorem CreatePiece_hook_failure_cleanup_witness :
    (CreatePiece envC4 "/src" "p9").1 =
      Except.error ("on-piece-create hook failed: " ++
        "hook on-piece-create.sh failed: exit status 1") ∧
    Call.runDir "/repo" "git" ["worktree", "remove", fpJoin ["/data/monkeypuzzle/pieces", "p9"]]
      ∈ (CreatePiece envC4 "/src" "p9").2 ∧
    ((Tmux.NewSession envC4 ("mp-piece-" ++ "p9") (fpJoin ["/data/monkeypuzzle/pieces", "p9"])).1 =
        Except.ok () →
      List.Sublist
        [Call.run "tmux" ["kill-session", "-t", "mp-piece-" ++ "p9"],
         Call.runDir "/repo" "git" ["worktree", "remove", fpJoin ["/data/monkeypuzzle/pieces", "p9"]]]
        (CreatePiece envC4 "/src" "p9").2) ∧
    (∀ e2, (Tmux.NewSession envC4 ("mp-piece-" ++ "p9")
        (fpJoin ["/data/monkeypuzzle/pieces", "p9"])).1 = Except.error e2 →
      Call.run "tmux" ["kill-session", "-t", "mp-piece-" ++ "p9"]
        ∉ (CreatePiece envC4 "/src" "p9").2) :=
  CreatePiece_hook_failure_cleanup envC4 "/src" "p9" "/repo" "/repo" "/data/monkeypuzzle/pieces"
    "hook on-piece-create.sh failed: exit status 1"
    (by rfl) (by rfl) (by rfl) (by decide) (by rfl) (by rfl) (by rfl) (by rfl)

/-- C5: when the resolved issue path falls outside the configured
issues directory (the relative-path containment check errors or yields
a `..`-leading path), `CreatePieceFromIssue` rejects with the
containment error, and its whole trace is just the repo-root probe: no
worktree, tmux session, filesystem write or issue-status update has
happened. -/
theorem CreatePieceFromIssue_containment (env : GoEnv) (cc : CharClass)
    (src issuePath : String) (wd repoRoot : String) (cfg : Config)
    (issuesDir absIssuePath : String)
    (hwd : env.getwd = Except.ok wd)
    (hrr : (Git.RepoRoot env wd).1 = Except.ok repoRoot)
    (hcfg : ReadConfig env repoRoot = Except.ok cfg)
    (hprov : cfg.issuesProvider = "markdown")
    (hdir : cfg.issuesConfig.lookup "directory" = some issuesDir)
    (hde : issuesDir ≠ "")
    (hres : ResolveIssuePath env repoRoot issuePath = Except.ok absIssuePath)
    (hfail :
      (∃ er, fpRel (fpClean (fpJoin [repoRoot, issuesDir])) absIssuePath = Except.error er) ∨
      (∃ rp, fpRel (fpClean (fpJoin [repoRoot, issuesDir])) absIssuePath = Except.ok rp ∧
        goStartsWith rp ".." = true)) :
    (CreatePieceFromIssue env cc src issuePath).1 = Except.error
      ("issue file must be within the issues directory " ++ goQuote issuesDir ++
        ", got: " ++ issuePath) ∧
    ∀ c ∈ (CreatePieceFromIssue env cc src issuePath).2,
      c = Call.runDir wd "git" ["rev-parse", "--show-toplevel"] := by
  have hv0 : (wrapErr "failed to get working directory: " (liftExcept env.getwd)).1 =
      Except.ok wd := wrapErr_val_ok _ hwd
  have hv1 : (wrapErr "not in a git repository: " (Git.RepoRoot env wd)).1 =
      Except.ok repoRoot := wrapErr_val_ok _ hrr
  have hv2 : (wrapErr "failed to read monkeypuzzle config: "
      (liftExcept (ReadConfig env repoRoot))).1 = Except.ok cfg := wrapErr_val_ok _ hcfg
  have hde' : (issuesDir == "") = false := beq_eq_false_iff_ne.mpr hde
  constructor
  · unfold CreatePieceFromIssue
    refine M.fst_bind_eq hv0 ?_
    refine M.fst_bind_eq hv1 ?_
    refine M.fst_bind_eq hv2 ?_
    rw [hprov, if_neg (by decide : ¬((("markdown" : String) != "markdown") = true)), hdir]
    dsimp only
    rw [hde', if_neg (by decide : ¬(false = true))]
    refine M.fst_bind_eq (a := absIssuePath) hres ?_
    rcases hfail with ⟨er, her⟩ | ⟨rp, hok, hsw⟩
    · rw [her]
      rfl
    · rw [hok]
      dsimp only
      rw [hsw, if_pos rfl]
      rfl
  · intro c hc
    unfold CreatePieceFromIssue at hc
    rcases mem_calls_bind hc with h | ⟨wd', hwd', h⟩
    · rw [wrapErr_calls] at h
      exact absurd h (List.not_mem_nil _)
    · obtain rfl : wd = wd' := Except.ok.inj (hv0.symm.trans hwd')
      rcases mem_calls_bind h with h | ⟨rr', hrr', h⟩
      · rw [wrapErr_calls, repoRoot_calls] at h
        exact List.mem_singleton.mp h
      · obtain rfl : repoRoot = rr' := Except.ok.inj (hv1.symm.trans hrr')
        rcases mem_calls_bind h with h | ⟨cfg', hcfg', h⟩
        · rw [wrapErr_calls] at h
          exact absurd h (List.not_mem_nil _)
        · obtain rfl : cfg = cfg' := Except.ok.inj (hv2.symm.trans hcfg')
          rw [hprov, if_neg (by decide : ¬((("markdown" : String) != "markdown") = true)),
            hdir] at h
          dsimp only at h
          rw [hde', if_neg (by decide : ¬(false = true))] at h
          rcases mem_calls_bind h with h | ⟨ap', hap', h⟩
          · exact absurd h (List.not_mem_nil _)
          · obtain rfl : absIssuePath = ap' := Except.ok.inj (hres.symm.trans hap')
            rcases hfail with ⟨er, her⟩ | ⟨rp, hok, hsw⟩
            · rw [her] at h
              exact absurd h (List.not_mem_nil _)
            · rw [hok] at h
              dsimp only at h
              rw [hsw, if_pos rfl] at h
              exact absurd h (List.not_mem_nil _)

/-- Oracle where the issue path resolves to a file outside the
configured issues directory (`/evil.md` vs `/repo/issues`). -/
def envC5 : GoEnv :=
  { baseEnv with
    getwd := Except.ok "/repo"
    execDir := fun _ _ args =>
      if args = ["rev-parse", "--show-toplevel"] then { output := "/repo\n", err := none }
      else { output := "", err := some "unexpected command" }
    readFile := fun p =>
      if p = "/repo/.monkeypuzzle/monkeypuzzle.json" then Except.ok "cfg-json"
      else Except.error FsErr.notExist
    parseConfig := fun s =>
      if s = "cfg-json" then
        Except.ok { issuesProvider := "markdown", issuesConfig := [("directory", "issues")] }
      else Except.error "invalid config"
    stat := fun p => if p = "/evil.md" then StatRes.found 0o644 false else StatRes.notExist }

theorem CreatePieceFromIssue_containment_witness :
    (CreatePieceFromIssue envC5 ccId "/src" "../evil.md").1 = Except.error
      ("issue file must be within the issues directory " ++ goQuote "issues" ++
        ", got: " ++ "../evil.md") ∧
    ∀ c ∈ (CreatePieceFromIssue envC5 ccId "/src" "../evil.md").2,
      c = Call.runDir "/repo" "git" ["rev-parse", "--show-toplevel"] :=
  CreatePieceFromIssue_containment envC5 ccId "/src" "../evil.md" "/repo" "/repo"
    { issuesProvider := "markdown", issuesConfig := [("directory", "issues")] }
    "issues" "/evil.md"
    (by rfl) (by rfl) (by rfl) (by rfl) (by rfl) (by decide) (by rfl)
    (Or.inr ⟨"../../evil.md", by rfl, by rfl⟩)

/-! ### Merge-detection error policy -/

theorem M.fst_bind_err {α β : Type} {x : M α} {f : α → M β} {e : String}
    (hx : x.1 = Except.error e) : (x >>= f).1 = Except.error e := by
  rw [M.bind_err hx]

theorem wrapErr_val_err {α : Type} {x : M α} {e : String} (msg : String)
    (h : x.1 = Except.error e) : (wrapErr msg x).1 = Except.error (msg ++ e) := by
  rw [wrapErr_err msg h]

theorem commitFallback_ok (env : GoEnv) (rr bn mb : String) (eor : Bool) (m : Bool)
    (hcf : (checkCommitMerged env rr bn mb).1 = Except.ok m) :
    (commitFallback env rr bn mb eor).1 = Except.ok
      (if m then { isMerged := true, method := "commit", existsOnRemote := eor }
       else { isMerged := false, existsOnRemote := eor }) := by
  unfold commitFallback
  refine M.fst_bind_eq (wrapErr_val_ok _ hcf) ?_
  rcases m <;> rfl

theorem commitFallback_err (env : GoEnv) (rr bn mb : String) (eor : Bool) (ec : String)
    (hcf : (checkCommitMerged env rr bn mb).1 = Except.error ec) :
    (commitFallback env rr bn mb eor).1 =
      Except.error ("failed to check commit history: " ++ ec) := by
  unfold commitFallback
  exact M.fst_bind_err (wrapErr_val_err _ hcf)

/-- C3 (amended): with the PR-metadata strategy erroring, the error is
silently skipped (no abort); an error of the `git branch --merged`
strategy is logged as a warning and detection falls through to the
commit-ancestry fallback; but an error of that final fallback strategy
is returned as a non-nil error from `IsBranchMerged` (wrapped as
`failed to check commit history:`), not reported as a warning. -/
theorem IsBranchMerged_error_policy (env : GoEnv) (repoRoot branchName mainBranch : String)
    (er : Bool)
    (her : (Git.BranchExistsOnRemote env repoRoot branchName).1 = Except.ok er)
    (hpr : ∃ ep, (checkPRMergeStatus env repoRoot).1 = Except.error ep) :
    ((Git.IsBranchMerged env repoRoot mainBranch branchName).1 = Except.ok true →
      (IsBranchMerged env repoRoot branchName mainBranch).1 =
        Except.ok { isMerged := true, method := "git", existsOnRemote := er }) ∧
    (∀ eg m, (Git.IsBranchMerged env repoRoot mainBranch branchName).1 = Except.error eg →
      (checkCommitMerged env repoRoot branchName mainBranch).1 = Except.ok m →
      (IsBranchMerged env repoRoot branchName mainBranch).1 = Except.ok
        (if m then { isMerged := true, method := "commit", existsOnRemote := er }
         else { isMerged := false, existsOnRemote := er }) ∧
      Call.msg MsgType.warning ("git branch --merged check failed: " ++ eg)
        ∈ (IsBranchMerged env repoRoot branchName mainBranch).2) ∧
    (∀ ec, (Git.IsBranchMerged env repoRoot mainBranch branchName).1 = Except.ok false →
      (checkCommitMerged env repoRoot branchName mainBranch).1 = Except.error ec →
      (IsBranchMerged env repoRoot branchName mainBranch).1 =
        Except.error ("failed to check commit history: " ++ ec)) := by
  obtain ⟨ep, hpr⟩ := hpr
  refine ⟨?_, ?_, ?_⟩
  · intro hgm
    unfold IsBranchMerged
    refine M.fst_bind_eq (a := (Git.BranchExistsOnRemote env repoRoot branchName).1) rfl ?_
    rw [her]
    refine M.fst_bind_eq (a := er) rfl ?_
    refine M.fst_bind_eq (a := (checkPRMergeStatus env repoRoot).1) rfl ?_
    rw [hpr]
    refine M.fst_bind_eq (a := (Git.IsBranchMerged env repoRoot mainBranch branchName).1) rfl ?_
    rw [hgm]
    rfl
  · intro eg m hgm hcf
    constructor
    · unfold IsBranchMerged
      refine M.fst_bind_eq (a := (Git.BranchExistsOnRemote env repoRoot branchName).1) rfl ?_
      rw [her]
      refine M.fst_bind_eq (a := er) rfl ?_
      refine M.fst_bind_eq (a := (checkPRMergeStatus env repoRoot).1) rfl ?_
      rw [hpr]
      refine M.fst_bind_eq (a := (Git.IsBranchMerged env repoRoot mainBranch branchName).1) rfl ?_
      rw [hgm]
      refine M.fst_bind_eq (a := ()) rfl ?_
      exact commitFallback_ok env repoRoot branchName mainBranch er m hcf
    · unfold IsBranchMerged
      refine M.mem_bind_right (a := (Git.BranchExistsOnRemote env repoRoot branchName).1) rfl ?_
      rw [her]
      refine M.mem_bind_right (a := er) rfl ?_
      refine M.mem_bind_right (a := (checkPRMergeStatus env repoRoot).1) rfl ?_
      rw [hpr]
      refine M.mem_bind_right (a := (Git.IsBranchMerged env repoRoot mainBranch branchName).1)
        rfl ?_
      rw [hgm]
      refine M.mem_bind_left ?_
      exact List.mem_singleton.mpr rfl
  · intro ec hgm hcf
    unfold IsBranchMerged
    refine M.fst_bind_eq (a := (Git.BranchExistsOnRemote env repoRoot branchName).1) rfl ?_
    rw [her]
    refine M.fst_bind_eq (a := er) rfl ?_
    refine M.fst_bind_eq (a := (checkPRMergeStatus env repoRoot).1) rfl ?_
    rw [hpr]
    refine M.fst_bind_eq (a := (Git.IsBranchMerged env repoRoot mainBranch branchName).1) rfl ?_
    rw [hgm]
    exact commitFallback_err env repoRoot branchName mainBranch er ec hcf

/-- Oracle where PR metadata is missing, the branch is not in
`git branch --merged` output, and the ancestry probe fails with a
non-exit-status-1 error. -/
def envC3 : GoEnv :=
  { baseEnv with
    execDir := fun _ _ args =>
      if args = ["ls-remote", "--heads", "origin", "piece-x"] then { output := "", err := none }
      else if args = ["branch", "--merged", "main"] then { output := "other\n", err := none }
      else if args = ["rev-parse", "piece-x"] then { output := "abc\n", err := none }
      else if args = ["merge-base", "--is-ancestor", "abc", "main"] then
        { output := "", err := some "fatal: bad revision" }
      else { output := "", err := some "unexpected command" } }

/-- An error inside the final commit-ancestry strategy is returned from
`IsBranchMerged` as a non-nil error — not logged as a warning with a
fallthrough — refuting the original claim. -/
theorem IsBranchMerged_strategy_error_counterexample :
    (Git.IsCommitInBranch envC3 "/repo" "abc" "main").1 =
      Except.error ("failed to check commit ancestry: " ++ "fatal: bad revision") ∧
    (IsBranchMerged envC3 "/repo" "piece-x" "main").1 =
      Except.error ("failed to check commit history: " ++
        ("failed to check commit ancestry: " ++ "fatal: bad revision")) := by
  constructor
  · rfl
  · rfl

theorem IsBranchMerged_error_policy_witness :
    ((Git.IsBranchMerged envC3 "/repo" "main" "piece-x").1 = Except.ok true →
      (IsBranchMerged envC3 "/repo" "piece-x" "main").1 =
        Except.ok { isMerged := true, method := "git", existsOnRemote := false }) ∧
    (∀ eg m, (Git.IsBranchMerged envC3 "/repo" "main" "piece-x").1 = Except.error eg →
      (checkCommitMerged envC3 "/repo" "piece-x" "main").1 = Except.ok m →
      (IsBranchMerged envC3 "/repo" "piece-x" "main").1 = Except.ok
        (if m then { isMerged := true, method := "commit", existsOnRemote := false }
         else { isMerged := false, existsOnRemote := false }) ∧
      Call.msg MsgType.warning ("git branch --merged check failed: " ++ eg)
        ∈ (IsBranchMerged envC3 "/repo" "piece-x" "main").2) ∧
    (∀ ec, (Git.IsBranchMerged envC3 "/repo" "main" "piece-x").1 = Except.ok false →
      (checkCommitMerged envC3 "/repo" "piece-x" "main").1 = Except.error ec →
      (IsBranchMerged envC3 "/repo" "piece-x" "main").1 =
        Except.error ("failed to check commit history: " ++ ec)) :=
  IsBranchMerged_error_policy envC3 "/repo" "piece-x" "main" false (by rfl)
    ⟨"no PR metadata found: failed to read PR metadata: file does not exist", by rfl⟩

/-! ### Dry-run cleanup performs no mutation -/

/-- A state-changing call: `git worktree`/`checkout`/`merge`/`commit`,
any tmux command, any filesystem write, or a hook execution. Everything
else (git/gh queries and messages) only reads state. -/
def mutCall (c : Call) : Bool :=
  match c with
  | Call.runDir _ name (sub :: _) =>
    name == "git" &&
      (sub == "worktree" || sub == "checkout" || sub == "merge" || sub == "commit")
  | Call.run name _ => name == "tmux"
  | Call.fsWrite _ _ => true
  | Call.fsMkdir _ => true
  | Call.fsSymlink _ _ => true
  | Call.runEnv _ _ _ _ => true
  | _ => false

theorem checkPRMergeStatus_benign (env : GoEnv) (wt : String) :
    ∀ c ∈ (checkPRMergeStatus env wt).2, mutCall c = false := by
  intro c hc
  unfold checkPRMergeStatus at hc
  rcases hrm : ReadPRMetadata env wt with e | md <;> rw [hrm] at hc
  · exact absurd hc (List.not_mem_nil _)
  · dsimp only at hc
    by_cases hz : (md.prNumber == 0) = true
    · rw [if_pos hz] at hc
      exact absurd hc (List.not_mem_nil _)
    · rw [if_neg hz] at hc
      rcases mem_calls_bind hc with h | ⟨b, hb, h⟩
      · rw [wrapErr_calls, isPRMerged_calls] at h
        rcases List.mem_singleton.mp h with rfl
        rfl
      · exact absurd h (List.not_mem_nil _)

theorem checkCommitMerged_benign (env : GoEnv) (rr bn mb : String) :
    ∀ c ∈ (checkCommitMerged env rr bn mb).2, mutCall c = false := by
  intro c hc
  unfold checkCommitMerged at hc
  rcases mem_calls_bind hc with h | ⟨bc, hbc, h⟩
  · rw [wrapErr_calls, getBranchCommit_calls] at h
    rcases List.mem_singleton.mp h with rfl
    rfl
  · rw [isCommitInBranch_calls] at h
    rcases List.mem_singleton.mp h with rfl
    rfl

theorem commitFallback_benign (env : GoEnv) (rr bn mb : String) (eor : Bool) :
    ∀ c ∈ (commitFallback env rr bn mb eor).2, mutCall c = false := by
  intro c hc
  unfold commitFallback at hc
  rcases mem_calls_bind hc with h | ⟨m, hm, h⟩
  · rw [wrapErr_calls] at h
    exact checkCommitMerged_benign env rr bn mb c h
  · by_cases hmm : m = true
    · subst hmm
      rw [if_pos rfl] at h
      exact absurd h (List.not_mem_nil _)
    · rw [if_neg ?_] at h
      · exact absurd h (List.not_mem_nil _)
      · simpa using hmm

theorem isBranchMerged_benign (env : GoEnv) (rr bn mb : String) :
    ∀ c ∈ (IsBranchMerged env rr bn mb).2, mutCall c = false := by
  intro c hc
  unfold IsBranchMerged at hc
  rcases mem_calls_bind hc with h | ⟨erv, herv, h⟩
  · have h' : c ∈ (Git.BranchExistsOnRemote env rr bn).2 := h
    rw [branchExistsOnRemote_calls] at h'
    rcases List.mem_singleton.mp h' with rfl
    rfl
  · rcases mem_calls_bind h with h | ⟨eor, heor, h⟩
    · rcases erv with e | b
      · rcases mem_calls_bind h with h2 | ⟨u, hu, h2⟩
        · rcases List.mem_singleton.mp h2 with rfl
          rfl
        · exact absurd h2 (List.not_mem_nil _)
      · exact absurd h (List.not_mem_nil _)
    · rcases mem_calls_bind h with h | ⟨prv, hprv, h⟩
      · have h' : c ∈ (checkPRMergeStatus env rr).2 := h
        exact checkPRMergeStatus_benign env rr c h'
      · rcases prv with e | ⟨mg, n⟩
        · rcases mem_calls_bind h with h2 | ⟨gmv, hgmv, h2⟩
          · have h' : c ∈ (Git.IsBranchMerged env rr mb bn).2 := h2
            rw [gitIsBranchMerged_calls] at h'
            rcases List.mem_singleton.mp h' with rfl
            rfl
          · rcases gmv with e2 | b2
            · rcases mem_calls_bind h2 with h3 | ⟨u2, hu2, h3⟩
              · rcases List.mem_singleton.mp h3 with rfl
                rfl
              · exact commitFallback_benign env rr bn mb eor c h3
            · rcases b2
              · exact commitFallback_benign env rr bn mb eor c h2
              · exact absurd h2 (List.not_mem_nil _)
        · rcases mg
          · rcases mem_calls_bind h with h2 | ⟨gmv, hgmv, h2⟩
            · have h' : c ∈ (Git.IsBranchMerged env rr mb bn).2 := h2
              rw [gitIsBranchMerged_calls] at h'
              rcases List.mem_singleton.mp h' with rfl
              rfl
            · rcases gmv with e2 | b2
              · rcases mem_calls_bind h2 with h3 | ⟨u2, hu2, h3⟩
                · rcases List.mem_singleton.mp h3 with rfl
                  rfl
                · exact commitFallback_benign env rr bn mb eor c h3
              · rcases b2
                · exact commitFallback_benign env rr bn mb eor c h2
                · exact absurd h2 (List.not_mem_nil _)
          · exact absurd h (List.not_mem_nil _)

theorem readCurrentIssueMarker_calls (env : GoEnv) (wt : String) :
    (readCurrentIssueMarker env wt).2 = [] := by
  unfold readCurrentIssueMarker
  rcases env.readFile (fpJoin [wt, DirName, "current-issue.json"]) with fe | data
  · rfl
  · dsimp only
    rcases env.parseMarker data with e | m <;> rfl

/-- The per-entry loop under `dryRun`: it cannot fail, keeps every
accumulated candidate, reports every merged directory entry, and its
trace holds no state-changing call. -/
theorem cleanupLoop_dry (env : GoEnv) (repoRoot : String) (opts : CleanupOptions)
    (piecesDir : String) (hdry : opts.dryRun = true) :
    ∀ (entries : List DirEntry) (acc : List CleanupResult),
      (∃ res, (cleanupLoop env repoRoot opts piecesDir entries acc).1 = Except.ok res ∧
        (∀ r ∈ acc, r ∈ res) ∧
        (∀ entry ∈ entries, entry.isDir = true →
          ∀ bn, (Git.CurrentBranch env (fpJoin [piecesDir, entry.name])).1 = Except.ok bn →
          ∀ ms, (IsBranchMerged env (fpJoin [piecesDir, entry.name]) bn opts.mainBranch).1 =
            Except.ok ms → ms.isMerged = true →
          ∃ r ∈ res, r.pieceName = entry.name ∧
            r.worktreePath = fpJoin [piecesDir, entry.name])) ∧
      (∀ c ∈ (cleanupLoop env repoRoot opts piecesDir entries acc).2, mutCall c = false) := by
  intro entries
  induction entries with
  | nil =>
    intro acc
    constructor
    · exact ⟨acc, rfl, fun r h => h, fun e he => absurd he (List.not_mem_nil _)⟩
    · intro c hc
      exact absurd hc (List.not_mem_nil _)
  | cons entry rest ih =>
    intro acc
    by_cases hd : entry.isDir = true
    · constructor
      · -- the returned list
        rcases hbr : (Git.CurrentBranch env (fpJoin [piecesDir, entry.name])).1 with e | bn
        · obtain ⟨res, hval, hacc, hpos⟩ := (ih acc).1
          refine ⟨res, ?_, hacc, ?_⟩
          · unfold cleanupLoop
            dsimp only
            rw [hd, if_neg (by decide : ¬((!true) = true))]
            refine M.fst_bind_eq
              (a := (Git.CurrentBranch env (fpJoin [piecesDir, entry.name])).1) rfl ?_
            rw [hbr]
            refine M.fst_bind_eq (a := ()) rfl ?_
            exact hval
          · intro e' he' hdir bn' hbr' ms' hms' hmg'
            rcases List.mem_cons.mp he' with rfl | he2
            · rw [hbr] at hbr'
              exact Except.noConfusion hbr'
            · exact hpos e' he2 hdir bn' hbr' ms' hms' hmg'
        · rcases hms : (IsBranchMerged env (fpJoin [piecesDir, entry.name]) bn
              opts.mainBranch).1 with e2 | ms
          · obtain ⟨res, hval, hacc, hpos⟩ := (ih acc).1
            refine ⟨res, ?_, hacc, ?_⟩
            · unfold cleanupLoop
              dsimp only
              rw [hd, if_neg (by decide : ¬((!true) = true))]
              refine M.fst_bind_eq
                (a := (Git.CurrentBranch env (fpJoin [piecesDir, entry.name])).1) rfl ?_
              rw [hbr]
              refine M.fst_bind_eq
                (a := (IsBranchMerged env (fpJoin [piecesDir, entry.name]) bn
                  opts.mainBranch).1) rfl ?_
              rw [hms]
              refine M.fst_bind_eq (a := ()) rfl ?_
              exact hval
            · intro e' he' hdir bn' hbr' ms' hms' hmg'
              rcases List.mem_cons.mp he' with rfl | he2
              · obtain rfl : bn = bn' := Except.ok.inj (hbr.symm.trans hbr')
                rw [hms] at hms'
                exact Except.noConfusion hms'
              · exact hpos e' he2 hdir bn' hbr' ms' hms' hmg'
          · by_cases hmg : ms.isMerged = true
            · obtain ⟨res, hval, hacc, hpos⟩ :=
                (ih (acc ++ [CleanupResult.mk entry.name (fpJoin [piecesDir, entry.name])
                  (match (readCurrentIssueMarker env (fpJoin [piecesDir, entry.name])).1 with
                    | Except.ok marker => marker.issuePath
                    | Except.error _ => "") false])).1
              refine ⟨res, ?_, ?_, ?_⟩
              · unfold cleanupLoop
                dsimp only
                rw [hd, if_neg (by decide : ¬((!true) = true))]
                refine M.fst_bind_eq
                  (a := (Git.CurrentBranch env (fpJoin [piecesDir, entry.name])).1) rfl ?_
                rw [hbr]
                refine M.fst_bind_eq
                  (a := (IsBranchMerged env (fpJoin [piecesDir, entry.name]) bn
                    opts.mainBranch).1) rfl ?_
                rw [hms]
                dsimp only
                rw [hmg, if_neg (by decide : ¬((!true) = true))]
                refine M.fst_bind_eq
                  (a := (readCurrentIssueMarker env (fpJoin [piecesDir, entry.name])).1) rfl ?_
                rw [hdry, if_pos (rfl : (true : Bool) = true)]
                refine M.fst_bind_eq (a := ()) rfl ?_
                exact hval
              · intro r hr
                exact hacc r (List.mem_append_left _ hr)
              · intro e' he' hdir bn' hbr' ms' hms' hmg'
                rcases List.mem_cons.mp he' with rfl | he2
                · exact ⟨_, hacc _ (List.mem_append_right _ (List.mem_singleton.mpr rfl)),
                    rfl, rfl⟩
                · exact hpos e' he2 hdir bn' hbr' ms' hms' hmg'
            · obtain ⟨res, hval, hacc, hpos⟩ := (ih acc).1
              have hmg2 : ms.isMerged = false := by simpa using hmg
              refine ⟨res, ?_, hacc, ?_⟩
              · unfold cleanupLoop
                dsimp only
                rw [hd, if_neg (by decide : ¬((!true) = true))]
                refine M.fst_bind_eq
                  (a := (Git.CurrentBranch env (fpJoin [piecesDir, entry.name])).1) rfl ?_
                rw [hbr]
                refine M.fst_bind_eq
                  (a := (IsBranchMerged env (fpJoin [piecesDir, entry.name]) bn
                    opts.mainBranch).1) rfl ?_
                rw [hms]
                dsimp only
                rw [hmg2, if_pos (by decide : ((!false) = true))]
                exact hval
              · intro e' he' hdir bn' hbr' ms' hms' hmg'
                rcases List.mem_cons.mp he' with rfl | he2
                · obtain rfl : bn = bn' := Except.ok.inj (hbr.symm.trans hbr')
                  obtain rfl : ms = ms' := Except.ok.inj (hms.symm.trans hms')
                  rw [hmg2] at hmg'
                  exact Bool.noConfusion hmg'
                · exact hpos e' he2 hdir bn' hbr' ms' hms' hmg'
      · -- the trace
        intro c hc
        unfold cleanupLoop at hc
        dsimp only at hc
        rw [hd, if_neg (by decide : ¬((!true) = true))] at hc
        rcases mem_calls_bind hc with h | ⟨brv, hbrv, h⟩
        · have h' : c ∈ (Git.CurrentBranch env (fpJoin [piecesDir, entry.name])).2 := h
          rw [currentBranch_calls] at h'
          rcases List.mem_singleton.mp h' with rfl
          rfl
        · rcases brv with e | bn
          · rcases mem_calls_bind h with h2 | ⟨u, hu, h2⟩
            · rcases List.mem_singleton.mp h2 with rfl
              rfl
            · exact (ih acc).2 c h2
          · rcases mem_calls_bind h with h2 | ⟨msv, hmsv, h2⟩
            · exact isBranchMerged_benign env (fpJoin [piecesDir, entry.name]) bn
                opts.mainBranch c h2
            · rcases msv with e2 | ms
              · rcases mem_calls_bind h2 with h3 | ⟨u2, hu2, h3⟩
                · rcases List.mem_singleton.mp h3 with rfl
                  rfl
                · exact (ih acc).2 c h3
              · dsimp only at h2
                by_cases hmg : ms.isMerged = true
                · rw [hmg, if_neg (by decide : ¬((!true) = true))] at h2
                  rcases mem_calls_bind h2 with h3 | ⟨mkv, hmkv, h3⟩
                  · have h' : c ∈ (readCurrentIssueMarker env
                        (fpJoin [piecesDir, entry.name])).2 := h3
                    rw [readCurrentIssueMarker_calls] at h'
                    exact absurd h' (List.not_mem_nil _)
                  · rw [hdry, if_pos (rfl : (true : Bool) = true)] at h3
                    rcases mem_calls_bind h3 with h4 | ⟨u3, hu3, h4⟩
                    · rcases List.mem_singleton.mp h4 with rfl
                      rfl
                    · exact (ih _).2 c h4
                · have hmg2 : ms.isMerged = false := by simpa using hmg
                  rw [hmg2, if_pos (by decide : ((!false) = true))] at h2
                  exact (ih acc).2 c h2
    · -- not a directory: skipped
      have hd2 : entry.isDir = false := by simpa using hd
      constructor
      · obtain ⟨res, hval, hacc, hpos⟩ := (ih acc).1
        refine ⟨res, ?_, hacc, ?_⟩
        · unfold cleanupLoop
          dsimp only
          rw [hd2, if_pos (by decide : ((!false) = true))]
          exact hval
        · intro e' he' hdir bn' hbr' ms' hms' hmg'
          rcases List.mem_cons.mp he' with rfl | he2
          · rw [hd2] at hdir
            exact Bool.noConfusion hdir
          · exact hpos e' he2 hdir bn' hbr' ms' hms' hmg'
      · intro c hc
        unfold cleanupLoop at hc
        dsimp only at hc
        rw [hd2, if_pos (by decide : ((!false) = true))] at hc
        exact (ih acc).2 c hc

/-- C7: with `dryRun` set, `CleanupMergedPieces` reports every merged
piece directory as a cleanup candidate, and performs no mutation at
all: no `git worktree`/`checkout`/`merge`/`commit`, no tmux command, no
filesystem write and no hook execution appears in its trace. -/
theorem CleanupMergedPieces_dryRun (env : GoEnv) (repoRoot : String) (opts : CleanupOptions)
    (piecesDir : String) (entries : List DirEntry)
    (hdry : opts.dryRun = true)
    (hpd : getPiecesDir env = Except.ok piecesDir)
    (hrd : env.readDir piecesDir = Except.ok entries) :
    (∃ res, (CleanupMergedPieces env repoRoot opts).1 = Except.ok res ∧
      ∀ entry ∈ entries, entry.isDir = true →
        ∀ bn, (Git.CurrentBranch env (fpJoin [piecesDir, entry.name])).1 = Except.ok bn →
        ∀ ms, (IsBranchMerged env (fpJoin [piecesDir, entry.name]) bn opts.mainBranch).1 =
          Except.ok ms → ms.isMerged = true →
        ∃ r ∈ res, r.pieceName = entry.name ∧
          r.worktreePath = fpJoin [piecesDir, entry.name]) ∧
    (∀ c ∈ (CleanupMergedPieces env repoRoot opts).2, mutCall c = false) := by
  have hv : (wrapErr "failed to get pieces directory: " (liftExcept (getPiecesDir env))).1 =
      Except.ok piecesDir := wrapErr_val_ok _ hpd
  obtain ⟨⟨res, hval, hacc, hpos⟩, htr⟩ := cleanupLoop_dry env repoRoot opts piecesDir hdry
    entries []
  constructor
  · refine ⟨res, ?_, ?_⟩
    · unfold CleanupMergedPieces
      refine M.fst_bind_eq hv ?_
      rw [hrd]
      exact hval
    · exact hpos
  · intro c hc
    unfold CleanupMergedPieces at hc
    rcases mem_calls_bind hc with h | ⟨pd', hpd', h⟩
    · rw [wrapErr_calls] at h
      exact absurd h (List.not_mem_nil _)
    · obtain rfl : piecesDir = pd' := Except.ok.inj (hv.symm.trans hpd')
      rw [hrd] at h
      exact htr c h

/-- Oracle with one merged piece (detected via `git branch --merged`)
under the pieces directory. -/
def envC7 : GoEnv :=
  { baseEnv with
    getenv := fun k => if k = "XDG_DATA_HOME" then "/data" else ""
    readDir := fun p =>
      if p = "/data/monkeypuzzle/pieces" then Except.ok [{ name := "p1", isDir := true }]
      else Except.error FsErr.notExist
    execDir := fun _ _ args =>
      if args = ["rev-parse", "--abbrev-ref", "HEAD"] then { output := "piece-p1\n", err := none }
      else if args = ["ls-remote", "--heads", "origin", "piece-p1"] then
        { output := "", err := none }
      else if args = ["branch", "--merged", "main"] then { output := "piece-p1\n", err := none }
      else { output := "", err := some "unexpected command" } }

theorem CleanupMergedPieces_dryRun_witness :
    (∃ res, (CleanupMergedPieces envC7 "/repo" { dryRun := true, mainBranch := "main" }).1 =
      Except.ok res ∧
      ∀ entry ∈ [({ name := "p1", isDir := true } : DirEntry)], entry.isDir = true →
        ∀ bn, (Git.CurrentBranch envC7
          (fpJoin ["/data/monkeypuzzle/pieces", entry.name])).1 = Except.ok bn →
        ∀ ms, (IsBranchMerged envC7 (fpJoin ["/data/monkeypuzzle/pieces", entry.name]) bn
          ({ dryRun := true, mainBranch := "main" } : CleanupOptions).mainBranch).1 =
          Except.ok ms → ms.isMerged = true →
        ∃ r ∈ res, r.pieceName = entry.name ∧
          r.worktreePath = fpJoin ["/data/monkeypuzzle/pieces", entry.name]) ∧
    (∀ c ∈ (CleanupMergedPieces envC7 "/repo" { dryRun := true, mainBranch := "main" }).2,
      mutCall c = false) :=
  CleanupMergedPieces_dryRun envC7 "/repo" { dryRun := true, mainBranch := "main" }
    "/data/monkeypuzzle/pieces" [{ name := "p1", isDir := true }]
    (by rfl) (by rfl) (by rfl)

/-! ### Four-strategy merge detection (design: squash-merge detection)

The four-strategy `IsBranchMerged` — with the PR-by-branch forge query
as second strategy — is exercised by handler_test.go
(`TestHandler_IsBranchMerged_ViaPRBranch`) and specified in
issues/015-squash-merge-detection.md, but its implementation file is
not among the sources; the two definitions below are therefore
modelled from the spec. -/

/-- Modelled from the spec: query the forge for any merged PR whose
head is this branch (`gh pr list --head <branch> --state merged --json
number --limit 1`); a non-empty decoded list is a positive result
carrying the first PR number. -/
def checkPRByBranchName (env : GoEnv) (repoRoot branchName : String) : M (Bool × Nat) := do
  let r ← runWithDir env repoRoot "gh"
    ["pr", "list", "--head", branchName, "--state", "merged", "--json", "number", "--limit", "1"]
  match r.err with
  | some e => M.fail ("failed to list merged PRs: " ++ e)
  | none =>
    match env.parsePRList r.output with
    | Except.error e => M.fail ("failed to parse PR list: " ++ e)
    | Except.ok [] => pure (false, 0)
    | Except.ok (n :: _) => pure (true, n)

/-- Modelled from the spec: the four-strategy merge detection — PR
metadata, then PR-by-branch, then `git branch --merged`, then commit
ancestry — each later strategy attempted only when the earlier ones
produced no positive result. -/
def IsBranchMergedWithPRBranch (env : GoEnv) (repoRoot branchName mainBranch : String) :
    M MergeStatus := do
  let er ← M.attempt (Git.BranchExistsOnRemote env repoRoot branchName)
  let existsOnRemote ← (match er with
    | Except.error e => do
      let _ ← outputW MsgType.warning ("Failed to check remote branch: " ++ e)
      pure false
    | Except.ok b => pure b)
  let pr ← M.attempt (checkPRMergeStatus env repoRoot)
  match pr with
  | Except.ok (true, prNumber) =>
    pure { isMerged := true, method := "pr", prNumber := prNumber,
           existsOnRemote := existsOnRemote }
  | _ => do
    let pb ← M.attempt (checkPRByBranchName env repoRoot branchName)
    match pb with
    | Except.ok (true, prNumber) =>
      pure { isMerged := true, method := "pr-branch", prNumber := prNumber,
             existsOnRemote := existsOnRemote }
    | _ => do
      let gm ← M.attempt (Git.IsBranchMerged env repoRoot mainBranch branchName)
      match gm with
      | Except.error e => do
        let _ ← outputW MsgType.warning ("git branch --merged check failed: " ++ e)
        commitFallback env repoRoot branchName mainBranch existsOnRemote
      | Except.ok true =>
        pure { isMerged := true, method := "git", existsOnRemote := existsOnRemote }
      | Except.ok false =>
        commitFallback env repoRoot branchName mainBranch existsOnRemote

/-- C2: each of the four strategies detects the merge independently —
whenever a strategy is positive and every earlier strategy was
inconclusive (errored or negative), the result is a positive
`MergeStatus` tagged with that strategy's method, in priority order
pr, pr-branch, git, commit. -/
theorem IsBranchMergedWithPRBranch_any_strategy (env : GoEnv)
    (rr bn mb : String) (er : Bool)
    (her : (Git.BranchExistsOnRemote env rr bn).1 = Except.ok er) :
    (∀ n, (checkPRMergeStatus env rr).1 = Except.ok (true, n) →
      (IsBranchMergedWithPRBranch env rr bn mb).1 = Except.ok
        { isMerged := true, method := "pr", prNumber := n, existsOnRemote := er }) ∧
    (∀ n, ((∃ ep, (checkPRMergeStatus env rr).1 = Except.error ep) ∨
        (∃ n0, (checkPRMergeStatus env rr).1 = Except.ok (false, n0))) →
      (checkPRByBranchName env rr bn).1 = Except.ok (true, n) →
      (IsBranchMergedWithPRBranch env rr bn mb).1 = Except.ok
        { isMerged := true, method := "pr-branch", prNumber := n, existsOnRemote := er }) ∧
    (((∃ ep, (checkPRMergeStatus env rr).1 = Except.error ep) ∨
        (∃ n0, (checkPRMergeStatus env rr).1 = Except.ok (false, n0))) →
      ((∃ ep, (checkPRByBranchName env rr bn).1 = Except.error ep) ∨
        (∃ n0, (checkPRByBranchName env rr bn).1 = Except.ok (false, n0))) →
      (Git.IsBranchMerged env rr mb bn).1 = Except.ok true →
      (IsBranchMergedWithPRBranch env rr bn mb).1 = Except.ok
        { isMerged := true, method := "git", existsOnRemote := er }) ∧
    (((∃ ep, (checkPRMergeStatus env rr).1 = Except.error ep) ∨
        (∃ n0, (checkPRMergeStatus env rr).1 = Except.ok (false, n0))) →
      ((∃ ep, (checkPRByBranchName env rr bn).1 = Except.error ep) ∨
        (∃ n0, (checkPRByBranchName env rr bn).1 = Except.ok (false, n0))) →
      (Git.IsBranchMerged env rr mb bn).1 = Except.ok false →
      (checkCommitMerged env rr bn mb).1 = Except.ok true →
      (IsBranchMergedWithPRBranch env rr bn mb).1 = Except.ok
        { isMerged := true, method := "commit", existsOnRemote := er }) := by
  refine ⟨?_, ?_, ?_, ?_⟩
  · intro n h1
    unfold IsBranchMergedWithPRBranch
    refine M.fst_bind_eq (a := (Git.BranchExistsOnRemote env rr bn).1) rfl ?_
    rw [her]
    refine M.fst_bind_eq (a := er) rfl ?_
    refine M.fst_bind_eq (a := (checkPRMergeStatus env rr).1) rfl ?_
    rw [h1]
    rfl
  · intro n hs1 h2
    unfold IsBranchMergedWithPRBranch
    refine M.fst_bind_eq (a := (Git.BranchExistsOnRemote env rr bn).1) rfl ?_
    rw [her]
    refine M.fst_bind_eq (a := er) rfl ?_
    refine M.fst_bind_eq (a := (checkPRMergeStatus env rr).1) rfl ?_
    rcases hs1 with ⟨ep, h1⟩ | ⟨n0, h1⟩ <;> rw [h1] <;>
      (refine M.fst_bind_eq (a := (checkPRByBranchName env rr bn).1) rfl ?_; rw [h2]; rfl)
  · intro hs1 hs2 h3
    unfold IsBranchMergedWithPRBranch
    refine M.fst_bind_eq (a := (Git.BranchExistsOnRemote env rr bn).1) rfl ?_
    rw [her]
    refine M.fst_bind_eq (a := er) rfl ?_
    refine M.fst_bind_eq (a := (checkPRMergeStatus env rr).1) rfl ?_
    rcases hs1 with ⟨ep, h1⟩ | ⟨n0, h1⟩ <;> rw [h1] <;>
      (refine M.fst_bind_eq (a := (checkPRByBranchName env rr bn).1) rfl ?_;
       rcases hs2 with ⟨e2, h2⟩ | ⟨n2, h2⟩ <;> rw [h2] <;>
         (refine M.fst_bind_eq (a := (Git.IsBranchMerged env rr mb bn).1) rfl ?_; rw [h3];
          rfl))
  · intro hs1 hs2 h3 h4
    unfold IsBranchMergedWithPRBranch
    refine M.fst_bind_eq (a := (Git.BranchExistsOnRemote env rr bn).1) rfl ?_
    rw [her]
    refine M.fst_bind_eq (a := er) rfl ?_
    refine M.fst_bind_eq (a := (checkPRMergeStatus env rr).1) rfl ?_
    rcases hs1 with ⟨ep, h1⟩ | ⟨n0, h1⟩ <;> rw [h1] <;>
      (refine M.fst_bind_eq (a := (checkPRByBranchName env rr bn).1) rfl ?_;
       rcases hs2 with ⟨e2, h2⟩ | ⟨n2, h2⟩ <;> rw [h2] <;>
         (refine M.fst_bind_eq (a := (Git.IsBranchMerged env rr mb bn).1) rfl ?_;
          rw [h3];
          exact commitFallback_ok env rr bn mb er true h4))

/-- Oracle where PR metadata names PR 42 and the forge reports it
merged. -/
def envC2a : GoEnv :=
  { baseEnv with
    readFile := fun p =>
      if p = "/r/.monkeypuzzle/pr-metadata.json" then Except.ok "md" else Except.error FsErr.notExist
    parsePRMetadata := fun s =>
      if s = "md" then Except.ok { prNumber := 42 } else Except.error "invalid metadata"
    parseMergedAt := fun s =>
      if s = "view-json" then Except.ok (some "2024-01-01T00:00:00Z") else Except.error "invalid"
    execDir := fun _ _ args =>
      if args = ["ls-remote", "--heads", "origin", "b"] then { output := "", err := none }
      else if args = ["pr", "view", "42", "--json", "mergedAt"] then
        { output := "view-json", err := none }
      else { output := "", err := some "unexpected command" } }

/-- Oracle with no PR metadata where the merged-PR-by-branch query
returns PR 7. -/
def envC2b : GoEnv :=
  { baseEnv with
    parsePRList := fun s => if s = "list-json" then Except.ok [7] else Except.error "invalid"
    execDir := fun _ _ args =>
      if args = ["ls-remote", "--heads", "origin", "b"] then { output := "", err := none }
      else if args = ["pr", "list", "--head", "b", "--state", "merged", "--json", "number",
          "--limit", "1"] then
        { output := "list-json", err := none }
      else { output := "", err := some "unexpected command" } }

/-- Oracle where only `git branch --merged` detects the merge. -/
def envC2c : GoEnv :=
  { baseEnv with
    parsePRList := fun s => if s = "list-json" then Except.ok [] else Except.error "invalid"
    execDir := fun _ _ args =>
      if args = ["ls-remote", "--heads", "origin", "b"] then { output := "", err := none }
      else if args = ["pr", "list", "--head", "b", "--state", "merged", "--json", "number",
          "--limit", "1"] then
        { output := "list-json", err := none }
      else if args = ["branch", "--merged", "main"] then { output := "b\n", err := none }
      else { output := "", err := some "unexpected command" } }

/-- Oracle where only the commit-ancestry fallback detects the merge. -/
def envC2d : GoEnv :=
  { baseEnv with
    parsePRList := fun s => if s = "list-json" then Except.ok [] else Except.error "invalid"
    execDir := fun _ _ args =>
      if args = ["ls-remote", "--heads", "origin", "b"] then { output := "", err := none }
      else if args = ["pr", "list", "--head", "b", "--state", "merged", "--json", "number",
          "--limit", "1"] then
        { output := "list-json", err := none }
      else if args = ["branch", "--merged", "main"] then { output := "other\n", err := none }
      else if args = ["rev-parse", "b"] then { output := "abc\n", err := none }
      else if args = ["merge-base", "--is-ancestor", "abc", "main"] then
        { output := "", err := none }
      else { output := "", err := some "unexpected command" } }

theorem IsBranchMergedWithPRBranch_any_strategy_witness :
    (IsBranchMergedWithPRBranch envC2a "/r" "b" "main").1 = Except.ok
      { isMerged := true, method := "pr", prNumber := 42, existsOnRemote := false } ∧
    (IsBranchMergedWithPRBranch envC2b "/r" "b" "main").1 = Except.ok
      { isMerged := true, method := "pr-branch", prNumber := 7, existsOnRemote := false } ∧
    (IsBranchMergedWithPRBranch envC2c "/r" "b" "main").1 = Except.ok
      { isMerged := true, method := "git", existsOnRemote := false } ∧
    (IsBranchMergedWithPRBranch envC2d "/r" "b" "main").1 = Except.ok
      { isMerged := true, method := "commit", existsOnRemote := false } :=
  ⟨(IsBranchMergedWithPRBranch_any_strategy envC2a "/r" "b" "main" false (by rfl)).1
      42 (by rfl),
   (IsBranchMergedWithPRBranch_any_strategy envC2b "/r" "b" "main" false (by rfl)).2.1
      7 (Or.inl ⟨"no PR metadata found: failed to read PR metadata: file does not exist", by rfl⟩)
      (by rfl),
   (IsBranchMergedWithPRBranch_any_strategy envC2c "/r" "b" "main" false (by rfl)).2.2.1
      (Or.inl ⟨"no PR metadata found: failed to read PR metadata: file does not exist", by rfl⟩)
      (Or.inr ⟨0, by rfl⟩) (by rfl),
   (IsBranchMergedWithPRBranch_any_strategy envC2d "/r" "b" "main" false (by rfl)).2.2.2
      (Or.inl ⟨"no PR metadata found: failed to read PR metadata: file does not exist", by rfl⟩)
      (Or.inr ⟨0, by rfl⟩) (by rfl) (by rfl)⟩

/-- Oracle for a worktree whose main branch is ahead: the merge-base
count probe reports 2 missing commits. -/
def envC1 : GoEnv :=
  { baseEnv with
    execDir := fun _ _ args =>
      if args = ["rev-parse", "--git-dir"] then
        { output := "/repo/.git/worktrees/p1\n", err := none }
      else if args = ["rev-parse", "--show-toplevel"] then
        { output := "/pieces/p1\n", err := none }
      else if args = ["rev-parse", "--abbrev-ref", "HEAD"] then
        { output := "piece-p1\n", err := none }
      else if args = ["merge-base", "main", "piece-p1"] then
        { output := "abc123\n", err := none }
      else if args = ["rev-list", "--count", "abc123..main"] then
        { output := "2\n", err := none }
      else { output := "", err := some "unexpected command" } }

theorem MergePiece_ahead_safe_witness :
    (MergePiece envC1 "/pieces/p1" "main").1 = Except.error
      "cannot merge: main branch has commits not in piece worktree. Run 'mp piece update' first" ∧
    ∀ c ∈ (MergePiece envC1 "/pieces/p1" "main").2, gitMut c = false :=
  MergePiece_ahead_safe envC1 "/pieces/p1" "main"
    { inPiece := true, pieceName := "p1", worktreePath := "/pieces/p1", repoRoot := "/repo" }
    "piece-p1" "/repo" (by rfl) (by rfl) (by rfl) (by rfl) (by rfl) (by rfl)

theorem Status_total_witness :
    ((Status envStatErr "/w").1 = Except.ok { inPiece := false }) ∧
    ((Status envStatMain "/w").1 = Except.ok
      { inPiece := false,
        repoRoot := (match (Git.RepoRoot envStatMain "/w").1 with
          | Except.error _ => ""
          | Except.ok r => r) }) ∧
    ((Status envStatWt "/w").1 = Except.ok
      { inPiece := true,
        pieceName := fpBase (match (Git.RepoRoot envStatWt "/w").1 with
          | Except.error _ => "/w"
          | Except.ok r => r),
        worktreePath := (match (Git.RepoRoot envStatWt "/w").1 with
          | Except.error _ => "/w"
          | Except.ok r => r),
        repoRoot := (match (Git.GetMainRepoRoot envStatWt "/w").1 with
          | Except.error _ => ""
          | Except.ok r => r) }) :=
  ⟨(Status_total envStatErr "/w").2.1 "failed to get git dir: exit status 128" (by rfl),
   (Status_total envStatMain "/w").2.2.1 "/w/.git" (by rfl) (by rfl),
   (Status_total envStatWt "/w").2.2.2 "/repo/.git/worktrees/p1" (by rfl) (by rfl)⟩

end MP
